import Mathlib

/-!
Funding-rate arbitrage bot: spread gate and lot planner.

A shallow embedding of `src/utils/priceChecker.js`, `src/strategies/openPosition.js`
and `src/strategies/closePosition.js`.

JavaScript numbers are modelled as rationals: every decimal literal of the source is
the rational it denotes (`0.01` is `1/100`), arithmetic is exact.  A value that is not
a finite number in the source (`NaN`, `undefined`, `null`) is modelled by the absence
of a value.  Timed waits (`setTimeout`) and console output are not modelled.
-/

namespace AsterArb

/-- Equality of results is decidable when it is for errors and values. -/
instance instDecidableEqExcept {ε α : Type} [DecidableEq ε] [DecidableEq α] :
    DecidableEq (Except ε α)
  | .ok a, .ok b => if h : a = b then isTrue (by rw [h]) else isFalse (by intro h2; cases h2; exact h rfl)
  | .error a, .error b => if h : a = b then isTrue (by rw [h]) else isFalse (by intro h2; cases h2; exact h rfl)
  | .ok _, .error _ => isFalse (by intro h; cases h)
  | .error _, .ok _ => isFalse (by intro h; cases h)

/-! ## `PriceChecker` -/

/-- Outcome of one leg's `getPrice(symbol)`: the request is rejected, the parsed
price is not a number (`parseFloat` gave `NaN`), or a number is returned. -/
inductive PriceFetch where
  | failed
  | missing
  | value (p : ℚ)
  deriving DecidableEq, Repr

/-- The object `checkSpread` returns. -/
structure SpreadInfo where
  futuresPrice : ℚ
  spotPrice : ℚ
  diffPercent : ℚ
  isWithinThreshold : Bool
  deriving DecidableEq, Repr

/-- The errors raised inside `PriceChecker` (message text is not modelled). -/
inductive SpreadError where
  | fetchFailed
  | invalidPrices
  | invalidSpotPrice
  deriving DecidableEq, Repr

/-- Source: `PriceChecker.getPrices`: both legs are fetched with `Promise.all`; a rejected
fetch rejects the whole call, then `!futuresPrice || !spotPrice || futuresPrice <= 0
|| spotPrice <= 0` rejects a `NaN`, zero or negative price. -/
def getPrices (futures spot : PriceFetch) : Except SpreadError (ℚ × ℚ) :=
  match futures, spot with
  | .failed, _ => .error .fetchFailed
  | _, .failed => .error .fetchFailed
  | .missing, _ => .error .invalidPrices
  | _, .missing => .error .invalidPrices
  | .value f, .value s =>
    if f = 0 ∨ s = 0 ∨ f ≤ 0 ∨ s ≤ 0 then .error .invalidPrices else .ok (f, s)

/-- Source: `PriceChecker.calculateDiffPercent`. -/
def calculateDiffPercent (futuresPrice spotPrice : ℚ) : Except SpreadError ℚ :=
  if spotPrice = 0 ∨ spotPrice ≤ 0 then .error .invalidSpotPrice
  else .ok |((futuresPrice - spotPrice) / spotPrice) * 100|

/-- Source: `PriceChecker.checkSpread` for the two leg outcomes of this attempt. -/
def checkSpread (maxDiffPercent : ℚ) (futures spot : PriceFetch) :
    Except SpreadError SpreadInfo :=
  match getPrices futures spot with
  | .error e => .error e
  | .ok (futuresPrice, spotPrice) =>
    match calculateDiffPercent futuresPrice spotPrice with
    | .error e => .error e
    | .ok diffPercent =>
      .ok { futuresPrice := futuresPrice
            spotPrice := spotPrice
            diffPercent := diffPercent
            isWithinThreshold := decide (diffPercent ≤ maxDiffPercent) }

/-- The reference definition of a spread sample, written from the specification's
words: no sample unless both prices are obtained and positive; otherwise the
divergence is `|futures - spot| / spot * 100` and the threshold test is inclusive. -/
def checkSpreadSpec (maxDiffPercent : ℚ) (futures spot : PriceFetch) : Option SpreadInfo :=
  match futures, spot with
  | .value f, .value s =>
    if 0 < f ∧ 0 < s then
      some { futuresPrice := f
             spotPrice := s
             diffPercent := |f - s| / s * 100
             isWithinThreshold := decide (|f - s| / s * 100 ≤ maxDiffPercent) }
    else none
  | _, _ => none

/-- Source: `PriceChecker.waitForGoodSpread`.  `polls i` is what the two legs answer at the
`i`-th poll (counted from 0), `attempt` is the source's counter before `attempt++`.
The loop of the source has no bound: `fuel` bounds the polls the model follows, and
`none` means the loop is still polling when the fuel is used up.  A failed check is
caught and retried, so there is no error result.  The result carries the number of
polls made. -/
def waitForGoodSpread (maxDiffPercent : ℚ) (polls : Nat → PriceFetch × PriceFetch) :
    Nat → Nat → Option (SpreadInfo × Nat)
  | 0, _ => none
  | fuel + 1, attempt =>
    match checkSpread maxDiffPercent (polls attempt).1 (polls attempt).2 with
    | .ok spreadInfo =>
      if spreadInfo.isWithinThreshold then some (spreadInfo, attempt + 1)
      else waitForGoodSpread maxDiffPercent polls fuel (attempt + 1)
    | .error _ => waitForGoodSpread maxDiffPercent polls fuel (attempt + 1)

/-! ## Orders and the dual-leg executor -/

inductive Leg where
  | futures
  | spot
  deriving DecidableEq, Repr

inductive Side where
  | buy
  | sell
  deriving DecidableEq, Repr

/-- What the run does that the venue can see: a spread check that failed, a spread
sample, an order handed to `placeMarketOrder`. -/
inductive Event where
  | checkFailed (e : SpreadError)
  | sample (s : SpreadInfo)
  | order (leg : Leg) (side : Side) (quantity : ℚ) (reduceOnly : Bool)
  deriving DecidableEq, Repr

/-- The fields of a `placeMarketOrder` result that the strategies read. -/
structure OrderResult where
  price : ℚ
  executedQty : ℚ
  deriving DecidableEq, Repr

/-- The object `executeLot` returns. -/
structure LotResult where
  futures : OrderResult
  spot : OrderResult
  spreadInfo : SpreadInfo
  deriving DecidableEq, Repr

/-- The errors a strategy run can end with (message text is not modelled, except the
number the `Lot size too small` message carries; `none` there is a suggestion that is
not a finite number). -/
inductive ExecError where
  | invalidPrices
  | invalidQuantity
  | orderFailed
  | notExecuted
  | positionsFailed
  | priceFailed
  | noPositions
  | lotSizeTooSmall (suggestedLotPercent : Option ℤ)
  deriving DecidableEq, Repr

/-- The event one poll leaves in the trace. -/
def pollEvent (maxDiffPercent : ℚ) (poll : PriceFetch × PriceFetch) : Event :=
  match checkSpread maxDiffPercent poll.1 poll.2 with
  | .ok s => .sample s
  | .error e => .checkFailed e

/-- The events of the first `n` polls, oldest first. -/
def pollEvents (maxDiffPercent : ℚ) (polls : Nat → PriceFetch × PriceFetch) (n : Nat) :
    List Event :=
  (List.range n).map (fun i => pollEvent maxDiffPercent (polls i))

/-- One call of `executeLot`: the events it caused, in order, and what it returned
or threw. -/
structure LotRun where
  trace : List Event
  result : Except ExecError LotResult
  deriving DecidableEq, Repr

/-- Source: `OpenPositionStrategy.executeLot`.  `futuresOrder q` and `spotOrder q` are what
`futuresAPI.openShort(symbol, q)` and `spotAPI.buy(symbol, q)` answer.  Both orders
are started by `Promise.all`, so both are in the trace also when one is rejected.
`isFinite` holds of every quotient here because both prices are non-zero. -/
def OpenPositionStrategy.executeLot (maxDiffPercent : ℚ)
    (polls : Nat → PriceFetch × PriceFetch)
    (futuresOrder spotOrder : ℚ → Except ExecError OrderResult)
    (lotSizeUSD : ℚ) (fuel : Nat) : Option LotRun :=
  match waitForGoodSpread maxDiffPercent polls fuel 0 with
  | none => none
  | some (spreadInfo, attempts) =>
    let polled := pollEvents maxDiffPercent polls attempts
    if spreadInfo.futuresPrice = 0 ∨ spreadInfo.spotPrice = 0 ∨
        spreadInfo.futuresPrice ≤ 0 ∨ spreadInfo.spotPrice ≤ 0 then
      some ⟨polled, .error .invalidPrices⟩
    else
      let futuresQty := lotSizeUSD / spreadInfo.futuresPrice
      let spotQty := lotSizeUSD / spreadInfo.spotPrice
      if futuresQty ≤ 0 ∨ spotQty ≤ 0 then some ⟨polled, .error .invalidQuantity⟩
      else
        let trace := polled ++
          [.order .futures .sell futuresQty false, .order .spot .buy spotQty false]
        match futuresOrder futuresQty, spotOrder spotQty with
        | .error e, _ => some ⟨trace, .error e⟩
        | .ok _, .error e => some ⟨trace, .error e⟩
        | .ok f, .ok s => some ⟨trace, .ok ⟨f, s, spreadInfo⟩⟩

/-- Source: `ClosePositionStrategy.executeLot`.  `futuresOrder q` and `spotOrder q` are what
`futuresAPI.closeShort(symbol, q)` and `spotAPI.sell(symbol, q)` answer. -/
def ClosePositionStrategy.executeLot (maxDiffPercent : ℚ)
    (polls : Nat → PriceFetch × PriceFetch)
    (futuresOrder spotOrder : ℚ → Except ExecError OrderResult)
    (futuresQty spotQty : ℚ) (fuel : Nat) : Option LotRun :=
  match waitForGoodSpread maxDiffPercent polls fuel 0 with
  | none => none
  | some (spreadInfo, attempts) =>
    let trace := pollEvents maxDiffPercent polls attempts ++
      [.order .futures .buy futuresQty false, .order .spot .sell spotQty false]
    match futuresOrder futuresQty, spotOrder spotQty with
    | .error e, _ => some ⟨trace, .error e⟩
    | .ok _, .error e => some ⟨trace, .error e⟩
    | .ok f, .ok s => some ⟨trace, .ok ⟨f, s, spreadInfo⟩⟩

/-- The poll `k` gives the sample `info` and it is within the threshold. -/
def GoodAt (maxDiffPercent : ℚ) (polls : Nat → PriceFetch × PriceFetch) (k : Nat)
    (info : SpreadInfo) : Prop :=
  checkSpread maxDiffPercent (polls k).1 (polls k).2 = .ok info ∧
    info.isWithinThreshold = true

/-- The poll `k` is the first one that gives a sample within the threshold: every
poll before it is a failed check or a sample out of threshold. -/
def FirstGood (maxDiffPercent : ℚ) (polls : Nat → PriceFetch × PriceFetch) (k : Nat)
    (info : SpreadInfo) : Prop :=
  GoodAt maxDiffPercent polls k info ∧
    ∀ j, j < k → ∀ i, ¬ GoodAt maxDiffPercent polls j i

/-- Whether every order of a trace is submitted while the most recent sample is
within the threshold; `cur` is the most recent sample before the trace. -/
def gatedFrom : Option SpreadInfo → List Event → Bool
  | _, [] => true
  | _, .sample s :: rest => gatedFrom (some s) rest
  | cur, .checkFailed _ :: rest => gatedFrom cur rest
  | cur, .order _ _ _ _ :: rest =>
    (match cur with
      | some s => s.isWithinThreshold
      | none => false) && gatedFrom cur rest

/-- The gating property of a whole trace. -/
def gated (trace : List Event) : Bool := gatedFrom none trace

/-- The most recent sample after a list of events. -/
def currentSample : Option SpreadInfo → List Event → Option SpreadInfo
  | cur, [] => cur
  | _, .sample s :: rest => currentSample (some s) rest
  | cur, .checkFailed _ :: rest => currentSample cur rest
  | cur, .order _ _ _ _ :: rest => currentSample cur rest

/-- Polls used as a concrete instance: a rejected fetch, then a 1 % divergence, then
the prices 100.05 and 100. -/
def samplePolls : Nat → PriceFetch × PriceFetch
  | 0 => (.failed, .value 100)
  | 1 => (.value 101, .value 100)
  | _ => (.value (10005 / 100), .value 100)

/-! ## `OpenPositionStrategy.execute` -/

/-- Outcome of the two `getBalance('USDT')` reads made before a lot: a rejected read,
or the free balance on each venue (`none` when the account does not list the
asset, where `getBalance` returns `null`). -/
inductive BalanceRead where
  | failed
  | ok (spotFree futuresFree : Option ℚ)
  deriving DecidableEq, Repr

/-- What the venues answer during an open run: `balance n` to the balance reads of
lot `n`, and `lot n size` to `executeLot(symbol, size, n, totalLots)`. -/
structure OpenEnv where
  balance : Nat → BalanceRead
  lot : Nat → ℚ → Except ExecError LotResult

/-- How a loop of the model stands: `running` when the fuel of the model is used up
before the loop of the source ends, `completed` when the loop has ended and the
summary is returned, `failed e` when `e` is thrown out of `execute`. -/
inductive RunStatus where
  | running
  | completed
  | failed (e : ExecError)
  deriving DecidableEq, Repr

/-- The variables of the open loop. `lotSizes` is not in the source: it records the
size passed to each call of `executeLot`, oldest first. -/
structure OpenState where
  remainingSizeUSD : ℚ
  totalFuturesQty : ℚ
  totalSpotQty : ℚ
  totalFuturesValue : ℚ
  totalSpotValue : ℚ
  currentLot : Nat
  results : List LotResult
  lotSizes : List ℚ
  deriving DecidableEq, Repr

structure OpenRun where
  state : OpenState
  status : RunStatus
  deriving DecidableEq, Repr

/-- Source: `const totalLots = Math.ceil(totalSizeUSD / lotSizeUSD)`. -/
def OpenPositionStrategy.totalLots (totalSizeUSD lotSizeUSD : ℚ) : ℤ :=
  ⌈totalSizeUSD / lotSizeUSD⌉

/-- Source: `const nextRemainingUSD = remainingSizeUSD - currentLotSizeUSD`, before the merge. -/
def nextRemainingUSD (lotSizeUSD remainingSizeUSD : ℚ) : ℚ :=
  remainingSizeUSD - min lotSizeUSD remainingSizeUSD

/-- The value of `currentLotSizeUSD` after the tail merge. -/
def currentLotSizeUSD (lotSizeUSD remainingSizeUSD : ℚ) : ℚ :=
  if nextRemainingUSD lotSizeUSD remainingSizeUSD > 1 / 100 ∧
      nextRemainingUSD lotSizeUSD remainingSizeUSD < 5 then
    min lotSizeUSD remainingSizeUSD + nextRemainingUSD lotSizeUSD remainingSizeUSD
  else min lotSizeUSD remainingSizeUSD

/-- The balance test of the open loop: `true` when the loop stops for lack of
balance. A rejected read is caught and the lot proceeds. -/
def insufficientBalance (b : BalanceRead) (currentLotSizeUSD : ℚ) : Bool :=
  match b with
  | .failed => false
  | .ok spotFree futuresFree =>
    decide (spotFree.getD 0 < currentLotSizeUSD / 2 ∨
      futuresFree.getD 0 < currentLotSizeUSD / 2)

/-- The updates of the open loop after a lot that filled on both legs. -/
def OpenState.accumulate (st : OpenState) (size : ℚ) (result : LotResult) : OpenState :=
  { remainingSizeUSD := st.remainingSizeUSD -
      (result.futures.executedQty * result.futures.price +
        result.spot.executedQty * result.spot.price) / 2
    totalFuturesQty := st.totalFuturesQty + result.futures.executedQty
    totalSpotQty := st.totalSpotQty + result.spot.executedQty
    totalFuturesValue := st.totalFuturesValue +
      result.futures.executedQty * result.futures.price
    totalSpotValue := st.totalSpotValue + result.spot.executedQty * result.spot.price
    currentLot := st.currentLot + 1
    results := st.results ++ [result]
    lotSizes := st.lotSizes ++ [size] }

/-- The `while (remainingSizeUSD > 0.01)` loop of `OpenPositionStrategy.execute`;
one unit of fuel is one test of the loop condition. -/
def openLoop (env : OpenEnv) (lotSizeUSD : ℚ) : Nat → OpenState → OpenRun
  | 0, st => ⟨st, .running⟩
  | fuel + 1, st =>
    if st.remainingSizeUSD > 1 / 100 then
      let size := currentLotSizeUSD lotSizeUSD st.remainingSizeUSD
      if size < 5 then
        ⟨{ st with currentLot := st.currentLot + 1 }, .completed⟩
      else if insufficientBalance (env.balance (st.currentLot + 1)) size then
        ⟨{ st with currentLot := st.currentLot + 1 }, .completed⟩
      else
        match env.lot (st.currentLot + 1) size with
        | .error e =>
          ⟨{ st with currentLot := st.currentLot + 1, lotSizes := st.lotSizes ++ [size] },
            .failed e⟩
        | .ok result =>
          if result.futures.executedQty = 0 ∨ result.spot.executedQty = 0 then
            ⟨{ st with currentLot := st.currentLot + 1,
                       lotSizes := st.lotSizes ++ [size] }, .failed .notExecuted⟩
          else openLoop env lotSizeUSD fuel (st.accumulate size result)
    else ⟨st, .completed⟩

/-- The state `execute` starts the open loop from. -/
def OpenState.initial (totalSizeUSD : ℚ) : OpenState :=
  { remainingSizeUSD := totalSizeUSD, totalFuturesQty := 0, totalSpotQty := 0,
    totalFuturesValue := 0, totalSpotValue := 0, currentLot := 0, results := [],
    lotSizes := [] }

/-- The lot loop of `OpenPositionStrategy.execute(symbol, totalSizeUSD, lotSizeUSD)`
from its initial state. -/
def OpenPositionStrategy.execute (env : OpenEnv) (totalSizeUSD lotSizeUSD : ℚ)
    (fuel : Nat) : OpenRun :=
  openLoop env lotSizeUSD fuel (OpenState.initial totalSizeUSD)

/-- Every lot fills at exactly its requested USD notional on both legs. -/
def ExactFills (env : OpenEnv) : Prop :=
  ∀ n size, ∃ r, env.lot n size = .ok r ∧
    r.futures.executedQty * r.futures.price = size ∧
    r.spot.executedQty * r.spot.price = size

/-- The balance check stops no lot of size at most `totalSizeUSD`. -/
def BalanceNeverStops (env : OpenEnv) (totalSizeUSD : ℚ) : Prop :=
  ∀ n size, size ≤ totalSizeUSD → insufficientBalance (env.balance n) size = false

/-- A venue with 1000 USDT free on each side and every lot filled at price 1 for
exactly the requested size. -/
def unitFillEnv : OpenEnv where
  balance := fun _ => .ok (some 1000) (some 1000)
  lot := fun _ size => .ok ⟨⟨1, size⟩, ⟨1, size⟩, ⟨1, 1, 0, true⟩⟩

/-- The sizes of the lots of an open run with exact fills, for a remaining size
`q * lotSizeUSD + t` with `q ≥ 1` full lots and a tail `0 ≤ t < lotSizeUSD`: the tail
is merged into the last full lot when it is between 0.01 and 5, is a lot of its own
when it is at least 5, and is left when it is at most 0.01. -/
def plannedLots (lotSizeUSD : ℚ) (q : Nat) (t : ℚ) : List ℚ :=
  List.replicate (q - 1) lotSizeUSD ++
    [if 1 / 100 < t ∧ t < 5 then lotSizeUSD + t else lotSizeUSD] ++
    (if 5 ≤ t then [t] else [])

/-! ## `ClosePositionStrategy.execute` -/

/-- The close-mode validation of `main`: `closePercent` in `(0, 100]` and
`lotSizePercent` in `(0, closePercent]`. -/
def closeArgsValid (closePercent lotSizePercent : ℚ) : Bool :=
  !(decide (closePercent ≤ 0) || decide (closePercent > 100)) &&
    !(decide (lotSizePercent ≤ 0) || decide (lotSizePercent > closePercent))

/-- What `getPositionsWithRetry` gives: it throws after its last attempt, or it
returns the signed futures position amount (`none` when `getPosition` returns
`null`) and the free spot balance of the base asset (`none` when `getBalance`
returns `null`). -/
inductive PositionsRead where
  | failed
  | ok (positionAmt : Option ℚ) (spotFree : Option ℚ)
  deriving DecidableEq, Repr

/-- What the venues answer during a close run. Index 0 is the read made before the
loop, index `k ≥ 1` the read made for lot `k`. `price k` is `futuresAPI.getPrice`
(`none` when it is rejected), `lot k fq sq` is what `executeLot(symbol, fq, sq, k,
totalLots)` returns or throws, `reduceOnlyClose k q` is what
`futuresAPI.closeShort(symbol, q, true)` returns or throws in lot `k`. -/
structure CloseEnv where
  positions : Nat → PositionsRead
  price : Nat → Option ℚ
  lot : Nat → ℚ → ℚ → Except ExecError LotResult
  reduceOnlyClose : Nat → ℚ → Except ExecError OrderResult

/-- The order-submitting calls `ClosePositionStrategy.execute` makes: `executeLot`,
which submits a futures buy and a spot sell after the spread gate, and the direct
reduce-only `closeShort`. -/
inductive CloseAction where
  | executeLot (lot : Nat) (futuresQty spotQty : ℚ)
  | closeShortReduceOnly (lot : Nat) (quantity : ℚ)
  deriving DecidableEq, Repr

/-- The variables of the close loop. `actions` is not in the source: it records the
order-submitting calls, oldest first. -/
structure CloseState where
  currentLot : Nat
  totalFuturesQty : ℚ
  totalSpotQty : ℚ
  totalFuturesValue : ℚ
  totalSpotValue : ℚ
  results : List LotResult
  actions : List CloseAction
  deriving DecidableEq, Repr

structure CloseRun where
  state : CloseState
  status : RunStatus
  deriving DecidableEq, Repr

namespace ClosePositionStrategy

/-- Source: `const totalLots = Math.ceil(closePercentage / lotSizePercent)`. -/
def totalLots (closePercentage lotSizePercent : ℚ) : ℤ :=
  ⌈closePercentage / lotSizePercent⌉

/-- Source: `position ? Math.abs(position.positionAmt) : 0`. -/
def futuresQtyOf (positionAmt : Option ℚ) : ℚ :=
  match positionAmt with
  | some a => |a|
  | none => 0

/-- Source: `balance ? balance.free : 0`. -/
def spotQtyOf (spotFree : Option ℚ) : ℚ :=
  match spotFree with
  | some b => b
  | none => 0

/-- Source: `lotSizePercent / (100 - (currentLot - 1) * lotSizePercent)`. The denominator is
positive for the lots of a run that passed `closeArgsValid`. -/
def lotPercentOfRemaining (lotSizePercent : ℚ) (currentLot : Nat) : ℚ :=
  lotSizePercent / (100 - ((currentLot : ℚ) - 1) * lotSizePercent)

/-- Source: `Math.min(nextRemainingFuturesQty * currentPrice, nextRemainingSpotQty *
currentPrice)`. -/
def nextRemainingUSD (lotSizePercent : ℚ) (currentLot : Nat)
    (remainingFuturesQty remainingSpotQty currentPrice : ℚ) : ℚ :=
  min ((remainingFuturesQty -
        remainingFuturesQty * lotPercentOfRemaining lotSizePercent currentLot) * currentPrice)
      ((remainingSpotQty -
        remainingSpotQty * lotPercentOfRemaining lotSizePercent currentLot) * currentPrice)

/-- The tail-merge test of the close loop. -/
def mergesTail (lotSizePercent : ℚ) (currentLot : Nat)
    (remainingFuturesQty remainingSpotQty currentPrice : ℚ) : Bool :=
  decide (nextRemainingUSD lotSizePercent currentLot remainingFuturesQty remainingSpotQty
      currentPrice > 1 / 100 ∧
    nextRemainingUSD lotSizePercent currentLot remainingFuturesQty remainingSpotQty
      currentPrice < 5)

/-- The value of `lotFuturesQty` after the tail-merge adjustment. -/
def lotFuturesQty (lotSizePercent : ℚ) (currentLot : Nat)
    (remainingFuturesQty remainingSpotQty currentPrice : ℚ) : ℚ :=
  if mergesTail lotSizePercent currentLot remainingFuturesQty remainingSpotQty currentPrice
  then remainingFuturesQty
  else min (remainingFuturesQty * lotPercentOfRemaining lotSizePercent currentLot)
    remainingFuturesQty

/-- The value of `lotSpotQty` after the tail-merge adjustment. -/
def lotSpotQty (lotSizePercent : ℚ) (currentLot : Nat)
    (remainingFuturesQty remainingSpotQty currentPrice : ℚ) : ℚ :=
  if mergesTail lotSizePercent currentLot remainingFuturesQty remainingSpotQty currentPrice
  then remainingSpotQty
  else min (remainingSpotQty * lotPercentOfRemaining lotSizePercent currentLot)
    remainingSpotQty

/-- Source: `Math.ceil((5 / Math.min(initialFuturesNotional, initialSpotValue)) * 100 *
(100 / closePercentage))`; `none` when a divisor is zero, where the source's value
is not a finite number. -/
def suggestedLotPercent (initialFuturesNotional initialSpotValue closePercentage : ℚ) :
    Option ℤ :=
  if min initialFuturesNotional initialSpotValue = 0 ∨ closePercentage = 0 then none
  else some ⌈(5 / min initialFuturesNotional initialSpotValue) * 100 *
    (100 / closePercentage)⌉

end ClosePositionStrategy

/-- The updates of the close loop after a lot that filled on both legs. -/
def CloseState.accumulate (st : CloseState) (futuresQty spotQty : ℚ)
    (result : LotResult) : CloseState :=
  { currentLot := st.currentLot + 1
    totalFuturesQty := st.totalFuturesQty + result.futures.executedQty
    totalSpotQty := st.totalSpotQty + result.spot.executedQty
    totalFuturesValue := st.totalFuturesValue +
      result.futures.executedQty * result.futures.price
    totalSpotValue := st.totalSpotValue + result.spot.executedQty * result.spot.price
    results := st.results ++ [result]
    actions := st.actions ++ [.executeLot (st.currentLot + 1) futuresQty spotQty] }

/-- The below-minimum branch of the close loop for lots that do not fail: a
reduce-only close of `lotFuturesQty` when it is positive (a rejected order is
caught), nothing on the spot leg. -/
def CloseState.closeBelowMinimum (env : CloseEnv) (st : CloseState)
    (lotFuturesQty : ℚ) : CloseState :=
  if lotFuturesQty > 0 then
    match env.reduceOnlyClose (st.currentLot + 1) lotFuturesQty with
    | .ok futuresOrder =>
      { st with
        currentLot := st.currentLot + 1
        totalFuturesQty := st.totalFuturesQty + futuresOrder.executedQty
        totalFuturesValue := st.totalFuturesValue +
          futuresOrder.executedQty * futuresOrder.price
        actions := st.actions ++ [.closeShortReduceOnly (st.currentLot + 1) lotFuturesQty] }
    | .error _ =>
      { st with
        currentLot := st.currentLot + 1
        actions := st.actions ++ [.closeShortReduceOnly (st.currentLot + 1) lotFuturesQty] }
  else { st with currentLot := st.currentLot + 1 }

open ClosePositionStrategy in
/-- The `while (currentLot < totalLots)` loop of `ClosePositionStrategy.execute`; the
first argument is `totalLots - currentLot`, the number of lots not yet started. -/
def closeLoop (env : CloseEnv) (closePercentage lotSizePercent : ℚ)
    (initialFuturesNotional initialSpotValue : ℚ) : Nat → CloseState → CloseRun
  | 0, st => ⟨st, .completed⟩
  | n + 1, st =>
    match env.positions (st.currentLot + 1) with
    | .failed => ⟨{ st with currentLot := st.currentLot + 1 }, .failed .positionsFailed⟩
    | .ok positionAmt spotFree =>
      let remainingFuturesQty := futuresQtyOf positionAmt
      let remainingSpotQty := spotQtyOf spotFree
      if remainingFuturesQty < 1 / 100000000 ∧ remainingSpotQty < 1 / 100000000 then
        ⟨{ st with currentLot := st.currentLot + 1 }, .completed⟩
      else
        match env.price (st.currentLot + 1) with
        | none => ⟨{ st with currentLot := st.currentLot + 1 }, .failed .priceFailed⟩
        | some currentPrice =>
          let futuresQty := lotFuturesQty lotSizePercent (st.currentLot + 1)
            remainingFuturesQty remainingSpotQty currentPrice
          let spotQty := lotSpotQty lotSizePercent (st.currentLot + 1)
            remainingFuturesQty remainingSpotQty currentPrice
          if futuresQty * currentPrice < 5 ∨ spotQty * currentPrice < 5 then
            if st.currentLot + 1 = 1 ∧ futuresQty * currentPrice < 5 ∧
                spotQty * currentPrice < 5 then
              ⟨{ st with currentLot := st.currentLot + 1 },
                .failed (.lotSizeTooSmall (suggestedLotPercent initialFuturesNotional
                  initialSpotValue closePercentage))⟩
            else ⟨st.closeBelowMinimum env futuresQty, .completed⟩
          else
            match env.lot (st.currentLot + 1) futuresQty spotQty with
            | .error e =>
              ⟨{ st with
                 currentLot := st.currentLot + 1
                 actions := st.actions ++
                   [.executeLot (st.currentLot + 1) futuresQty spotQty] }, .failed e⟩
            | .ok result =>
              if result.futures.executedQty = 0 ∨ result.spot.executedQty = 0 then
                ⟨{ st with
                   currentLot := st.currentLot + 1
                   actions := st.actions ++
                     [.executeLot (st.currentLot + 1) futuresQty spotQty] },
                  .failed .notExecuted⟩
              else
                closeLoop env closePercentage lotSizePercent initialFuturesNotional
                  initialSpotValue n (st.accumulate futuresQty spotQty result)

/-- The state `execute` starts the close loop from. -/
def CloseState.initial : CloseState :=
  { currentLot := 0, totalFuturesQty := 0, totalSpotQty := 0, totalFuturesValue := 0,
    totalSpotValue := 0, results := [], actions := [] }

open ClosePositionStrategy in
/-- Source: `ClosePositionStrategy.execute(symbol, closePercentage, lotSizePercent)` up to
the end of its lot loop. -/
def ClosePositionStrategy.execute (env : CloseEnv) (closePercentage lotSizePercent : ℚ) :
    CloseRun :=
  match env.positions 0 with
  | .failed => ⟨CloseState.initial, .failed .positionsFailed⟩
  | .ok positionAmt spotFree =>
    let initialFuturesQty := futuresQtyOf positionAmt
    let initialSpotQty := spotQtyOf spotFree
    if initialFuturesQty = 0 ∧ initialSpotQty = 0 then
      ⟨CloseState.initial, .failed .noPositions⟩
    else
      match env.price 0 with
      | none => ⟨CloseState.initial, .failed .priceFailed⟩
      | some currentPrice =>
        closeLoop env closePercentage lotSizePercent (initialFuturesQty * currentPrice)
          (initialSpotQty * currentPrice) (totalLots closePercentage lotSizePercent).toNat
          CloseState.initial

/-- A venue whose position changes only through the run's own fills, for lots of 2
units out of 10 on each leg: the read of lot `k` shows `10 - 2 (k - 1)` on each leg
(10 before the loop, the subtraction `k - 1` being on naturals), the price is 100 throughout, every order fills exactly the
requested quantity. -/
def decayEnv : CloseEnv where
  positions := fun k =>
    .ok (some (-(10 - 2 * ((k - 1 : ℕ) : ℚ)))) (some (10 - 2 * ((k - 1 : ℕ) : ℚ)))
  price := fun _ => some 100
  lot := fun _ fq sq => .ok ⟨⟨100, fq⟩, ⟨100, sq⟩, ⟨100, 100, 0, true⟩⟩
  reduceOnlyClose := fun _ q => .ok ⟨100, q⟩

/-- A venue with a short of 10 units, 1 unit of spot, the price 20 throughout and
every order filled exactly. -/
def imbalancedEnv : CloseEnv where
  positions := fun _ => .ok (some (-10)) (some 1)
  price := fun _ => some 20
  lot := fun _ fq sq => .ok ⟨⟨20, fq⟩, ⟨20, sq⟩, ⟨20, 20, 0, true⟩⟩
  reduceOnlyClose := fun _ q => .ok ⟨20, q⟩

/-- A venue with no futures position left, 10 units of spot, the price 100 throughout
and every order filled exactly. -/
def futuresDepletedEnv : CloseEnv where
  positions := fun _ => .ok none (some 10)
  price := fun _ => some 100
  lot := fun _ fq sq => .ok ⟨⟨100, fq⟩, ⟨100, sq⟩, ⟨100, 100, 0, true⟩⟩
  reduceOnlyClose := fun _ q => .ok ⟨100, q⟩

/-- A venue with a short of 10 units, no spot balance, the price 100 throughout and
every order filled exactly. -/
def spotDepletedEnv : CloseEnv where
  positions := fun _ => .ok (some (-10)) none
  price := fun _ => some 100
  lot := fun _ fq sq => .ok ⟨⟨100, fq⟩, ⟨100, sq⟩, ⟨100, 100, 0, true⟩⟩
  reduceOnlyClose := fun _ q => .ok ⟨100, q⟩

/-- A venue with a short of 1 unit, 1 unit of spot, the price 15 throughout and every
order filled exactly. -/
def smallEnv : CloseEnv where
  positions := fun _ => .ok (some (-1)) (some 1)
  price := fun _ => some 15
  lot := fun _ fq sq => .ok ⟨⟨15, fq⟩, ⟨15, sq⟩, ⟨15, 15, 0, true⟩⟩
  reduceOnlyClose := fun _ q => .ok ⟨15, q⟩

open ClosePositionStrategy in
/-- Lot `k` goes through `executeLot` and fills exactly: the read for it succeeds and
shows the remaining quantities `F` and `S`, not both below `0.00000001`; the price
read succeeds with `p`; neither lot value is below 5; and both orders fill exactly
the requested quantity. -/
def LotProceeds (env : CloseEnv) (lotSizePercent : ℚ) (k : Nat) (F S p : ℚ) : Prop :=
  (∃ a b, env.positions k = .ok a b ∧ futuresQtyOf a = F ∧ spotQtyOf b = S) ∧
  ¬ (F < 1 / 100000000 ∧ S < 1 / 100000000) ∧
  env.price k = some p ∧
  ¬ (lotFuturesQty lotSizePercent k F S p * p < 5 ∨
      lotSpotQty lotSizePercent k F S p * p < 5) ∧
  ∃ r, env.lot k (lotFuturesQty lotSizePercent k F S p)
        (lotSpotQty lotSizePercent k F S p) = .ok r ∧
    r.futures.executedQty = lotFuturesQty lotSizePercent k F S p ∧
    r.spot.executedQty = lotSpotQty lotSizePercent k F S p

/-! ## `ClosePositionStrategy.closeRemainingPosition` and `getPositionsWithRetry` -/

/-- One call of `closeRemainingPosition`: the events it caused, in order, and the
`results` list it returned (`{ type, order }` entries) or the error it threw. -/
structure RemainingRun where
  trace : List Event
  result : Except ExecError (List (Leg × OrderResult))
  deriving DecidableEq, Repr

/-- The spot step of `closeRemainingPosition`: `if (spotBalance && spotBalance.free >
0)` sells the whole free balance; `results` and `trace` are what the futures step
left. A rejected order is not caught. -/
def ClosePositionStrategy.sellRemainingSpot (spotOrder : ℚ → Except ExecError OrderResult)
    (spotBalance : Option ℚ) (trace : List Event) (results : List (Leg × OrderResult)) :
    RemainingRun :=
  match spotBalance with
  | none => ⟨trace, .ok results⟩
  | some free =>
    if free > 0 then
      match spotOrder free with
      | .error e => ⟨trace ++ [.order .spot .sell free false], .error e⟩
      | .ok spotOrder =>
        ⟨trace ++ [.order .spot .sell free false], .ok (results ++ [(.spot, spotOrder)])⟩
    else ⟨trace, .ok results⟩

/-- Source: `ClosePositionStrategy.closeRemainingPosition(symbol, futuresPosition,
spotBalance)`. `futuresPosition` is the signed position amount (`none` for `null`),
`spotBalance` the free balance (`none` for `null`); `futuresOrder q` is what
`futuresAPI.closeShort(symbol, q, true)` answers and `spotOrder q` what
`spotAPI.sell(symbol, q)` answers. The two steps run one after the other and a
rejected order is not caught. -/
def ClosePositionStrategy.closeRemainingPosition
    (futuresOrder spotOrder : ℚ → Except ExecError OrderResult)
    (futuresPosition spotBalance : Option ℚ) : RemainingRun :=
  match futuresPosition with
  | none => ClosePositionStrategy.sellRemainingSpot spotOrder spotBalance [] []
  | some positionAmt =>
    if |positionAmt| > 0 then
      match futuresOrder |positionAmt| with
      | .error e => ⟨[.order .futures .buy |positionAmt| true], .error e⟩
      | .ok futuresOrder =>
        ClosePositionStrategy.sellRemainingSpot spotOrder spotBalance
          [.order .futures .buy |positionAmt| true] [(.futures, futuresOrder)]
    else ClosePositionStrategy.sellRemainingSpot spotOrder spotBalance [] []

/-- The events of the spot step of `closeRemainingPosition`: a sell of the whole free
balance when a balance with `free > 0` is given, nothing otherwise. -/
def spotSellEvents (spotBalance : Option ℚ) : List Event :=
  match spotBalance with
  | some free => if free > 0 then [.order .spot .sell free false] else []
  | none => []

/-- Whether an event is an order handed to `placeMarketOrder`. -/
def Event.isOrder : Event → Bool
  | .order _ _ _ _ => true
  | _ => false

/-- A venue that fills every order exactly at price 100. -/
def fillAt100 : ℚ → Except ExecError OrderResult :=
  fun q => .ok ⟨100, q⟩

/-- A venue that rejects every order. -/
def rejectAll : ℚ → Except ExecError OrderResult :=
  fun _ => .error .orderFailed

/-! ## The returned summary -/

/-- The `summary` object both strategies return. `avgSpreadPercent` is `none` where
the source's value is not a finite number. -/
structure RunSummary where
  totalLots : Nat
  totalFuturesQty : ℚ
  totalSpotQty : ℚ
  avgFuturesPrice : ℚ
  avgSpotPrice : ℚ
  totalFuturesValue : ℚ
  totalSpotValue : ℚ
  totalCombinedValue : ℚ
  avgSpreadPercent : Option ℚ
  deriving DecidableEq, Repr

/-- Source: `totalFuturesQty > 0 ? totalFuturesValue / totalFuturesQty : 0`, for either
leg. -/
def avgPrice (totalQty totalValue : ℚ) : ℚ :=
  if totalQty > 0 then totalValue / totalQty else 0

/-- What `OpenPositionStrategy.execute` returns after its loop: `{ results, summary }`
when the loop ended without a throw, nothing while the model is still running or when
the run failed. The open summary divides by `avgSpotPrice` without a guard. -/
def OpenRun.returned (run : OpenRun) : Option (List LotResult × RunSummary) :=
  match run.status with
  | .completed =>
    some (run.state.results,
      { totalLots := run.state.results.length
        totalFuturesQty := run.state.totalFuturesQty
        totalSpotQty := run.state.totalSpotQty
        avgFuturesPrice := avgPrice run.state.totalFuturesQty run.state.totalFuturesValue
        avgSpotPrice := avgPrice run.state.totalSpotQty run.state.totalSpotValue
        totalFuturesValue := run.state.totalFuturesValue
        totalSpotValue := run.state.totalSpotValue
        totalCombinedValue := run.state.totalFuturesValue + run.state.totalSpotValue
        avgSpreadPercent :=
          if avgPrice run.state.totalSpotQty run.state.totalSpotValue = 0 then none
          else some ((avgPrice run.state.totalFuturesQty run.state.totalFuturesValue -
              avgPrice run.state.totalSpotQty run.state.totalSpotValue) /
            avgPrice run.state.totalSpotQty run.state.totalSpotValue * 100) })
  | _ => none

/-- What `ClosePositionStrategy.execute` returns after its loop: `{ results, summary }`
when the loop ended without a throw. The close summary guards the spread with
`avgFuturesPrice > 0 && avgSpotPrice > 0`. -/
def CloseRun.returned (run : CloseRun) : Option (List LotResult × RunSummary) :=
  match run.status with
  | .completed =>
    some (run.state.results,
      { totalLots := run.state.results.length
        totalFuturesQty := run.state.totalFuturesQty
        totalSpotQty := run.state.totalSpotQty
        avgFuturesPrice := avgPrice run.state.totalFuturesQty run.state.totalFuturesValue
        avgSpotPrice := avgPrice run.state.totalSpotQty run.state.totalSpotValue
        totalFuturesValue := run.state.totalFuturesValue
        totalSpotValue := run.state.totalSpotValue
        totalCombinedValue := run.state.totalFuturesValue + run.state.totalSpotValue
        avgSpreadPercent :=
          if avgPrice run.state.totalFuturesQty run.state.totalFuturesValue > 0 ∧
              avgPrice run.state.totalSpotQty run.state.totalSpotValue > 0 then
            some ((avgPrice run.state.totalFuturesQty run.state.totalFuturesValue -
                avgPrice run.state.totalSpotQty run.state.totalSpotValue) /
              avgPrice run.state.totalSpotQty run.state.totalSpotValue * 100)
          else some 0 })
  | _ => none

/-- Every recorded lot has a non-zero executed quantity on both legs. -/
def AllFilled (results : List LotResult) : Prop :=
  ∀ r ∈ results, r.futures.executedQty ≠ 0 ∧ r.spot.executedQty ≠ 0

/-- The sum of the futures quantities of the recorded lots. -/
def futuresFilled (results : List LotResult) : ℚ :=
  (results.map (fun r => r.futures.executedQty)).sum

/-- The sum of the spot quantities of the recorded lots. -/
def spotFilled (results : List LotResult) : ℚ :=
  (results.map (fun r => r.spot.executedQty)).sum

/-- A venue with 1000 USDT free on each side whose every lot comes back with nothing
executed on the spot leg. -/
def spotUnfilledEnv : OpenEnv where
  balance := fun _ => .ok (some 1000) (some 1000)
  lot := fun _ size => .ok ⟨⟨1, size⟩, ⟨1, 0⟩, ⟨1, 1, 0, true⟩⟩

/-- A venue with 1000 USDT free on the spot side, 40 on the futures side, and every
lot filled at price 1 for exactly the requested size. -/
def lowFuturesBalanceEnv : OpenEnv where
  balance := fun _ => .ok (some 1000) (some 40)
  lot := fun _ size => .ok ⟨⟨1, size⟩, ⟨1, size⟩, ⟨1, 1, 0, true⟩⟩

/-- One call of `getPositionsWithRetry`: the number of attempts made, the waits in
milliseconds in the order they were made, and what the call returned or threw
(`none` when the `for` loop ends without either, which needs `maxRetries < 1`). -/
structure RetryRun (ε α : Type) where
  attempts : Nat
  waits : List ℚ
  result : Option (Except ε α)

/-- The `for (let attempt = 1; attempt <= maxRetries; attempt++)` loop of
`getPositionsWithRetry`. `reads j` is what the pair of reads gives at attempt `j`;
the first argument is `maxRetries + 1 - attempt`, the number of attempts not yet
made; `waits` are the waits made so far. -/
def retryLoop {ε α : Type} (retryDelayMs : ℚ) (reads : Nat → Except ε α)
    (maxRetries : Nat) : Nat → Nat → List ℚ → RetryRun ε α
  | 0, attempt, waits => ⟨attempt - 1, waits, none⟩
  | left + 1, attempt, waits =>
    match reads attempt with
    | .ok positions => ⟨attempt, waits, some (.ok positions)⟩
    | .error error =>
      if attempt < maxRetries then
        retryLoop retryDelayMs reads maxRetries left (attempt + 1)
          (waits ++ [retryDelayMs * attempt])
      else ⟨attempt, waits, some (.error error)⟩

/-- Source: `ClosePositionStrategy.getPositionsWithRetry(symbol, baseAsset,
maxRetries)`. -/
def ClosePositionStrategy.getPositionsWithRetry {ε α : Type} (retryDelayMs : ℚ)
    (reads : Nat → Except ε α) (maxRetries : Nat) : RetryRun ε α :=
  retryLoop retryDelayMs reads maxRetries maxRetries 1 []

/-- The waits after the failed attempts `1 .. k - 1`: `retryDelayMs * j` after
attempt `j`. -/
def linearWaits (retryDelayMs : ℚ) (k : Nat) : List ℚ :=
  (List.range' 1 (k - 1)).map (fun j => retryDelayMs * (j : ℚ))

/-- Reads that are rejected twice and succeed at the third attempt. -/
def thirdTimeReads : Nat → Except String (Option ℚ × Option ℚ)
  | 0 => .error "unused"
  | 1 => .error "timeout 1"
  | 2 => .error "timeout 2"
  | _ => .ok (some (-10), some 10)

/-! ## `FuturesAPI.getPosition` -/

/-- One entry of the `positionRisk` response, after `parseFloat`. `notional` is `none`
when the field is absent (or empty), where `parseFloat(position.notional || 0)` is
0. -/
structure RawPosition where
  symbol : String
  positionAmt : ℚ
  entryPrice : ℚ
  markPrice : ℚ
  notional : Option ℚ
  unRealizedProfit : ℚ
  deriving DecidableEq, Repr

/-- The object `getPosition` returns. -/
structure FuturesPosition where
  symbol : String
  positionAmt : ℚ
  entryPrice : ℚ
  markPrice : ℚ
  unRealizedProfit : ℚ
  deriving DecidableEq, Repr

namespace FuturesAPI

/-- The value of `quantity` in `getPosition`. The division is the rationals' (a zero
mark price, where the source's quotient is not finite, is outside the model). -/
def positionQuantity (positionAmt markPrice notionalValue : ℚ) : ℚ :=
  if notionalValue ≠ 0 ∧ |notionalValue| ≠ |positionAmt| then |notionalValue / markPrice|
  else if |positionAmt * markPrice| > |positionAmt| * 10 then |positionAmt / markPrice|
  else |positionAmt|

/-- Source: `symbol ? response.data.find(p => p.symbol === symbol) : response.data[0]`. -/
def findPosition (data : List RawPosition) (symbol : String) : Option RawPosition :=
  if symbol ≠ "" then data.find? (fun p => p.symbol == symbol) else data.head?

/-- Source: `FuturesAPI.getPosition(symbol)` on a `positionRisk` response `data` (the
request itself succeeding). -/
def getPosition (data : List RawPosition) (symbol : String) : Option FuturesPosition :=
  if data.length > 0 then
    match findPosition data symbol with
    | none => none
    | some position =>
      let quantity := positionQuantity position.positionAmt position.markPrice
        (position.notional.getD 0)
      some { symbol := position.symbol
             positionAmt := if position.positionAmt < 0 then -quantity else quantity
             entryPrice := position.entryPrice
             markPrice := position.markPrice
             unRealizedProfit := position.unRealizedProfit }
  else none

/-- The three-rule heuristic in the specification's words: `|n| / p` when the
notional `n` is non-zero and differs in magnitude from the raw amount `a`; otherwise
`|a| / p` when `|a * p| > 10 * |a|`; otherwise `|a|`. -/
def positionMagnitudeSpec (a p n : ℚ) : ℚ :=
  if n ≠ 0 ∧ |n| ≠ |a| then |n| / p
  else if |a * p| > 10 * |a| then |a| / p
  else |a|

end FuturesAPI

/-- A `positionRisk` response with one short position of half a unit at mark price
100, reported with its notional of -50. -/
def samplePositionRisk : List RawPosition :=
  [{ symbol := "BTCUSDT", positionAmt := -1 / 2, entryPrice := 98, markPrice := 100,
     notional := some (-50), unRealizedProfit := -1 }]

/-! ## The base asset -/

/-- Source: `String.prototype.replace(pattern, '')` with a string pattern, on the
characters of the string: the first occurrence of `pattern` is removed, a string
without an occurrence is unchanged. -/
def removeFirst (pattern : List Char) : List Char → List Char
  | [] => []
  | c :: cs =>
    if pattern.isPrefixOf (c :: cs) then (c :: cs).drop pattern.length
    else c :: removeFirst pattern cs

/-- Source: `const baseAsset = symbol.replace('USDT', '').replace('BUSD', '')`. -/
def baseAsset (symbol : String) : String :=
  String.mk (removeFirst "BUSD".toList (removeFirst "USDT".toList symbol.toList))

/-- A venue with no futures position, a hundredth of a unit of spot and the price 100
throughout. -/
def spotDustEnv : CloseEnv where
  positions := fun _ => .ok none (some (1 / 100))
  price := fun _ => some 100
  lot := fun _ fq sq => .ok ⟨⟨100, fq⟩, ⟨100, sq⟩, ⟨100, 100, 0, true⟩⟩
  reduceOnlyClose := fun _ q => .ok ⟨100, q⟩

/-! ## `placeMarketOrder`: the result returned for an order -/

/-- A field of the venue's JSON answer as JavaScript sees it: absent (`undefined`), an
empty string, a non-empty string (`parsed` is what `parseFloat` makes of it, `none`
for `NaN`), or a JSON number. -/
inductive JsField where
  | absent
  | emptyText
  | text (parsed : Option ℚ)
  | number (q : ℚ)
  deriving DecidableEq, Repr

/-- JavaScript truthiness, as `||` tests it. -/
def JsField.truthy : JsField → Bool
  | .absent => false
  | .emptyText => false
  | .text _ => true
  | .number q => decide (q ≠ 0)

/-- Source: `parseFloat(field)`; `none` is `NaN`. -/
def JsField.parseFloat : JsField → Option ℚ
  | .absent => none
  | .emptyText => none
  | .text parsed => parsed
  | .number q => some q

/-- Source: `parseFloat(a || b || 0)`. -/
def parseFirstTruthy (a b : JsField) : Option ℚ :=
  if a.truthy then a.parseFloat
  else if b.truthy then b.parseFloat
  else some 0

/-- The fields of an order answer that `placeMarketOrder` reads. `fillPrice` is
`fills?.[0]?.price`, which only the spot client reads. -/
structure RawOrder where
  status : String
  executedQty : JsField
  origQty : JsField
  avgPrice : JsField
  price : JsField
  fillPrice : JsField
  deriving DecidableEq, Repr

/-- The object `placeMarketOrder` returns, as far as the strategies read it; `none` is
`NaN`. -/
structure PlacedOrder where
  price : Option ℚ
  executedQty : Option ℚ
  status : String
  deriving DecidableEq, Repr

/-- The final order data: `if (orderData.status === 'NEW' &&
parseFloat(orderData.executedQty) === 0)` the answer of the single status poll
replaces the answer to the order. -/
def finalOrderData (response checkResponse : RawOrder) : RawOrder :=
  if response.status = "NEW" ∧ response.executedQty.parseFloat = some 0 then checkResponse
  else response

/-- Source: `FuturesAPI.placeMarketOrder`, from the venue's answer to the order and to
the status poll (both requests succeeding). -/
def FuturesAPI.placeMarketOrder (response checkResponse : RawOrder) : PlacedOrder :=
  let orderData := finalOrderData response checkResponse
  { price := parseFirstTruthy orderData.avgPrice orderData.price
    executedQty := parseFirstTruthy orderData.executedQty orderData.origQty
    status := orderData.status }

/-- Source: `SpotAPI.placeMarketOrder`, from the venue's answer to the order and to the
status poll (both requests succeeding). -/
def SpotAPI.placeMarketOrder (response checkResponse : RawOrder) : PlacedOrder :=
  let orderData := finalOrderData response checkResponse
  { price := parseFirstTruthy orderData.fillPrice orderData.avgPrice
    executedQty := parseFirstTruthy orderData.executedQty orderData.origQty
    status := orderData.status }

/-- An order answer that carries no `executedQty`: status `NEW`, `origQty` "2". -/
def unreportedFill : RawOrder :=
  { status := "NEW", executedQty := .absent, origQty := .text (some 2),
    avgPrice := .absent, price := .absent, fillPrice := .absent }

/-- An order answer with `executedQty` "0" and status `NEW`, before and after the
status poll. -/
def zeroFill : RawOrder :=
  { status := "NEW", executedQty := .text (some 0), origQty := .text (some 2),
    avgPrice := .text (some 0), price := .text (some 0), fillPrice := .absent }

/-- A `positionRisk` response with one short position reported as -1000 at mark price
50000, without a `notional` field. -/
def unlabelledPositionRisk : List RawPosition :=
  [{ symbol := "BTCUSDT", positionAmt := -1000, entryPrice := 49000, markPrice := 50000,
     notional := none, unRealizedProfit := 0 }]

/-- Every lot that `executeLot` returns reduces the remaining size by exactly its
requested USD notional: the average of the two executed values is the size. -/
def ReducesByRequested (env : OpenEnv) : Prop :=
  ∀ n size r, env.lot n size = .ok r →
    (r.futures.executedQty * r.futures.price + r.spot.executedQty * r.spot.price) / 2 = size

/-! ## The open run with the spread gate of each lot -/

/-- What the venues answer during an open run, at the level of the calls that
`executeLot` makes: `polls n i` is what the two legs answer at the `i`-th poll of lot
`n`, `futuresOrder n q` and `spotOrder n q` what the two orders of lot `n` answer. -/
structure OpenVenue where
  balance : Nat → BalanceRead
  polls : Nat → Nat → PriceFetch × PriceFetch
  futuresOrder : Nat → ℚ → Except ExecError OrderResult
  spotOrder : Nat → ℚ → Except ExecError OrderResult

/-- The call `this.executeLot(symbol, size, lot, totalLots)` of the open loop, its
polls followed for `waitFuel` attempts: `none` when the spread gate has not let it
through by then. -/
def OpenVenue.executeLot (venue : OpenVenue) (maxDiffPercent : ℚ) (waitFuel : Nat)
    (lot : Nat) (size : ℚ) : Option LotRun :=
  OpenPositionStrategy.executeLot maxDiffPercent (venue.polls lot) (venue.futuresOrder lot)
    (venue.spotOrder lot) size waitFuel

/-- The `while (remainingSizeUSD > 0.01)` loop of `OpenPositionStrategy.execute` with
each `await this.executeLot(...)` run through the spread gate: the same loop as
`openLoop`, except that a call of `executeLot` that has not returned after
`waitFuel` polls leaves the run `running`. -/
def openLoopGated (venue : OpenVenue) (maxDiffPercent lotSizeUSD : ℚ) (waitFuel : Nat) :
    Nat → OpenState → OpenRun
  | 0, st => ⟨st, .running⟩
  | fuel + 1, st =>
    if st.remainingSizeUSD > 1 / 100 then
      let size := currentLotSizeUSD lotSizeUSD st.remainingSizeUSD
      if size < 5 then
        ⟨{ st with currentLot := st.currentLot + 1 }, .completed⟩
      else if insufficientBalance (venue.balance (st.currentLot + 1)) size then
        ⟨{ st with currentLot := st.currentLot + 1 }, .completed⟩
      else
        match venue.executeLot maxDiffPercent waitFuel (st.currentLot + 1) size with
        | none =>
          ⟨{ st with currentLot := st.currentLot + 1, lotSizes := st.lotSizes ++ [size] },
            .running⟩
        | some lotRun =>
          match lotRun.result with
          | .error e =>
            ⟨{ st with currentLot := st.currentLot + 1,
                       lotSizes := st.lotSizes ++ [size] }, .failed e⟩
          | .ok result =>
            if result.futures.executedQty = 0 ∨ result.spot.executedQty = 0 then
              ⟨{ st with currentLot := st.currentLot + 1,
                         lotSizes := st.lotSizes ++ [size] }, .failed .notExecuted⟩
            else
              openLoopGated venue maxDiffPercent lotSizeUSD waitFuel fuel
                (st.accumulate size result)
    else ⟨st, .completed⟩

/-- The lot loop of `OpenPositionStrategy.execute(symbol, totalSizeUSD, lotSizeUSD)`
from its initial state, with the spread gate of each lot. -/
def OpenPositionStrategy.executeGated (venue : OpenVenue)
    (maxDiffPercent totalSizeUSD lotSizeUSD : ℚ) (waitFuel fuel : Nat) : OpenRun :=
  openLoopGated venue maxDiffPercent lotSizeUSD waitFuel fuel (OpenState.initial totalSizeUSD)

/-- The answers of `executeLot` as an `OpenEnv`, for a venue whose every call of
`executeLot` returns within `waitFuel` polls (a call that does not is given an
error here, which no such venue reaches). -/
def OpenVenue.toEnv (venue : OpenVenue) (maxDiffPercent : ℚ) (waitFuel : Nat) : OpenEnv where
  balance := venue.balance
  lot := fun lot size =>
    match venue.executeLot maxDiffPercent waitFuel lot size with
    | some lotRun => lotRun.result
    | none => .error .orderFailed

/-- Every call of `executeLot` returns (or throws) within `waitFuel` polls. -/
def EveryLotReturns (venue : OpenVenue) (maxDiffPercent : ℚ) (waitFuel : Nat) : Prop :=
  ∀ lot size, (venue.executeLot maxDiffPercent waitFuel lot size).isSome = true

/-- Every lot that `executeLot` returns reduces the remaining size by exactly its
requested USD notional. -/
def ReducesWhenExecuted (venue : OpenVenue) (maxDiffPercent : ℚ) (waitFuel : Nat) : Prop :=
  ∀ lot size lotRun r, venue.executeLot maxDiffPercent waitFuel lot size = some lotRun →
    lotRun.result = .ok r →
    (r.futures.executedQty * r.futures.price + r.spot.executedQty * r.spot.price) / 2 = size

/-- A venue whose two legs stay 1 % apart at every poll of every lot, with 1000 USDT
free on each side and every order filled at price 100. -/
def neverInThresholdVenue : OpenVenue where
  balance := fun _ => .ok (some 1000) (some 1000)
  polls := fun _ _ => (.value 101, .value 100)
  futuresOrder := fun _ q => .ok ⟨100, q⟩
  spotOrder := fun _ q => .ok ⟨100, q⟩

/-- A venue whose two legs both quote 100 at every poll, with 1000 USDT free on each
side and every order filled at price 100 for the requested quantity. -/
def steadyVenue : OpenVenue where
  balance := fun _ => .ok (some 1000) (some 1000)
  polls := fun _ _ => (.value 100, .value 100)
  futuresOrder := fun _ q => .ok ⟨100, q⟩
  spotOrder := fun _ q => .ok ⟨100, q⟩

/-! ## Theorems -/

theorem getPrices_ok_iff (futures spot : PriceFetch) (f s : ℚ) :
    getPrices futures spot = .ok (f, s) ↔
      futures = .value f ∧ spot = .value s ∧ 0 < f ∧ 0 < s := by
  cases futures <;> cases spot <;> simp [getPrices]
  rename_i a b
  by_cases h : a = 0 ∨ b = 0 ∨ a ≤ 0 ∨ b ≤ 0
  · rw [if_pos h]
    simp only [reduceCtorEq, false_iff, not_and, not_lt]
    rintro rfl rfl ha
    rcases h with h | h | h | h
    · exact absurd h ha.ne'
    · exact h.le
    · exact absurd ha (not_lt.mpr h)
    · exact h
  · rw [if_neg h]
    simp only [not_or, not_le] at h
    simp only [Except.ok.injEq, Prod.mk.injEq]
    constructor
    · rintro ⟨rfl, rfl⟩
      exact ⟨rfl, rfl, h.2.2.1, h.2.2.2⟩
    · rintro ⟨rfl, rfl, -, -⟩
      exact ⟨rfl, rfl⟩

/-- C1. `checkSpread` equals its reference definition: it fails when a fetch fails or
a price is missing, zero or negative, and otherwise returns the two prices,
`|f - s| / s * 100` with the spot price as denominator, and the inclusive threshold
test; with spot 100, futures 100.05 and threshold 0.1 the divergence is 0.05 and the
sample is within the threshold. -/
theorem checkSpread_eq_spec :
    (∀ (maxDiffPercent : ℚ) (futures spot : PriceFetch),
      (checkSpread maxDiffPercent futures spot).toOption
        = checkSpreadSpec maxDiffPercent futures spot) ∧
    checkSpread (1 / 10) (.value (10005 / 100)) (.value 100)
      = .ok { futuresPrice := 10005 / 100, spotPrice := 100, diffPercent := 1 / 20,
              isWithinThreshold := true } := by
  refine ⟨?_, by decide!⟩
  intro m futures spot
  cases futures <;> cases spot <;>
    try (simp [checkSpread, getPrices, checkSpreadSpec, Except.toOption])
  rename_i f s
  by_cases h : 0 < f ∧ 0 < s
  · obtain ⟨hf, hs⟩ := h
    have h1 : ¬ (f = 0 ∨ s = 0 ∨ f ≤ 0 ∨ s ≤ 0) := by
      simp only [not_or, not_le]
      exact ⟨hf.ne', hs.ne', hf, hs⟩
    have h2 : ¬ (s = 0 ∨ s ≤ 0) := by
      simp only [not_or, not_le]
      exact ⟨hs.ne', hs⟩
    have h3 : |(f - s) / s * 100| = |f - s| / s * 100 := by
      rw [abs_mul, abs_div, abs_of_pos hs, abs_of_pos (by norm_num : (0:ℚ) < 100)]
    simp [checkSpread, getPrices, checkSpreadSpec, Except.toOption, calculateDiffPercent,
      h1, h2, hf, hs, h3]
  · have h1 : f = 0 ∨ s = 0 ∨ f ≤ 0 ∨ s ≤ 0 := by
      by_contra hc
      simp only [not_or, not_le] at hc
      exact h ⟨hc.2.2.1, hc.2.2.2⟩
    simp [checkSpread, getPrices, checkSpreadSpec, Except.toOption, h1, h]

/-! ### The spread gate -/

theorem waitForGoodSpread_reaches (m : ℚ) (polls : Nat → PriceFetch × PriceFetch)
    (k : Nat) (info : SpreadInfo) (hgood : GoodAt m polls k info) :
    ∀ (fuel a : Nat), a ≤ k → k - a < fuel →
      (∀ j, a ≤ j → j < k → ∀ i, ¬ GoodAt m polls j i) →
      waitForGoodSpread m polls fuel a = some (info, k + 1) := by
  intro fuel
  induction fuel with
  | zero => intro a _ h; omega
  | succ fuel ih =>
    intro a hak hfuel hbad
    rcases Nat.eq_or_lt_of_le hak with rfl | hlt
    · simp [waitForGoodSpread, hgood.1, hgood.2]
    · have hrec : waitForGoodSpread m polls fuel (a + 1) = some (info, k + 1) :=
        ih (a + 1) hlt (by omega) (fun j hj hjk => hbad j (by omega) hjk)
      have hb := hbad a le_rfl hlt
      unfold waitForGoodSpread
      cases hc : checkSpread m (polls a).1 (polls a).2 with
      | error e => simpa using hrec
      | ok s =>
        have hs : s.isWithinThreshold = false := by
          cases hw : s.isWithinThreshold with
          | false => rfl
          | true => exact absurd ⟨hc, hw⟩ (hb s)
        simpa [hs] using hrec

theorem waitForGoodSpread_sound (m : ℚ) (polls : Nat → PriceFetch × PriceFetch) :
    ∀ (fuel a : Nat) (info : SpreadInfo) (n : Nat),
      waitForGoodSpread m polls fuel a = some (info, n) →
      ∃ k, n = k + 1 ∧ a ≤ k ∧ GoodAt m polls k info ∧
        ∀ j, a ≤ j → j < k → ∀ i, ¬ GoodAt m polls j i := by
  intro fuel
  induction fuel with
  | zero => intro a info n h; simp [waitForGoodSpread] at h
  | succ fuel ih =>
    intro a info n h
    unfold waitForGoodSpread at h
    cases hc : checkSpread m (polls a).1 (polls a).2 with
    | error e =>
      rw [hc] at h
      obtain ⟨k, hn, hak, hg, hb⟩ := ih (a + 1) info n h
      refine ⟨k, hn, by omega, hg, ?_⟩
      intro j hj hjk i hgi
      rcases Nat.eq_or_lt_of_le hj with rfl | hlt
      · rw [GoodAt, hc] at hgi
        exact absurd hgi.1 (by simp)
      · exact hb j hlt hjk i hgi
    | ok s =>
      rw [hc] at h
      cases hw : s.isWithinThreshold with
      | true =>
        simp only [hw, if_true, Option.some.injEq, Prod.mk.injEq] at h
        obtain ⟨rfl, rfl⟩ := h
        exact ⟨a, rfl, le_rfl, ⟨hc, hw⟩, fun j hj hjk => by omega⟩
      | false =>
        simp only [hw, Bool.false_eq_true, if_false] at h
        obtain ⟨k, hn, hak, hg, hb⟩ := ih (a + 1) info n h
        refine ⟨k, hn, by omega, hg, ?_⟩
        intro j hj hjk i hgi
        rcases Nat.eq_or_lt_of_le hj with rfl | hlt
        · rw [GoodAt, hc] at hgi
          have h1 : s = i := by simpa using hgi.1
          rw [← h1, hw] at hgi
          exact absurd hgi.2 (by simp)
        · exact hb j hlt hjk i hgi

theorem gatedFrom_append (l₁ l₂ : List Event) :
    ∀ cur, gatedFrom cur (l₁ ++ l₂)
      = (gatedFrom cur l₁ && gatedFrom (currentSample cur l₁) l₂) := by
  induction l₁ with
  | nil => intro cur; simp [gatedFrom, currentSample]
  | cons e rest ih =>
    intro cur
    cases e with
    | checkFailed e => simp [gatedFrom, currentSample, ih]
    | sample s => simp [gatedFrom, currentSample, ih]
    | order l sd q r => simp [gatedFrom, currentSample, ih, Bool.and_assoc]

theorem currentSample_append (l₁ l₂ : List Event) :
    ∀ cur, currentSample cur (l₁ ++ l₂) = currentSample (currentSample cur l₁) l₂ := by
  induction l₁ with
  | nil => intro cur; simp [currentSample]
  | cons e rest ih =>
    intro cur
    cases e <;> simp [currentSample, ih]

theorem pollEvents_succ (m : ℚ) (polls : Nat → PriceFetch × PriceFetch) (n : Nat) :
    pollEvents m polls (n + 1) = pollEvents m polls n ++ [pollEvent m (polls n)] := by
  simp [pollEvents, List.range_succ]

theorem gatedFrom_pollEvents (m : ℚ) (polls : Nat → PriceFetch × PriceFetch) (n : Nat) :
    ∀ cur, gatedFrom cur (pollEvents m polls n) = true := by
  induction n with
  | zero => intro cur; simp [pollEvents, gatedFrom]
  | succ n ih =>
    intro cur
    rw [pollEvents_succ, gatedFrom_append, ih]
    unfold pollEvent
    cases checkSpread m (polls n).1 (polls n).2 <;> simp [gatedFrom]

theorem currentSample_pollEvents_good (m : ℚ) (polls : Nat → PriceFetch × PriceFetch)
    (k : Nat) (info : SpreadInfo) (h : GoodAt m polls k info) (cur : Option SpreadInfo) :
    currentSample cur (pollEvents m polls (k + 1)) = some info := by
  rw [pollEvents_succ, currentSample_append]
  simp [pollEvent, h.1, currentSample]

/-- A trace made of the polls up to a sample within the threshold, followed by
orders only, is gated. -/
theorem gated_polls_then_orders (m : ℚ) (polls : Nat → PriceFetch × PriceFetch)
    (k : Nat) (info : SpreadInfo) (h : GoodAt m polls k info)
    (l₁ : Leg) (s₁ : Side) (q₁ : ℚ) (l₂ : Leg) (s₂ : Side) (q₂ : ℚ) :
    gated (pollEvents m polls (k + 1) ++
      [.order l₁ s₁ q₁ false, .order l₂ s₂ q₂ false]) = true := by
  unfold gated
  rw [gatedFrom_append, gatedFrom_pollEvents, currentSample_pollEvents_good m polls k info h]
  simp [gatedFrom, h.2]

/-- C2. Gating. (1) Whatever the polls answer, a return of `waitForGoodSpread` is the
first sample within the threshold, every earlier poll being a failed check or a
sample out of threshold; (2) when poll `k` is that first sample, the call returns it
as soon as the polls reach it; (3), (4) a call of `executeLot`, open or close, that
returns or throws has polled up to that first sample and submitted its leg orders
after it only, so every order is submitted while the most recent sample is within
the threshold; and such a call does return once the polls reach the sample. -/
theorem waitForGoodSpread_gating (maxDiffPercent : ℚ)
    (polls : Nat → PriceFetch × PriceFetch) :
    (∀ fuel info n, waitForGoodSpread maxDiffPercent polls fuel 0 = some (info, n) →
      ∃ k, n = k + 1 ∧ FirstGood maxDiffPercent polls k info) ∧
    (∀ k info, FirstGood maxDiffPercent polls k info → ∀ fuel, k < fuel →
      waitForGoodSpread maxDiffPercent polls fuel 0 = some (info, k + 1)) ∧
    (∀ futuresOrder spotOrder lotSizeUSD,
      (∀ fuel run, OpenPositionStrategy.executeLot maxDiffPercent polls futuresOrder
          spotOrder lotSizeUSD fuel = some run →
        gated run.trace = true ∧
        ∃ k info, FirstGood maxDiffPercent polls k info ∧
          (run.trace = pollEvents maxDiffPercent polls (k + 1) ∨
           run.trace = pollEvents maxDiffPercent polls (k + 1) ++
            [.order .futures .sell (lotSizeUSD / info.futuresPrice) false,
             .order .spot .buy (lotSizeUSD / info.spotPrice) false])) ∧
      (∀ k info, FirstGood maxDiffPercent polls k info → ∀ fuel, k < fuel →
        (OpenPositionStrategy.executeLot maxDiffPercent polls futuresOrder
          spotOrder lotSizeUSD fuel).isSome = true)) ∧
    (∀ futuresOrder spotOrder futuresQty spotQty,
      (∀ fuel run, ClosePositionStrategy.executeLot maxDiffPercent polls futuresOrder
          spotOrder futuresQty spotQty fuel = some run →
        gated run.trace = true ∧
        ∃ k info, FirstGood maxDiffPercent polls k info ∧
          run.trace = pollEvents maxDiffPercent polls (k + 1) ++
            [.order .futures .buy futuresQty false, .order .spot .sell spotQty false]) ∧
      (∀ k info, FirstGood maxDiffPercent polls k info → ∀ fuel, k < fuel →
        (ClosePositionStrategy.executeLot maxDiffPercent polls futuresOrder
          spotOrder futuresQty spotQty fuel).isSome = true)) := by
  have hsound : ∀ fuel info n,
      waitForGoodSpread maxDiffPercent polls fuel 0 = some (info, n) →
      ∃ k, n = k + 1 ∧ FirstGood maxDiffPercent polls k info := by
    intro fuel info n h
    obtain ⟨k, hn, -, hg, hb⟩ := waitForGoodSpread_sound maxDiffPercent polls fuel 0 info n h
    exact ⟨k, hn, hg, fun j hj => hb j (Nat.zero_le j) hj⟩
  have hreach : ∀ k info, FirstGood maxDiffPercent polls k info → ∀ fuel, k < fuel →
      waitForGoodSpread maxDiffPercent polls fuel 0 = some (info, k + 1) := by
    intro k info hf fuel hk
    exact waitForGoodSpread_reaches maxDiffPercent polls k info hf.1 fuel 0 (Nat.zero_le k)
      (by omega) (fun j _ hj => hf.2 j hj)
  refine ⟨hsound, hreach, ?_, ?_⟩
  · intro fo so size
    constructor
    · intro fuel run hrun
      unfold OpenPositionStrategy.executeLot at hrun
      cases hw : waitForGoodSpread maxDiffPercent polls fuel 0 with
      | none => rw [hw] at hrun; simp at hrun
      | some r =>
        obtain ⟨info, n⟩ := r
        rw [hw] at hrun
        obtain ⟨k, rfl, hfg⟩ := hsound fuel info n hw
        simp only at hrun
        split_ifs at hrun with h1 h2
        · simp only [Option.some.injEq] at hrun
          subst hrun
          exact ⟨gatedFrom_pollEvents _ _ _ _, k, info, hfg, Or.inl rfl⟩
        · simp only [Option.some.injEq] at hrun
          subst hrun
          exact ⟨gatedFrom_pollEvents _ _ _ _, k, info, hfg, Or.inl rfl⟩
        · have hg := gated_polls_then_orders maxDiffPercent polls k info hfg.1
            .futures .sell (size / info.futuresPrice) .spot .buy (size / info.spotPrice)
          cases hfo : fo (size / info.futuresPrice) <;>
            cases hso : so (size / info.spotPrice) <;>
            (rw [hfo, hso] at hrun
             simp only [Option.some.injEq] at hrun
             subst hrun
             exact ⟨hg, k, info, hfg, Or.inr rfl⟩)
    · intro k info hf fuel hk
      unfold OpenPositionStrategy.executeLot
      rw [hreach k info hf fuel hk]
      simp only
      split_ifs
      · rfl
      · rfl
      · cases fo (size / info.futuresPrice) <;> cases so (size / info.spotPrice) <;> rfl
  · intro fo so fq sq
    constructor
    · intro fuel run hrun
      unfold ClosePositionStrategy.executeLot at hrun
      cases hw : waitForGoodSpread maxDiffPercent polls fuel 0 with
      | none => rw [hw] at hrun; simp at hrun
      | some r =>
        obtain ⟨info, n⟩ := r
        rw [hw] at hrun
        obtain ⟨k, rfl, hfg⟩ := hsound fuel info n hw
        have hg := gated_polls_then_orders maxDiffPercent polls k info hfg.1
          .futures .buy fq .spot .sell sq
        simp only at hrun
        cases hfo : fo fq <;> cases hso : so sq <;>
          (rw [hfo, hso] at hrun
           simp only [Option.some.injEq] at hrun
           subst hrun
           exact ⟨hg, k, info, hfg, rfl⟩)
    · intro k info hf fuel hk
      unfold ClosePositionStrategy.executeLot
      rw [hreach k info hf fuel hk]
      simp only
      cases fo fq <;> cases so sq <;> rfl

/-! ### The open lot planner -/

theorem currentLotSizeUSD_of_le (L rem : ℚ) (h : L ≤ rem) :
    currentLotSizeUSD L rem = if 1 / 100 < rem - L ∧ rem - L < 5 then rem else L := by
  unfold currentLotSizeUSD nextRemainingUSD
  rw [min_eq_left h]
  split_ifs <;> first | rfl | ring

theorem currentLotSizeUSD_of_ge (L rem : ℚ) (h : rem ≤ L) :
    currentLotSizeUSD L rem = rem := by
  unfold currentLotSizeUSD nextRemainingUSD
  rw [min_eq_right h]
  have h0 : ¬ (rem - rem > 1 / 100 ∧ rem - rem < 5) := by
    rw [sub_self]; rintro ⟨h1, -⟩; norm_num at h1
  rw [if_neg h0]

theorem currentLotSizeUSD_lt (L rem : ℚ) : currentLotSizeUSD L rem < L + 5 := by
  unfold currentLotSizeUSD
  have hmin : min L rem ≤ L := min_le_left L rem
  split_ifs with h
  · linarith [h.2]
  · linarith

theorem currentLotSizeUSD_le_rem (L rem : ℚ) : currentLotSizeUSD L rem ≤ rem := by
  unfold currentLotSizeUSD nextRemainingUSD
  have hmin : min L rem ≤ rem := min_le_right L rem
  split_ifs with h
  · linarith
  · exact hmin

theorem openLoop_done (env : OpenEnv) (L : ℚ) (fuel : Nat) (st : OpenState)
    (h : st.remainingSizeUSD ≤ 1 / 100) :
    openLoop env L (fuel + 1) st = ⟨st, .completed⟩ := by
  rw [openLoop, if_neg (not_lt.mpr h)]

theorem openLoop_floor (env : OpenEnv) (L : ℚ) (fuel : Nat) (st : OpenState)
    (h : 1 / 100 < st.remainingSizeUSD) (h5 : currentLotSizeUSD L st.remainingSizeUSD < 5) :
    openLoop env L (fuel + 1) st
      = ⟨{ st with currentLot := st.currentLot + 1 }, .completed⟩ := by
  rw [openLoop, if_pos h]
  simp only [h5, if_true]

/-- One executed lot under exact fills. -/
theorem openLoop_step (env : OpenEnv) (L T : ℚ) (hfill : ExactFills env)
    (hbal : BalanceNeverStops env T) (fuel : Nat) (st : OpenState)
    (hrem : 1 / 100 < st.remainingSizeUSD)
    (h5 : 5 ≤ currentLotSizeUSD L st.remainingSizeUSD)
    (hT : st.remainingSizeUSD ≤ T) :
    ∃ st', openLoop env L (fuel + 1) st = openLoop env L fuel st' ∧
      st'.remainingSizeUSD = st.remainingSizeUSD - currentLotSizeUSD L st.remainingSizeUSD ∧
      st'.lotSizes = st.lotSizes ++ [currentLotSizeUSD L st.remainingSizeUSD] := by
  obtain ⟨r, hr, hf, hs⟩ := hfill (st.currentLot + 1) (currentLotSizeUSD L st.remainingSizeUSD)
  have hne : ¬ (r.futures.executedQty = 0 ∨ r.spot.executedQty = 0) := by
    rintro (h0 | h0)
    · rw [h0, zero_mul] at hf; linarith
    · rw [h0, zero_mul] at hs; linarith
  have hb := hbal (st.currentLot + 1) (currentLotSizeUSD L st.remainingSizeUSD)
    (le_trans (currentLotSizeUSD_le_rem L _) hT)
  refine ⟨st.accumulate (currentLotSizeUSD L st.remainingSizeUSD) r, ?_, ?_, rfl⟩
  · rw [openLoop, if_pos hrem]
    simp only [not_lt.mpr h5, if_false, hb, hr, hne, Bool.false_eq_true]
  · simp only [OpenState.accumulate, hf, hs]
    ring

/-- The run from a remaining size of at least one full lot, under exact fills. -/
theorem openLoop_planned (env : OpenEnv) (L T : ℚ) (hL : 5 ≤ L) (hfill : ExactFills env)
    (hbal : BalanceNeverStops env T) :
    ∀ (n : Nat) (t : ℚ) (st : OpenState) (fuel : Nat),
      st.remainingSizeUSD = ((n : ℚ) + 1) * L + t → 0 ≤ t → t < L →
      st.remainingSizeUSD ≤ T → n + 3 ≤ fuel →
      (openLoop env L fuel st).status = .completed ∧
      (openLoop env L fuel st).state.lotSizes = st.lotSizes ++ plannedLots L (n + 1) t ∧
      (openLoop env L fuel st).state.remainingSizeUSD = if t ≤ 1 / 100 then t else 0 := by
  intro n
  induction n with
  | zero =>
    intro t st fuel hrem ht0 htL hT hfuel
    obtain ⟨f, rfl⟩ : ∃ f, fuel = f + 3 := ⟨fuel - 3, by omega⟩
    simp only [Nat.cast_zero, zero_add, one_mul] at hrem
    have hgt : 1 / 100 < st.remainingSizeUSD := by rw [hrem]; linarith
    have hsize := currentLotSizeUSD_of_le L st.remainingSizeUSD (by rw [hrem]; linarith)
    have hsub : st.remainingSizeUSD - L = t := by rw [hrem]; ring
    rw [hsub] at hsize
    by_cases hmerge : 1 / 100 < t ∧ t < 5
    · rw [if_pos hmerge] at hsize
      obtain ⟨st', hstep, hrem', hlots'⟩ := openLoop_step env L T hfill hbal (f + 2) st hgt
        (by rw [hsize, hrem]; linarith) hT
      rw [hsize, sub_self] at hrem'
      rw [hsize] at hlots'
      rw [hstep, openLoop_done env L (f + 1) st' (by rw [hrem']; norm_num)]
      refine ⟨rfl, ?_, ?_⟩
      · simp only [hlots', plannedLots, hmerge, if_true, not_le.mpr hmerge.2, if_false,
          Nat.sub_self, List.replicate_zero, List.nil_append, List.append_nil, and_self, hrem]
      · simp only [hrem', not_le.mpr hmerge.1, if_false]
    · rw [if_neg hmerge] at hsize
      obtain ⟨st', hstep, hrem', hlots'⟩ := openLoop_step env L T hfill hbal (f + 2) st hgt
        (by rw [hsize]; exact hL) hT
      rw [hsize, hsub] at hrem'
      rw [hsize] at hlots'
      rw [hstep]
      by_cases ht : t ≤ 1 / 100
      · rw [openLoop_done env L (f + 1) st' (by rw [hrem']; exact ht)]
        refine ⟨rfl, ?_, ?_⟩
        · have h5 : ¬ 5 ≤ t := by intro h; linarith
          simp only [hlots', plannedLots, hmerge, if_false, h5,
            Nat.sub_self, List.replicate_zero, List.nil_append, List.append_nil]
        · simp only [hrem', ht, if_true]
      · have h5 : 5 ≤ t := by
          by_contra hc
          exact hmerge ⟨lt_of_not_le ht, lt_of_not_le hc⟩
        have hsize' := currentLotSizeUSD_of_ge L st'.remainingSizeUSD (by rw [hrem']; exact htL.le)
        obtain ⟨st'', hstep', hrem'', hlots''⟩ := openLoop_step env L T hfill hbal (f + 1) st'
          (by rw [hrem']; linarith) (by rw [hsize', hrem']; exact h5)
          (by rw [hrem']; linarith)
        rw [hsize', sub_self] at hrem''
        rw [hsize', hrem', hlots'] at hlots''
        rw [hstep', openLoop_done env L f st'' (by rw [hrem'']; norm_num)]
        refine ⟨rfl, ?_, ?_⟩
        · simp only [hlots'', plannedLots, hmerge, if_false, h5, if_true,
            Nat.sub_self, List.replicate_zero, List.nil_append, List.append_assoc]
        · simp only [hrem'', ht, if_false]
  | succ n ih =>
    intro t st fuel hrem ht0 htL hT hfuel
    obtain ⟨f, rfl⟩ : ∃ f, fuel = f + 1 := ⟨fuel - 1, by omega⟩
    have hn : (0 : ℚ) ≤ n := Nat.cast_nonneg n
    have hnL : 0 ≤ (n : ℚ) * L := mul_nonneg hn (by linarith)
    push_cast at hrem
    have hsub : st.remainingSizeUSD - L = ((n : ℚ) + 1) * L + t := by rw [hrem]; ring
    have hgt : 1 / 100 < st.remainingSizeUSD := by rw [hrem]; nlinarith
    have hsize := currentLotSizeUSD_of_le L st.remainingSizeUSD (by rw [hrem]; nlinarith)
    have hnomerge : ¬ (1 / 100 < st.remainingSizeUSD - L ∧ st.remainingSizeUSD - L < 5) := by
      rw [hsub]; rintro ⟨-, h⟩; nlinarith
    rw [if_neg hnomerge] at hsize
    obtain ⟨st', hstep, hrem', hlots'⟩ := openLoop_step env L T hfill hbal f st hgt
      (by rw [hsize]; exact hL) hT
    rw [hsize, hsub] at hrem'
    rw [hsize] at hlots'
    obtain ⟨h1, h2, h3⟩ := ih t st' f hrem' ht0 htL (by rw [hrem']; rw [hrem] at hT; nlinarith)
      (by omega)
    rw [hstep]
    refine ⟨h1, ?_, h3⟩
    rw [h2, hlots']
    simp only [plannedLots, Nat.add_sub_cancel, List.replicate_succ, List.append_assoc,
      List.singleton_append, List.cons_append, List.nil_append]

theorem plannedLots_sum (L : ℚ) (n : Nat) (t : ℚ) :
    (plannedLots L (n + 1) t).sum
      = ((n : ℚ) + 1) * L + t - (if t ≤ 1 / 100 then t else 0) := by
  simp only [plannedLots, Nat.add_sub_cancel, List.sum_append, List.sum_replicate,
    List.sum_cons, List.sum_nil, smul_eq_mul, nsmul_eq_mul]
  by_cases h1 : t ≤ 1 / 100
  · have h2 : ¬ (1 / 100 < t ∧ t < 5) := fun h => absurd h1 (not_le.mpr h.1)
    have h3 : ¬ 5 ≤ t := by intro h; linarith
    simp only [h1, h2, h3, if_true, if_false, List.sum_nil]
    ring
  · by_cases h5 : 5 ≤ t
    · have h2 : ¬ (1 / 100 < t ∧ t < 5) := fun h => absurd h5 (not_le.mpr h.2)
      simp only [h1, h2, h5, if_true, if_false, List.sum_cons, List.sum_nil]
      ring
    · have h2 : 1 / 100 < t ∧ t < 5 := ⟨lt_of_not_le h1, lt_of_not_le h5⟩
      simp only [h1, h2, h5, if_true, if_false, List.sum_nil, and_self]
      ring

theorem plannedLots_length (L : ℚ) (n : Nat) (t : ℚ) :
    (plannedLots L (n + 1) t).length = n + 1 + (if 5 ≤ t then 1 else 0) := by
  simp only [plannedLots, Nat.add_sub_cancel, List.length_append, List.length_replicate,
    List.length_singleton]
  split_ifs <;> simp

/-- The full lots and the tail of a target of at least one lot. -/
theorem floor_split (T L : ℚ) (hL : 0 < L) (hLT : L ≤ T) :
    ∃ n : Nat, ⌊T / L⌋₊ = n + 1 ∧ 0 ≤ T - ((n : ℚ) + 1) * L ∧
      T - ((n : ℚ) + 1) * L < L := by
  have h1 : (1 : ℚ) ≤ T / L := by rw [le_div_iff₀ hL]; linarith
  have hq : 1 ≤ ⌊T / L⌋₊ := Nat.le_floor (by simpa using h1)
  refine ⟨⌊T / L⌋₊ - 1, by omega, ?_, ?_⟩
  · have h2 : ((⌊T / L⌋₊ : ℕ) : ℚ) ≤ T / L := Nat.floor_le (by linarith)
    have h3 : ((⌊T / L⌋₊ - 1 : ℕ) : ℚ) + 1 = ((⌊T / L⌋₊ : ℕ) : ℚ) := by
      rw [Nat.cast_sub hq]; simp
    rw [h3]
    have := (le_div_iff₀ hL).mp h2
    linarith
  · have h2 : T / L < ((⌊T / L⌋₊ : ℕ) : ℚ) + 1 := Nat.lt_floor_add_one _
    have h3 : ((⌊T / L⌋₊ - 1 : ℕ) : ℚ) + 1 = ((⌊T / L⌋₊ : ℕ) : ℚ) := by
      rw [Nat.cast_sub hq]; simp
    rw [h3]
    have := (div_lt_iff₀ hL).mp h2
    linarith

theorem unitFillEnv_exact : ExactFills unitFillEnv := by
  intro n size
  exact ⟨_, rfl, by simp, by simp⟩

theorem unitFillEnv_balance (T : ℚ) (hT : T ≤ 2000) : BalanceNeverStops unitFillEnv T := by
  intro n size hsize
  simp only [insufficientBalance, unitFillEnv, Option.getD_some, decide_eq_false_iff_not,
    not_or, not_lt]
  constructor <;> linarith

theorem openLoop_lotSizes_bound (env : OpenEnv) (L : ℚ) :
    ∀ (fuel : Nat) (st : OpenState), ∀ s ∈ (openLoop env L fuel st).state.lotSizes,
      s ∈ st.lotSizes ∨ (5 ≤ s ∧ s < L + 5) := by
  intro fuel
  induction fuel with
  | zero => intro st s hs; exact Or.inl (by simpa [openLoop] using hs)
  | succ fuel ih =>
    intro st s hs
    rw [openLoop] at hs
    by_cases hrem : st.remainingSizeUSD > 1 / 100
    · rw [if_pos hrem] at hs
      by_cases h5 : currentLotSizeUSD L st.remainingSizeUSD < 5
      · simp only [h5, if_true] at hs
        exact Or.inl hs
      · have hnew : 5 ≤ currentLotSizeUSD L st.remainingSizeUSD ∧
            currentLotSizeUSD L st.remainingSizeUSD < L + 5 :=
          ⟨not_lt.mp h5, currentLotSizeUSD_lt L _⟩
        have happ : ∀ x, x ∈ st.lotSizes ++ [currentLotSizeUSD L st.remainingSizeUSD] →
            x ∈ st.lotSizes ∨ (5 ≤ x ∧ x < L + 5) := by
          intro x hx
          rcases List.mem_append.mp hx with h | h
          · exact Or.inl h
          · rw [List.mem_singleton] at h
            rw [h]
            exact Or.inr hnew
        simp only [h5, if_false] at hs
        by_cases hb : insufficientBalance (env.balance (st.currentLot + 1))
            (currentLotSizeUSD L st.remainingSizeUSD) = true
        · simp only [hb, if_true] at hs
          exact Or.inl hs
        · simp only [hb, if_false] at hs
          cases hl : env.lot (st.currentLot + 1) (currentLotSizeUSD L st.remainingSizeUSD) with
          | error e =>
            rw [hl] at hs
            exact happ s hs
          | ok r =>
            rw [hl] at hs
            by_cases hz : r.futures.executedQty = 0 ∨ r.spot.executedQty = 0
            · simp only [hz, if_true] at hs
              exact happ s hs
            · simp only [hz, if_false] at hs
              rcases ih _ s hs with h | h
              · exact happ s h
              · exact Or.inr h
    · rw [if_neg hrem] at hs
      exact Or.inl hs

/-- The open run for a lot cap below the 5 USD floor: it ends within three tests of
the loop condition, with at most one lot, and with one lot only for a target of at
least 5 USD. -/
theorem openLoop_small_cap (env : OpenEnv) (L T : ℚ) (hL5 : L < 5) (hLT : L ≤ T)
    (hfill : ExactFills env) (hbal : BalanceNeverStops env T) (fuel : Nat) (hfuel : 3 ≤ fuel) :
    (OpenPositionStrategy.execute env T L fuel).status = .completed ∧
    (OpenPositionStrategy.execute env T L fuel).state.lotSizes.length ≤ 1 ∧
    ((OpenPositionStrategy.execute env T L fuel).state.lotSizes.length = 1 → 5 ≤ T) := by
  obtain ⟨f, rfl⟩ : ∃ f, fuel = f + 2 := ⟨fuel - 2, by omega⟩
  unfold OpenPositionStrategy.execute
  have hinit : (OpenState.initial T).remainingSizeUSD = T := rfl
  have hlots : (OpenState.initial T).lotSizes = [] := rfl
  by_cases hT : T ≤ 1 / 100
  · rw [openLoop_done env L (f + 1) _ (by rw [hinit]; exact hT)]
    simp [hlots]
  · have hgt : 1 / 100 < (OpenState.initial T).remainingSizeUSD := by
      rw [hinit]; exact lt_of_not_le hT
    have hsize := currentLotSizeUSD_of_le L T hLT
    by_cases hmerge : 1 / 100 < T - L ∧ T - L < 5
    · rw [if_pos hmerge] at hsize
      by_cases hT5 : T < 5
      · rw [openLoop_floor env L (f + 1) _ hgt (by rw [hinit, hsize]; exact hT5)]
        simp [hlots]
      · obtain ⟨st', hstep, hrem', hlots'⟩ := openLoop_step env L T hfill hbal (f + 1)
          (OpenState.initial T) hgt (by rw [hinit, hsize]; exact not_lt.mp hT5)
          (by rw [hinit])
        rw [hinit, hsize, sub_self] at hrem'
        rw [hinit, hsize, hlots] at hlots'
        rw [hstep, openLoop_done env L f st' (by rw [hrem']; norm_num)]
        simp only [hlots', List.nil_append, List.length_singleton, le_refl, true_and]
        exact fun _ => not_lt.mp hT5
    · rw [if_neg hmerge] at hsize
      rw [openLoop_floor env L (f + 1) _ hgt (by rw [hinit, hsize]; exact hL5)]
      simp [hlots]

/-- C3. Lot-sum, open: for `5 ≤ L ≤ T`, when every lot fills at exactly its requested
USD notional and the balance check stops no lot, the open loop ends (within
`⌊T / L⌋ + 2` tests of its condition) and the sizes of the lots it executed sum to
`T - r`, where the remainder `r` left unexecuted satisfies `0 ≤ r ≤ 0.01`. -/
theorem open_lot_sum (env : OpenEnv) (T L : ℚ) (hL : 5 ≤ L) (hLT : L ≤ T)
    (hfill : ExactFills env) (hbal : BalanceNeverStops env T)
    (fuel : Nat) (hfuel : ⌊T / L⌋₊ + 2 ≤ fuel) :
    (OpenPositionStrategy.execute env T L fuel).status = .completed ∧
    0 ≤ (OpenPositionStrategy.execute env T L fuel).state.remainingSizeUSD ∧
    (OpenPositionStrategy.execute env T L fuel).state.remainingSizeUSD ≤ 1 / 100 ∧
    (OpenPositionStrategy.execute env T L fuel).state.lotSizes.sum
      = T - (OpenPositionStrategy.execute env T L fuel).state.remainingSizeUSD := by
  obtain ⟨n, hn, ht0, htL⟩ := floor_split T L (by linarith) hLT
  have hinit : (OpenState.initial T).remainingSizeUSD = ((n : ℚ) + 1) * L +
      (T - ((n : ℚ) + 1) * L) := by
    show T = _
    ring
  obtain ⟨h1, h2, h3⟩ := openLoop_planned env L T hL hfill hbal n (T - ((n : ℚ) + 1) * L)
    (OpenState.initial T) fuel hinit ht0 htL (le_refl T) (by omega)
  unfold OpenPositionStrategy.execute
  refine ⟨h1, ?_, ?_, ?_⟩
  · rw [h3]; split_ifs <;> linarith
  · rw [h3]; split_ifs with h
    · exact h
    · norm_num
  · rw [h2, h3]
    show ([] ++ plannedLots L (n + 1) (T - ((n : ℚ) + 1) * L)).sum = _
    rw [List.nil_append, plannedLots_sum]
    ring

/-- Witness of C3: target 103, lot cap 100, exact fills: one merged lot of 103. -/
theorem open_lot_sum_witness :
    (OpenPositionStrategy.execute unitFillEnv 103 100 3).status = .completed ∧
    0 ≤ (OpenPositionStrategy.execute unitFillEnv 103 100 3).state.remainingSizeUSD ∧
    (OpenPositionStrategy.execute unitFillEnv 103 100 3).state.remainingSizeUSD ≤ 1 / 100 ∧
    (OpenPositionStrategy.execute unitFillEnv 103 100 3).state.lotSizes.sum
      = 103 - (OpenPositionStrategy.execute unitFillEnv 103 100 3).state.remainingSizeUSD :=
  open_lot_sum unitFillEnv 103 100 (by norm_num) (by norm_num) unitFillEnv_exact
    (unitFillEnv_balance 103 (by norm_num)) 3 (by decide!)

/-- C4. Lot size bounds, open: whatever the venues answer and however long the run
is followed, every size passed to `executeLot` is at least 5 and below `L + 5`; a
computed size below 5 ends the loop with no call of `executeLot` for it; and a size
above the cap `L` is the cap plus a merged tail between 0.01 and 5. -/
theorem open_lot_size_bounds (env : OpenEnv) (T L : ℚ) (fuel : Nat) :
    (∀ s ∈ (OpenPositionStrategy.execute env T L fuel).state.lotSizes, 5 ≤ s ∧ s < L + 5) ∧
    (∀ st : OpenState, 1 / 100 < st.remainingSizeUSD →
      currentLotSizeUSD L st.remainingSizeUSD < 5 →
      openLoop env L (fuel + 1) st
        = ⟨{ st with currentLot := st.currentLot + 1 }, .completed⟩) ∧
    (∀ rem : ℚ, L < currentLotSizeUSD L rem →
      currentLotSizeUSD L rem = L + nextRemainingUSD L rem ∧
      1 / 100 < nextRemainingUSD L rem ∧ nextRemainingUSD L rem < 5) := by
  refine ⟨?_, ?_, ?_⟩
  · intro s hs
    rcases openLoop_lotSizes_bound env L fuel (OpenState.initial T) s hs with h | h
    · simp [OpenState.initial] at h
    · exact h
  · intro st h1 h2
    exact openLoop_floor env L fuel st h1 h2
  · intro rem h
    unfold currentLotSizeUSD at h ⊢
    have hmin : min L rem ≤ L := min_le_left L rem
    by_cases hm : nextRemainingUSD L rem > 1 / 100 ∧ nextRemainingUSD L rem < 5
    · rw [if_pos hm] at h ⊢
      have hpos : 0 < nextRemainingUSD L rem := by linarith [hm.1]
      have hLrem : L ≤ rem := by
        by_contra hc
        have : min L rem = rem := min_eq_right (le_of_not_le hc)
        unfold nextRemainingUSD at hpos
        rw [this, sub_self] at hpos
        exact lt_irrefl _ hpos
      rw [min_eq_left hLrem]
      exact ⟨rfl, hm.1, hm.2⟩
    · rw [if_neg hm] at h
      linarith

/-- Witness of C4: with 3 USD remaining and a lot cap of 100 the computed size is 3,
below the floor, and the loop ends without a call of `executeLot`. -/
theorem open_lot_size_bounds_witness :
    openLoop unitFillEnv 100 1 { OpenState.initial 3 with remainingSizeUSD := 3 }
      = ⟨{ OpenState.initial 3 with currentLot := 1 }, .completed⟩ :=
  (open_lot_size_bounds unitFillEnv 3 100 0).2.1 (OpenState.initial 3) (by decide!) (by decide!)

/-- The value of `Math.ceil(T / L)` for a target of `n + 1` full lots and a tail. -/
theorem totalLots_split (T L : ℚ) (hL : 0 < L) (n : Nat)
    (ht0 : 0 ≤ T - ((n : ℚ) + 1) * L) (htL : T - ((n : ℚ) + 1) * L < L) :
    OpenPositionStrategy.totalLots T L
      = if T - ((n : ℚ) + 1) * L = 0 then (n : ℤ) + 1 else (n : ℤ) + 2 := by
  unfold OpenPositionStrategy.totalLots
  split_ifs with h
  · rw [Int.ceil_eq_iff]
    push_cast
    have hT : T = ((n : ℚ) + 1) * L := by linarith
    rw [hT, mul_div_assoc, div_self hL.ne']
    constructor <;> linarith
  · rw [Int.ceil_eq_iff]
    push_cast
    have hpos : 0 < T - ((n : ℚ) + 1) * L := lt_of_le_of_ne ht0 (Ne.symm h)
    constructor
    · rw [lt_div_iff₀ hL]; linarith
    · rw [div_le_iff₀ hL]; linarith

/-- C5, counterexample. Target 103, lot cap 100, exact fills, no balance stop: the
3 USD tail is merged into the first lot, so the run ends after one lot, while
`ceil(103 / 100)` is 2. -/
theorem open_lot_count_counterexample :
    ExactFills unitFillEnv ∧ BalanceNeverStops unitFillEnv 103 ∧
    (0 : ℚ) < 100 ∧ (100 : ℚ) ≤ 103 ∧
    (OpenPositionStrategy.execute unitFillEnv 103 100 5).status = .completed ∧
    (OpenPositionStrategy.execute unitFillEnv 103 100 5).state.lotSizes = [103] ∧
    OpenPositionStrategy.totalLots 103 100 = 2 ∧
    ((OpenPositionStrategy.execute unitFillEnv 103 100 5).state.lotSizes.length : ℤ)
      ≠ OpenPositionStrategy.totalLots 103 100 :=
  ⟨unitFillEnv_exact, unitFillEnv_balance 103 (by norm_num), by norm_num, by norm_num,
    by decide!, by decide!, by decide!, by decide!⟩

/-- C5, amended. Lot count, open: for `0 < L ≤ T`, when every lot fills at exactly its
requested USD notional and the balance check stops no lot, the open loop ends and
the number of lots it executed equals `totalLots = ceil(T / L)` if and only if the
lot cap is at least 5 and the tail `T - floor(T / L) * L` is 0 or at least 5; for a
lot cap of at least 5 the number of lots is `floor(T / L)`, plus one when the tail is
at least 5. -/
theorem open_lot_count (env : OpenEnv) (T L : ℚ) (hL : 0 < L) (hLT : L ≤ T)
    (hfill : ExactFills env) (hbal : BalanceNeverStops env T)
    (fuel : Nat) (hfuel : ⌊T / L⌋₊ + 2 ≤ fuel) :
    (OpenPositionStrategy.execute env T L fuel).status = .completed ∧
    (((OpenPositionStrategy.execute env T L fuel).state.lotSizes.length : ℤ)
        = OpenPositionStrategy.totalLots T L ↔
      5 ≤ L ∧ (T - (⌊T / L⌋₊ : ℚ) * L = 0 ∨ 5 ≤ T - (⌊T / L⌋₊ : ℚ) * L)) ∧
    (5 ≤ L → (OpenPositionStrategy.execute env T L fuel).state.lotSizes.length
      = ⌊T / L⌋₊ + if 5 ≤ T - (⌊T / L⌋₊ : ℚ) * L then 1 else 0) := by
  obtain ⟨n, hn, ht0, htL⟩ := floor_split T L hL hLT
  have hq : ((⌊T / L⌋₊ : ℕ) : ℚ) = (n : ℚ) + 1 := by rw [hn]; push_cast; ring
  rw [hq]
  have hceil := totalLots_split T L hL n ht0 htL
  by_cases hL5 : 5 ≤ L
  · have hinit : (OpenState.initial T).remainingSizeUSD = ((n : ℚ) + 1) * L +
        (T - ((n : ℚ) + 1) * L) := by
      show T = _
      ring
    obtain ⟨h1, h2, -⟩ := openLoop_planned env L T hL5 hfill hbal n (T - ((n : ℚ) + 1) * L)
      (OpenState.initial T) fuel hinit ht0 htL (le_refl T) (by omega)
    have hlen : (OpenPositionStrategy.execute env T L fuel).state.lotSizes.length
        = n + 1 + if 5 ≤ T - ((n : ℚ) + 1) * L then 1 else 0 := by
      unfold OpenPositionStrategy.execute
      rw [h2]
      show ([] ++ plannedLots L (n + 1) (T - ((n : ℚ) + 1) * L)).length = _
      rw [List.nil_append, plannedLots_length]
    refine ⟨h1, ?_, fun _ => by rw [hlen, hn]⟩
    rw [hlen, hceil]
    by_cases hz : T - ((n : ℚ) + 1) * L = 0
    · have h5 : ¬ 5 ≤ T - ((n : ℚ) + 1) * L := by rw [hz]; norm_num
      simp [hz, hL5]
    · by_cases h5 : 5 ≤ T - ((n : ℚ) + 1) * L
      · simp only [if_neg hz, if_pos h5, hL5, h5, or_true, and_self, iff_true]
        push_cast
        ring
      · simp only [if_neg hz, if_neg h5, hL5, hz, h5, or_self, and_false, iff_false]
        push_cast
        omega
  · have hL5' : L < 5 := lt_of_not_le hL5
    obtain ⟨h1, h2, h3⟩ := openLoop_small_cap env L T hL5' hLT hfill hbal fuel (by omega)
    refine ⟨h1, ?_, fun h => absurd h hL5⟩
    simp only [hL5, false_and, iff_false]
    intro heq
    have hceil1 : 1 ≤ OpenPositionStrategy.totalLots T L := by
      rw [hceil]; split_ifs <;> omega
    have hlen1 : (OpenPositionStrategy.execute env T L fuel).state.lotSizes.length = 1 := by
      omega
    have hT5 := h3 hlen1
    have hceil2 : 1 < OpenPositionStrategy.totalLots T L := by
      unfold OpenPositionStrategy.totalLots
      rw [Int.lt_ceil]
      push_cast
      rw [lt_div_iff₀ hL]
      linarith
    omega

/-- Witness of C5 amended: the scenario of the specification, target 1000 in lots of
100, executes 10 lots, which is `ceil(1000 / 100)`. -/
theorem open_lot_count_witness :
    (OpenPositionStrategy.execute unitFillEnv 1000 100 12).state.lotSizes.length
      = ⌊(1000 : ℚ) / 100⌋₊ + (if 5 ≤ (1000 : ℚ) - (⌊(1000 : ℚ) / 100⌋₊ : ℚ) * 100 then 1 else 0) ∧
    (OpenPositionStrategy.execute unitFillEnv 1000 100 12).state.lotSizes.length = 10 ∧
    OpenPositionStrategy.totalLots 1000 100 = 10 :=
  ⟨(open_lot_count unitFillEnv 1000 100 (by norm_num) (by norm_num) unitFillEnv_exact
      (unitFillEnv_balance 1000 (by norm_num)) 12 (by decide!)).2.2 (by norm_num),
    by decide!, by decide!⟩

/-- Witness of C2: a rejected fetch, then a sample out of threshold, then a sample
within the threshold at the third poll, which is the one returned. -/
theorem waitForGoodSpread_gating_witness :
    FirstGood (1 / 10) samplePolls 2 ⟨10005 / 100, 100, 1 / 20, true⟩ ∧
    waitForGoodSpread (1 / 10) samplePolls 3 0
      = some (⟨10005 / 100, 100, 1 / 20, true⟩, 3) := by
  have hfirst : FirstGood (1 / 10) samplePolls 2 ⟨10005 / 100, 100, 1 / 20, true⟩ := by
    refine ⟨⟨by decide!, rfl⟩, ?_⟩
    intro j hj i hg
    have h0 : checkSpread (1 / 10) (samplePolls 0).1 (samplePolls 0).2
        = .error .fetchFailed := by decide!
    have h1 : checkSpread (1 / 10) (samplePolls 1).1 (samplePolls 1).2
        = .ok ⟨101, 100, 1, false⟩ := by decide!
    interval_cases j
    · rw [GoodAt, h0] at hg
      exact absurd hg.1 (by simp)
    · rw [GoodAt, h1] at hg
      have h2 : (⟨101, 100, 1, false⟩ : SpreadInfo) = i := by simpa using hg.1
      rw [← h2] at hg
      exact absurd hg.2 (by simp)
  exact ⟨hfirst, (waitForGoodSpread_gating (1 / 10) samplePolls).2.1 2 _ hfirst 3 (by decide)⟩

/-! ### The close lot planner -/

theorem closeArgsValid_iff (P Lp : ℚ) :
    closeArgsValid P Lp = true ↔ 0 < P ∧ P ≤ 100 ∧ 0 < Lp ∧ Lp ≤ P := by
  simp only [closeArgsValid, Bool.and_eq_true, Bool.not_eq_true', Bool.or_eq_false_iff,
    decide_eq_false_iff_not, not_le, not_lt, gt_iff_lt]
  tauto

/-- A validated close run has at least one lot. -/
theorem close_totalLots_pos (P Lp : ℚ) (hvalid : closeArgsValid P Lp = true) :
    ∃ m : Nat, (ClosePositionStrategy.totalLots P Lp).toNat = m + 1 := by
  obtain ⟨hP, -, hLp, -⟩ := (closeArgsValid_iff P Lp).mp hvalid
  have h1 : 0 < ClosePositionStrategy.totalLots P Lp := by
    unfold ClosePositionStrategy.totalLots
    rw [Int.ceil_pos]
    exact div_pos hP hLp
  exact ⟨(ClosePositionStrategy.totalLots P Lp).toNat - 1, by omega⟩

/-- C6, evaluation at the failing input. Close 50 % in lots of 20 % of a position of
10 units on each leg, position changing only through the run's own exact fills, no
tail merge, no lot below the floor: the run executes `ceil(50 / 20) = 3` lots of 2
units and has closed 6 units on each leg, where 50 % of 10 units is 5. -/
theorem close_percentage_decay_overshoot :
    closeArgsValid 50 20 = true ∧
    ClosePositionStrategy.totalLots 50 20 = 3 ∧
    (ClosePositionStrategy.execute decayEnv 50 20).status = .completed ∧
    (ClosePositionStrategy.execute decayEnv 50 20).state.actions
      = [.executeLot 1 2 2, .executeLot 2 2 2, .executeLot 3 2 2] ∧
    (ClosePositionStrategy.execute decayEnv 50 20).state.totalFuturesQty = 6 ∧
    (ClosePositionStrategy.execute decayEnv 50 20).state.totalSpotQty = 6 ∧
    (50 : ℚ) / 100 * 10 = 5 ∧
    decayEnv.positions 1 = .ok (some (-10)) (some 10) ∧
    decayEnv.positions 2 = .ok (some (-(10 - 2))) (some (10 - 2)) ∧
    decayEnv.positions 3 = .ok (some (-(10 - 2 - 2))) (some (10 - 2 - 2)) ∧
    ClosePositionStrategy.mergesTail 20 1 10 10 100 = false ∧
    ClosePositionStrategy.mergesTail 20 2 8 8 100 = false ∧
    ClosePositionStrategy.mergesTail 20 3 6 6 100 = false :=
  ⟨by decide!, by decide!, by decide!, by decide!, by decide!, by decide!, by decide!,
    by decide!, by decide!, by decide!, by decide!, by decide!, by decide!⟩

/-- C8. First-lot floor failure, close: in a validated close run whose reads before
the loop and for lot 1 succeed and show a position, if on lot 1 the futures lot
value and the spot lot value (lot quantity after the tail-merge adjustment times the
current futures price) are both below 5, `execute` fails with the `Lot size too
small` error carrying the suggested lot percentage, and no order-submitting call has
been made. -/
theorem close_first_lot_too_small (env : CloseEnv) (P Lp : ℚ)
    (hvalid : closeArgsValid P Lp = true)
    (pos0 bal0 : Option ℚ) (p0 : ℚ) (pos1 bal1 : Option ℚ) (p1 : ℚ)
    (hread0 : env.positions 0 = .ok pos0 bal0)
    (hsome : ¬ (ClosePositionStrategy.futuresQtyOf pos0 = 0 ∧
      ClosePositionStrategy.spotQtyOf bal0 = 0))
    (hprice0 : env.price 0 = some p0)
    (hread1 : env.positions 1 = .ok pos1 bal1)
    (hleft : ¬ (ClosePositionStrategy.futuresQtyOf pos1 < 1 / 100000000 ∧
      ClosePositionStrategy.spotQtyOf bal1 < 1 / 100000000))
    (hprice1 : env.price 1 = some p1)
    (hF : ClosePositionStrategy.lotFuturesQty Lp 1 (ClosePositionStrategy.futuresQtyOf pos1)
      (ClosePositionStrategy.spotQtyOf bal1) p1 * p1 < 5)
    (hS : ClosePositionStrategy.lotSpotQty Lp 1 (ClosePositionStrategy.futuresQtyOf pos1)
      (ClosePositionStrategy.spotQtyOf bal1) p1 * p1 < 5) :
    ClosePositionStrategy.execute env P Lp
      = ⟨{ CloseState.initial with currentLot := 1 },
          .failed (.lotSizeTooSmall (ClosePositionStrategy.suggestedLotPercent
            (ClosePositionStrategy.futuresQtyOf pos0 * p0)
            (ClosePositionStrategy.spotQtyOf bal0 * p0) P))⟩ ∧
    (ClosePositionStrategy.execute env P Lp).state.actions = [] := by
  obtain ⟨m, hm⟩ := close_totalLots_pos P Lp hvalid
  have hrun : ClosePositionStrategy.execute env P Lp
      = ⟨{ CloseState.initial with currentLot := 1 },
          .failed (.lotSizeTooSmall (ClosePositionStrategy.suggestedLotPercent
            (ClosePositionStrategy.futuresQtyOf pos0 * p0)
            (ClosePositionStrategy.spotQtyOf bal0 * p0) P))⟩ := by
    unfold ClosePositionStrategy.execute
    rw [hread0]
    simp only [hsome, if_false, hprice0, hm]
    rw [closeLoop]
    have hlot : CloseState.initial.currentLot + 1 = 1 := rfl
    rw [hlot, hread1]
    simp only [hleft, if_false, hprice1, hF, hS, or_self, and_self, if_true]
  exact ⟨hrun, by rw [hrun]; rfl⟩

/-- Witness of C8: 1 unit on each leg at price 15, closed in lots of 20 %: the first
lot is worth 3 USD on each leg and the run fails suggesting 34 %. -/
theorem close_first_lot_too_small_witness :
    ClosePositionStrategy.execute smallEnv 100 20
      = ⟨{ CloseState.initial with currentLot := 1 }, .failed (.lotSizeTooSmall (some 34))⟩ ∧
    (ClosePositionStrategy.execute smallEnv 100 20).state.actions = [] := by
  have h := close_first_lot_too_small smallEnv 100 20 (by decide!) (some (-1)) (some 1) 15
    (some (-1)) (some 1) 15 rfl (by decide!) rfl rfl (by decide!) rfl (by decide!) (by decide!)
  have hs : ClosePositionStrategy.suggestedLotPercent
      (ClosePositionStrategy.futuresQtyOf (some (-1)) * 15)
      (ClosePositionStrategy.spotQtyOf (some 1) * 15) 100 = some 34 := by decide!
  rw [hs] at h
  exact h

/-- C9, evaluation at the failing input. A short of 10 units and 1 unit of spot at
price 20, closed in lots of 20 %: on lot 1 the spot lot is worth 4 USD, below the
floor, the futures lot 40 USD; the tail merge does not apply; the run submits one
reduce-only futures order, for the lot's 2 units and not for the 10 units read as
remaining, and ends. -/
theorem close_below_floor_orders_lot_fraction :
    closeArgsValid 100 20 = true ∧
    imbalancedEnv.positions 1 = .ok (some (-10)) (some 1) ∧
    ClosePositionStrategy.futuresQtyOf (some (-10)) = 10 ∧
    ClosePositionStrategy.lotFuturesQty 20 1 10 1 20 * 20 = 40 ∧
    ClosePositionStrategy.lotSpotQty 20 1 10 1 20 * 20 = 4 ∧
    (ClosePositionStrategy.execute imbalancedEnv 100 20).status = .completed ∧
    (ClosePositionStrategy.execute imbalancedEnv 100 20).state.actions
      = [.closeShortReduceOnly 1 2] ∧
    (ClosePositionStrategy.execute imbalancedEnv 100 20).state.actions
      ≠ [.closeShortReduceOnly 1 10] :=
  ⟨by decide!, rfl, by decide!, by decide!, by decide!, by decide!, by decide!, by decide!⟩

/-- C10, evaluation at the failing input. No futures position and 10 units of spot
at price 100, closed in lots of 20 %: the read of lot 1 shows the futures leg at zero
and the spot leg not; the run ends normally without any order-submitting call, so the
spot remainder is not sold. With the legs exchanged (a short of 10 units, no spot)
the run submits a reduce-only futures order, for the lot's 2 units. -/
theorem close_futures_depleted_no_spot_sell :
    closeArgsValid 100 20 = true ∧
    futuresDepletedEnv.positions 1 = .ok none (some 10) ∧
    ClosePositionStrategy.futuresQtyOf none = 0 ∧
    ClosePositionStrategy.spotQtyOf (some 10) = 10 ∧
    ClosePositionStrategy.execute futuresDepletedEnv 100 20
      = ⟨{ CloseState.initial with currentLot := 1 }, .completed⟩ ∧
    (ClosePositionStrategy.execute futuresDepletedEnv 100 20).state.actions = [] ∧
    (ClosePositionStrategy.execute spotDepletedEnv 100 20).status = .completed ∧
    (ClosePositionStrategy.execute spotDepletedEnv 100 20).state.actions
      = [.closeShortReduceOnly 1 2] :=
  ⟨by decide!, rfl, rfl, rfl, by decide!, by decide!, by decide!, by decide!⟩

open ClosePositionStrategy in
/-- The close loop over lots that all go through `executeLot`. -/
theorem closeLoop_proceeds (env : CloseEnv) (P Lp iF iS : ℚ) (F S p : Nat → ℚ) :
    ∀ (m : Nat) (st : CloseState),
      (∀ k, st.currentLot < k → k ≤ st.currentLot + m →
        LotProceeds env Lp k (F k) (S k) (p k)) →
      (closeLoop env P Lp iF iS m st).status = .completed ∧
      (closeLoop env P Lp iF iS m st).state.actions
        = st.actions ++ (List.range' (st.currentLot + 1) m).map (fun k =>
            CloseAction.executeLot k (lotFuturesQty Lp k (F k) (S k) (p k))
              (lotSpotQty Lp k (F k) (S k) (p k))) := by
  intro m
  induction m with
  | zero => intro st _; simp [closeLoop]
  | succ m ih =>
    intro st h
    obtain ⟨⟨a, b, hpos, hFa, hSb⟩, hleft, hprice, hfloor, r, hr, hrf, hrs⟩ :=
      h (st.currentLot + 1) (by omega) (by omega)
    have hne : ¬ (r.futures.executedQty = 0 ∨ r.spot.executedQty = 0) := by
      rw [hrf, hrs]
      rintro (h0 | h0)
      · apply hfloor; left; rw [h0, zero_mul]; norm_num
      · apply hfloor; right; rw [h0, zero_mul]; norm_num
    have hrec := ih (st.accumulate
      (lotFuturesQty Lp (st.currentLot + 1) (F (st.currentLot + 1)) (S (st.currentLot + 1))
        (p (st.currentLot + 1)))
      (lotSpotQty Lp (st.currentLot + 1) (F (st.currentLot + 1)) (S (st.currentLot + 1))
        (p (st.currentLot + 1))) r)
      (fun k hk1 hk2 => h k (by simp only [CloseState.accumulate] at hk1; omega)
        (by simp only [CloseState.accumulate] at hk2; omega))
    rw [closeLoop, hpos]
    simp only [hFa, hSb, hleft, if_false, hprice, hfloor, hr, hne]
    refine ⟨hrec.1, ?_⟩
    rw [hrec.2]
    simp only [CloseState.accumulate, List.range'_succ, List.map_cons, List.append_assoc,
      List.singleton_append]

open ClosePositionStrategy in
/-- A lot started before the last one lies below the close percentage. -/
theorem close_lot_lt_totalLots (P Lp : ℚ) (hLp : 0 < Lp) (k : Nat)
    (hk : k < (totalLots P Lp).toNat) : (k : ℚ) * Lp < P := by
  have h1 : (k : ℤ) < totalLots P Lp := Int.lt_toNat.mp hk
  unfold totalLots at h1
  rw [Int.lt_ceil] at h1
  have h2 : (k : ℚ) < P / Lp := by exact_mod_cast h1
  exact (lt_div_iff₀ hLp).mp h2

open ClosePositionStrategy in
/-- The lot quantity on one leg when the remaining amount is the starting amount less
`k - 1` lots of `Lp` percent of it. -/
theorem lot_quantity_of_remaining (Lp A : ℚ) (k : Nat) (hLp : 0 < Lp)
    (hk : (k : ℚ) * Lp ≤ 100) (hA : 0 ≤ A) :
    A * (100 - ((k : ℚ) - 1) * Lp) / 100 * lotPercentOfRemaining Lp k = Lp / 100 * A ∧
    min (A * (100 - ((k : ℚ) - 1) * Lp) / 100 * lotPercentOfRemaining Lp k)
      (A * (100 - ((k : ℚ) - 1) * Lp) / 100) = Lp / 100 * A := by
  have hd : 0 < 100 - ((k : ℚ) - 1) * Lp := by nlinarith
  have h1 : A * (100 - ((k : ℚ) - 1) * Lp) / 100 * lotPercentOfRemaining Lp k
      = Lp / 100 * A := by
    unfold lotPercentOfRemaining
    field_simp
    ring
  refine ⟨h1, ?_⟩
  rw [h1]
  apply min_eq_left
  have h2 : A * (100 - ((k : ℚ) - 1) * Lp) / 100 - Lp / 100 * A
      = A * (100 - (k : ℚ) * Lp) / 100 := by ring
  have h3 : 0 ≤ A * (100 - (k : ℚ) * Lp) / 100 :=
    div_nonneg (mul_nonneg hA (by linarith)) (by norm_num)
  linarith

open ClosePositionStrategy in
/-- When the position changes only through the run's own exact fills and no tail is
merged, the amounts read for lot `k` are the starting amounts less `k - 1` lots of
`Lp` percent. -/
theorem close_remaining_closed_form (Lp A_f A_s : ℚ) (n : Nat) (F S p : Nat → ℚ)
    (hLp : 0 < Lp) (hAf : 0 ≤ A_f) (hAs : 0 ≤ A_s) (hF1 : F 1 = A_f) (hS1 : S 1 = A_s)
    (hsmall : ∀ k, 1 ≤ k → k < n → (k : ℚ) * Lp ≤ 100)
    (hown : ∀ k, 1 ≤ k → k < n →
      F (k + 1) = F k - lotFuturesQty Lp k (F k) (S k) (p k) ∧
      S (k + 1) = S k - lotSpotQty Lp k (F k) (S k) (p k))
    (hnomerge : ∀ k, 1 ≤ k → k ≤ n → mergesTail Lp k (F k) (S k) (p k) = false) :
    ∀ j, j + 1 ≤ n →
      F (j + 1) = A_f * (100 - (((j + 1 : ℕ) : ℚ) - 1) * Lp) / 100 ∧
      S (j + 1) = A_s * (100 - (((j + 1 : ℕ) : ℚ) - 1) * Lp) / 100 := by
  intro j
  induction j with
  | zero =>
    intro _
    rw [hF1, hS1]
    constructor <;> (push_cast; ring)
  | succ j ih =>
    intro hj
    obtain ⟨ihF, ihS⟩ := ih (by omega)
    obtain ⟨hoF, hoS⟩ := hown (j + 1) (by omega) (by omega)
    have hm := hnomerge (j + 1) (by omega) (by omega)
    have hk := hsmall (j + 1) (by omega) (by omega)
    have hqF := (lot_quantity_of_remaining Lp A_f (j + 1) hLp hk hAf).2
    have hqS := (lot_quantity_of_remaining Lp A_s (j + 1) hLp hk hAs).2
    rw [hoF, hoS]
    simp only [lotFuturesQty, lotSpotQty, hm, Bool.false_eq_true, if_false]
    rw [ihF, ihS, hqF, hqS]
    constructor <;> (push_cast; ring)

open ClosePositionStrategy in
/-- C7. Equal lots, close: in a validated close run on starting amounts `A_f > 0` and
`A_s > 0`, when the reads succeed, the position changes only through the run's own
exact fills, the loop never finds the position closed, and neither the tail merge nor
the floor rule triggers, the run completes having passed every lot `k` to
`executeLot` with the quantities computed for it, and for every lot `k` with
`k * Lp ≤ 100` these quantities are exactly `Lp / 100 * A_f` and `Lp / 100 * A_s`,
the same for each such lot, while being the fraction `Lp / (100 - (k - 1) * Lp)` of
the amounts read as remaining for lot `k`. -/
theorem close_equal_lots (env : CloseEnv) (P Lp A_f A_s p0 : ℚ) (F S p : Nat → ℚ)
    (hvalid : closeArgsValid P Lp = true) (hAf : 0 < A_f) (hAs : 0 < A_s)
    (hread0 : ∃ a b, env.positions 0 = .ok a b ∧ futuresQtyOf a = A_f ∧ spotQtyOf b = A_s)
    (hprice0 : env.price 0 = some p0)
    (hreads : ∀ k, 1 ≤ k → k ≤ (totalLots P Lp).toNat →
      ∃ a b, env.positions k = .ok a b ∧ futuresQtyOf a = F k ∧ spotQtyOf b = S k)
    (hprices : ∀ k, 1 ≤ k → k ≤ (totalLots P Lp).toNat → env.price k = some (p k))
    (hstart : F 1 = A_f ∧ S 1 = A_s)
    (hfills : ∀ k fq sq, ∃ r, env.lot k fq sq = .ok r ∧
      r.futures.executedQty = fq ∧ r.spot.executedQty = sq)
    (hown : ∀ k, 1 ≤ k → k < (totalLots P Lp).toNat →
      F (k + 1) = F k - lotFuturesQty Lp k (F k) (S k) (p k) ∧
      S (k + 1) = S k - lotSpotQty Lp k (F k) (S k) (p k))
    (hpresent : ∀ k, 1 ≤ k → k ≤ (totalLots P Lp).toNat →
      ¬ (F k < 1 / 100000000 ∧ S k < 1 / 100000000))
    (hnomerge : ∀ k, 1 ≤ k → k ≤ (totalLots P Lp).toNat →
      mergesTail Lp k (F k) (S k) (p k) = false)
    (hnofloor : ∀ k, 1 ≤ k → k ≤ (totalLots P Lp).toNat →
      ¬ (lotFuturesQty Lp k (F k) (S k) (p k) * p k < 5 ∨
          lotSpotQty Lp k (F k) (S k) (p k) * p k < 5)) :
    (execute env P Lp).status = .completed ∧
    (execute env P Lp).state.actions
      = (List.range' 1 (totalLots P Lp).toNat).map (fun k =>
          CloseAction.executeLot k (lotFuturesQty Lp k (F k) (S k) (p k))
            (lotSpotQty Lp k (F k) (S k) (p k))) ∧
    ∀ k, 1 ≤ k → k ≤ (totalLots P Lp).toNat → (k : ℚ) * Lp ≤ 100 →
      lotFuturesQty Lp k (F k) (S k) (p k) = Lp / 100 * A_f ∧
      lotSpotQty Lp k (F k) (S k) (p k) = Lp / 100 * A_s ∧
      lotFuturesQty Lp k (F k) (S k) (p k) = F k * lotPercentOfRemaining Lp k ∧
      lotSpotQty Lp k (F k) (S k) (p k) = S k * lotPercentOfRemaining Lp k := by
  obtain ⟨hP, hP100, hLp, hLpP⟩ := (closeArgsValid_iff P Lp).mp hvalid
  have hloop := closeLoop_proceeds env P Lp (A_f * p0) (A_s * p0) F S p
    (totalLots P Lp).toNat CloseState.initial (by
      intro k hk1 hk2
      have h1 : 1 ≤ k := hk1
      have h2 : k ≤ (totalLots P Lp).toNat := by
        simpa [CloseState.initial] using hk2
      obtain ⟨r, hr, hrf, hrs⟩ := hfills k (lotFuturesQty Lp k (F k) (S k) (p k))
        (lotSpotQty Lp k (F k) (S k) (p k))
      exact ⟨hreads k h1 h2, hpresent k h1 h2, hprices k h1 h2, hnofloor k h1 h2,
        r, hr, hrf, hrs⟩)
  have hexec : execute env P Lp
      = closeLoop env P Lp (A_f * p0) (A_s * p0) (totalLots P Lp).toNat
          CloseState.initial := by
    obtain ⟨a, b, hpos, ha, hb⟩ := hread0
    unfold execute
    rw [hpos]
    simp only [hprice0, ha, hb]
    rw [if_neg (fun h => hAf.ne' h.1)]
  have hclosed := close_remaining_closed_form Lp A_f A_s (totalLots P Lp).toNat F S p hLp
    hAf.le hAs.le hstart.1 hstart.2
    (fun k _ hk => by
      have := close_lot_lt_totalLots P Lp hLp k hk
      linarith)
    hown hnomerge
  rw [hexec]
  refine ⟨hloop.1, ?_, ?_⟩
  · rw [hloop.2]
    simp [CloseState.initial]
  · intro k hk1 hk2 hk100
    obtain ⟨j, rfl⟩ : ∃ j, k = j + 1 := ⟨k - 1, by omega⟩
    obtain ⟨hFk, hSk⟩ := hclosed j hk2
    have hm := hnomerge (j + 1) hk1 hk2
    obtain ⟨hf1, hf2⟩ := lot_quantity_of_remaining Lp A_f (j + 1) hLp hk100 hAf.le
    obtain ⟨hs1, hs2⟩ := lot_quantity_of_remaining Lp A_s (j + 1) hLp hk100 hAs.le
    simp only [lotFuturesQty, lotSpotQty, hm, Bool.false_eq_true, if_false]
    rw [hFk, hSk, hf2, hs2, hf1, hs1]
    exact ⟨rfl, rfl, rfl, rfl⟩

open ClosePositionStrategy in
/-- Witness of C7: the scenario of the specification, 100 % closed in lots of 20 % of
10 units on each leg: five lots of exactly 2 units, computed as the fractions
1/5, 1/4, 1/3, 1/2 and 1 of the amounts 10, 8, 6, 4 and 2 read as remaining. -/
theorem close_equal_lots_witness :
    (execute decayEnv 100 20).state.actions
      = [.executeLot 1 2 2, .executeLot 2 2 2, .executeLot 3 2 2, .executeLot 4 2 2,
          .executeLot 5 2 2] ∧
    (List.range' 1 5).map (lotPercentOfRemaining 20) = [1 / 5, 1 / 4, 1 / 3, 1 / 2, 1] ∧
    (execute decayEnv 100 20).status = .completed := by
  have hn : (totalLots 100 20).toNat = 5 := by decide!
  have h := close_equal_lots decayEnv 100 20 10 10 100
    (fun k => 10 - 2 * ((k - 1 : ℕ) : ℚ)) (fun k => 10 - 2 * ((k - 1 : ℕ) : ℚ))
    (fun _ => 100)
    (by decide!) (by norm_num) (by norm_num)
    ⟨_, _, rfl, by decide!, by decide!⟩ rfl
    (by
      intro k h1 h2
      rw [hn] at h2
      refine ⟨_, _, rfl, ?_, rfl⟩
      interval_cases k <;> decide!)
    (fun _ _ _ => rfl)
    ⟨by decide!, by decide!⟩
    (fun _ fq sq => ⟨_, rfl, rfl, rfl⟩)
    (by
      intro k h1 h2
      rw [hn] at h2
      interval_cases k <;> decide!)
    (by
      intro k h1 h2
      rw [hn] at h2
      interval_cases k <;> decide!)
    (by
      intro k h1 h2
      rw [hn] at h2
      interval_cases k <;> decide!)
    (by
      intro k h1 h2
      rw [hn] at h2
      interval_cases k <;> decide!)
  exact ⟨by decide!, by decide!, h.1⟩

/-! ### The emergency unwind -/

open ClosePositionStrategy in
theorem sellRemainingSpot_trace (so : ℚ → Except ExecError OrderResult) (bal : Option ℚ)
    (tr : List Event) (rs : List (Leg × OrderResult)) :
    (sellRemainingSpot so bal tr rs).trace
      = tr ++ spotSellEvents bal := by
  unfold sellRemainingSpot spotSellEvents
  cases bal with
  | none => simp
  | some b =>
    by_cases hb : b > 0
    · rcases h : so b with e | o <;> simp [hb, h]
    · simp [hb]

open ClosePositionStrategy in
theorem sellRemainingSpot_skip (so : ℚ → Except ExecError OrderResult) (bal : Option ℚ)
    (tr : List Event) (rs : List (Leg × OrderResult))
    (h : bal = none ∨ ∃ b, bal = some b ∧ b ≤ 0) :
    sellRemainingSpot so bal tr rs = ⟨tr, .ok rs⟩ := by
  unfold sellRemainingSpot
  rcases h with rfl | ⟨b, rfl, hb⟩
  · rfl
  · simp [not_lt.mpr hb]

/-- C11, counterexample. A short of 10 units, no spot balance, and a venue that
rejects the reduce-only order: the call throws and returns no list. With a spot
balance of 3 in addition, no spot sell is attempted after the rejection. -/
theorem closeRemainingPosition_counterexample :
    (ClosePositionStrategy.closeRemainingPosition rejectAll fillAt100 (some (-10)) none).result
      = .error .orderFailed ∧
    (ClosePositionStrategy.closeRemainingPosition rejectAll fillAt100 (some (-10)) none).result
      ≠ .ok [(.futures, ⟨100, 10⟩)] ∧
    (ClosePositionStrategy.closeRemainingPosition rejectAll fillAt100 (some (-10)) (some 3)).trace
      = [.order .futures .buy 10 true] ∧
    Event.order .spot .sell 3 false ∉
      (ClosePositionStrategy.closeRemainingPosition rejectAll fillAt100 (some (-10))
        (some 3)).trace :=
  ⟨by decide!, by decide!, by decide!, by decide!⟩

open ClosePositionStrategy in
/-- Which orders `closeRemainingPosition` submits: a reduce-only futures buy of
`|positionAmt|` exactly when a futures position with non-zero amount is given; when
that order is not rejected, a spot sell of the whole free balance exactly when a spot
balance with `free > 0` is given; orders only, of these two kinds; and the run with a
non-zero futures position and a zero or absent spot balance. -/
theorem closeRemainingPosition_submits (fo so : ℚ → Except ExecError OrderResult)
    (pos bal : Option ℚ) :
    (∀ q, Event.order .futures .buy q true ∈ (closeRemainingPosition fo so pos bal).trace ↔
      ∃ a, pos = some a ∧ a ≠ 0 ∧ q = |a|) ∧
    ((∀ a, pos = some a → a ≠ 0 → ∃ o, fo |a| = .ok o) →
      ∀ q, Event.order .spot .sell q false ∈ (closeRemainingPosition fo so pos bal).trace ↔
        ∃ b, bal = some b ∧ 0 < b ∧ q = b) ∧
    (∀ e ∈ (closeRemainingPosition fo so pos bal).trace,
      e.isOrder = true ∧
      ((∃ q, e = .order .futures .buy q true) ∨ (∃ q, e = .order .spot .sell q false))) ∧
    (∀ a, pos = some a → a ≠ 0 → (bal = none ∨ ∃ b, bal = some b ∧ b ≤ 0) →
      (closeRemainingPosition fo so pos bal).trace = [.order .futures .buy |a| true] ∧
      (∀ o, fo |a| = .ok o →
        (closeRemainingPosition fo so pos bal).result = .ok [(.futures, o)]) ∧
      (∀ e, fo |a| = .error e → (closeRemainingPosition fo so pos bal).result = .error e)) := by
  have hspot : ∀ (b : Option ℚ) (q : ℚ),
      (Event.order .spot .sell q false ∈ spotSellEvents b) ↔ ∃ b', b = some b' ∧ 0 < b' ∧ q = b' := by
    intro b q
    unfold spotSellEvents
    cases b with
    | none => simp
    | some b =>
      by_cases hb : b > 0
      · simp only [hb, if_true, List.mem_singleton, Event.order.injEq, true_and, and_true,
          Option.some.injEq]
        constructor
        · rintro rfl; exact ⟨q, rfl, hb, rfl⟩
        · rintro ⟨b', rfl, -, rfl⟩; rfl
      · simp only [hb, if_false, List.not_mem_nil, Option.some.injEq, false_iff, not_exists,
          not_and]
        rintro b' rfl hb'
        exact absurd hb' hb
  have hspotform : ∀ (b : Option ℚ), ∀ e ∈ spotSellEvents b,
      e.isOrder = true ∧
      ((∃ q, e = .order .futures .buy q true) ∨ (∃ q, e = .order .spot .sell q false)) := by
    intro b e he
    unfold spotSellEvents at he
    cases b with
    | none => simp at he
    | some b =>
      by_cases hb : b > 0
      · simp only [hb, if_true, List.mem_singleton] at he
        subst he
        exact ⟨rfl, Or.inr ⟨b, rfl⟩⟩
      · simp [hb] at he
  have hnofut : ∀ (b : Option ℚ) (q : ℚ),
      Event.order .futures .buy q true ∉ spotSellEvents b := by
    intro b q h
    rcases (hspotform b _ h).2 with ⟨q', hq⟩ | ⟨q', hq⟩
    · unfold spotSellEvents at h
      cases b with
      | none => simp at h
      | some b => by_cases hb : b > 0 <;> simp [hb] at h
    · simp at hq
  cases pos with
  | none =>
    have htr : (closeRemainingPosition fo so none bal).trace
        = [] ++ spotSellEvents bal := sellRemainingSpot_trace so bal [] []
    rw [List.nil_append] at htr
    refine ⟨?_, ?_, ?_, ?_⟩
    · intro q
      rw [htr]
      constructor
      · intro h; exact absurd h (hnofut bal q)
      · rintro ⟨a, ha, -⟩; simp at ha
    · intro _ q
      rw [htr]
      exact hspot bal q
    · intro e he
      rw [htr] at he
      exact hspotform bal e he
    · intro a ha; simp at ha
  | some a =>
    by_cases ha0 : a = 0
    · have hna : ¬ (|a| > 0) := by rw [ha0]; simp
      have htr : (closeRemainingPosition fo so (some a) bal).trace
          = [] ++ spotSellEvents bal := by
        unfold closeRemainingPosition
        simp only [hna, if_false]
        exact sellRemainingSpot_trace so bal [] []
      rw [List.nil_append] at htr
      refine ⟨?_, ?_, ?_, ?_⟩
      · intro q
        rw [htr]
        constructor
        · intro h; exact absurd h (hnofut bal q)
        · rintro ⟨a', ha', hne, -⟩
          simp only [Option.some.injEq] at ha'
          exact absurd (ha'.symm ▸ ha0) hne
      · intro _ q
        rw [htr]
        exact hspot bal q
      · intro e he
        rw [htr] at he
        exact hspotform bal e he
      · intro a' ha' hne
        simp only [Option.some.injEq] at ha'
        exact absurd (ha'.symm ▸ ha0) hne
    · have hpa : |a| > 0 := abs_pos.mpr ha0
      cases hfo : fo |a| with
      | error e =>
        have hrun : closeRemainingPosition fo so (some a) bal
            = ⟨[.order .futures .buy |a| true], .error e⟩ := by
          unfold closeRemainingPosition
          simp only [hpa, if_true, hfo]
        refine ⟨?_, ?_, ?_, ?_⟩
        · intro q
          rw [hrun]
          simp only [List.mem_singleton, Event.order.injEq, true_and, and_true,
            Option.some.injEq]
          constructor
          · rintro rfl; exact ⟨a, rfl, ha0, rfl⟩
          · rintro ⟨a', rfl, -, rfl⟩; rfl
        · intro hacc
          obtain ⟨o, ho⟩ := hacc a rfl ha0
          rw [hfo] at ho
          cases ho
        · intro e' he'
          rw [hrun] at he'
          simp only [List.mem_singleton] at he'
          subst he'
          exact ⟨rfl, Or.inl ⟨|a|, rfl⟩⟩
        · intro a' ha' _ _
          simp only [Option.some.injEq] at ha'
          subst ha'
          rw [hrun]
          refine ⟨rfl, ?_, ?_⟩
          · intro o ho; rw [hfo] at ho; cases ho
          · intro e' he'
            rw [hfo] at he'
            cases he'
            rfl
      | ok o =>
        have hrun : closeRemainingPosition fo so (some a) bal
            = sellRemainingSpot so bal [.order .futures .buy |a| true] [(.futures, o)] := by
          unfold closeRemainingPosition
          simp only [hpa, if_true, hfo]
        have htr := sellRemainingSpot_trace so bal [.order .futures .buy |a| true]
          [(.futures, o)]
        rw [← hrun] at htr
        refine ⟨?_, ?_, ?_, ?_⟩
        · intro q
          rw [htr, List.mem_append]
          constructor
          · rintro (h | h)
            · simp only [List.mem_singleton, Event.order.injEq, true_and, and_true] at h
              exact ⟨a, rfl, ha0, h⟩
            · exact absurd h (hnofut bal q)
          · rintro ⟨a', ha', -, rfl⟩
            simp only [Option.some.injEq] at ha'
            subst ha'
            exact Or.inl (List.mem_singleton.mpr rfl)
        · intro _ q
          rw [htr, List.mem_append, ← hspot bal q]
          constructor
          · rintro (h | h)
            · simp at h
            · exact h
          · exact Or.inr
        · intro e he
          rw [htr, List.mem_append] at he
          rcases he with he | he
          · simp only [List.mem_singleton] at he
            subst he
            exact ⟨rfl, Or.inl ⟨|a|, rfl⟩⟩
          · exact hspotform bal e he
        · intro a' ha' _ hbal
          simp only [Option.some.injEq] at ha'
          subst ha'
          rw [hrun, sellRemainingSpot_skip so bal _ _ hbal]
          refine ⟨rfl, ?_, ?_⟩
          · intro o' ho'
            rw [hfo] at ho'
            cases ho'
            rfl
          · intro e' he'
            rw [hfo] at he'
            cases he'

open ClosePositionStrategy in
/-- When the futures step does not throw, the call is the spot step run on what the
futures step left. -/
theorem closeRemainingPosition_spot_step (fo so : ℚ → Except ExecError OrderResult)
    (pos bal : Option ℚ) (hacc : ∀ a, pos = some a → a ≠ 0 → ∃ o, fo |a| = .ok o) :
    ∃ tr rs, closeRemainingPosition fo so pos bal = sellRemainingSpot so bal tr rs := by
  cases pos with
  | none => exact ⟨[], [], rfl⟩
  | some a =>
    by_cases ha0 : a = 0
    · have hna : ¬ (|a| > 0) := by rw [ha0]; simp
      refine ⟨[], [], ?_⟩
      unfold closeRemainingPosition
      simp only [hna, if_false]
    · obtain ⟨o, ho⟩ := hacc a rfl ha0
      refine ⟨[.order .futures .buy |a| true], [(.futures, o)], ?_⟩
      unfold closeRemainingPosition
      simp only [abs_pos.mpr ha0, if_true, ho]

open ClosePositionStrategy in
/-- C11, amended. Emergency unwind: (1) `closeRemainingPosition` submits a reduce-only
futures buy of `|positionAmt|` exactly when a futures position with non-zero amount
is given; (2) when that order is not rejected, it submits a spot sell of the whole
free balance exactly when a spot balance with `free > 0` is given; (3) its trace
holds orders only, never a spread check, and no other kind of order; (4) with a
non-zero futures position and a zero or absent spot balance it attempts only the
futures order and, when the order is accepted, returns the one-element list of that
order; (5) whatever the spot balance, a rejected futures order is rethrown with
nothing attempted after it; (6) a rejected spot order is rethrown as well, an
accepted one is the last entry of the returned list, and the spot order is the last
event of the call. -/
theorem closeRemainingPosition_orders (fo so : ℚ → Except ExecError OrderResult)
    (pos bal : Option ℚ) :
    (∀ q, Event.order .futures .buy q true ∈ (closeRemainingPosition fo so pos bal).trace ↔
      ∃ a, pos = some a ∧ a ≠ 0 ∧ q = |a|) ∧
    ((∀ a, pos = some a → a ≠ 0 → ∃ o, fo |a| = .ok o) →
      ∀ q, Event.order .spot .sell q false ∈ (closeRemainingPosition fo so pos bal).trace ↔
        ∃ b, bal = some b ∧ 0 < b ∧ q = b) ∧
    (∀ e ∈ (closeRemainingPosition fo so pos bal).trace,
      e.isOrder = true ∧
      ((∃ q, e = .order .futures .buy q true) ∨ (∃ q, e = .order .spot .sell q false))) ∧
    (∀ a, pos = some a → a ≠ 0 → (bal = none ∨ ∃ b, bal = some b ∧ b ≤ 0) →
      (closeRemainingPosition fo so pos bal).trace = [.order .futures .buy |a| true] ∧
      (∀ o, fo |a| = .ok o →
        (closeRemainingPosition fo so pos bal).result = .ok [(.futures, o)]) ∧
      (∀ e, fo |a| = .error e → (closeRemainingPosition fo so pos bal).result = .error e)) ∧
    (∀ a e, pos = some a → a ≠ 0 → fo |a| = .error e →
      closeRemainingPosition fo so pos bal
        = ⟨[.order .futures .buy |a| true], .error e⟩) ∧
    ((∀ a, pos = some a → a ≠ 0 → ∃ o, fo |a| = .ok o) →
      ∀ b, bal = some b → 0 < b →
        (closeRemainingPosition fo so pos bal).trace.getLast?
          = some (.order .spot .sell b false) ∧
        (∀ e, so b = .error e → (closeRemainingPosition fo so pos bal).result = .error e) ∧
        (∀ o, so b = .ok o →
          ∃ rs, (closeRemainingPosition fo so pos bal).result = .ok (rs ++ [(.spot, o)]))) := by
  obtain ⟨h1, h2, h3, h4⟩ := closeRemainingPosition_submits fo so pos bal
  refine ⟨h1, h2, h3, h4, ?_, ?_⟩
  · intro a e hpos ha0 hfo
    subst hpos
    unfold closeRemainingPosition
    simp only [abs_pos.mpr ha0, if_true, hfo]
  · intro hacc b hbal hb
    obtain ⟨tr, rs, hrun⟩ := closeRemainingPosition_spot_step fo so pos bal hacc
    subst hbal
    rw [hrun]
    unfold sellRemainingSpot
    simp only [gt_iff_lt, hb, if_true]
    cases hso : so b with
    | error e' =>
      refine ⟨by simp, ?_, ?_⟩
      · intro e he
        cases he
        rfl
      · intro o ho
        cases ho
    | ok o' =>
      refine ⟨by simp, ?_, ?_⟩
      · intro e he
        cases he
      · intro o ho
        cases ho
        exact ⟨rs, rfl⟩

/-- Witness of C11 amended: the scenario of the specification, a short of 10 units
and no spot balance, the reduce-only order accepted: one futures order, a
one-element result list; and with a spot balance of 3 and the futures order
rejected, the call is that one order and the rethrown error. -/
theorem closeRemainingPosition_orders_witness :
    (ClosePositionStrategy.closeRemainingPosition fillAt100 fillAt100 (some (-10)) none).trace
      = [.order .futures .buy |(-10 : ℚ)| true] ∧
    (ClosePositionStrategy.closeRemainingPosition fillAt100 fillAt100 (some (-10)) none).result
      = .ok [(.futures, ⟨100, |(-10 : ℚ)|⟩)] ∧
    ClosePositionStrategy.closeRemainingPosition rejectAll fillAt100 (some (-10)) (some 3)
      = ⟨[.order .futures .buy |(-10 : ℚ)| true], .error .orderFailed⟩ ∧
    (ClosePositionStrategy.closeRemainingPosition fillAt100 rejectAll (some (-10))
      (some 3)).result = .error .orderFailed :=
  ⟨((closeRemainingPosition_orders fillAt100 fillAt100 (some (-10)) none).2.2.2.1 (-10) rfl
      (by norm_num) (Or.inl rfl)).1,
    ((closeRemainingPosition_orders fillAt100 fillAt100 (some (-10)) none).2.2.2.1 (-10) rfl
      (by norm_num) (Or.inl rfl)).2.1 _ rfl,
    (closeRemainingPosition_orders rejectAll fillAt100 (some (-10)) (some 3)).2.2.2.2.1
      (-10) .orderFailed rfl (by norm_num) rfl,
    ((closeRemainingPosition_orders fillAt100 rejectAll (some (-10)) (some 3)).2.2.2.2.2
      (fun a _ _ => ⟨_, rfl⟩) 3 rfl (by norm_num)).2.1 .orderFailed rfl⟩

/-! ### Fill integrity -/

theorem allFilled_append (results : List LotResult) (r : LotResult) (h : AllFilled results)
    (hr : ¬ (r.futures.executedQty = 0 ∨ r.spot.executedQty = 0)) :
    AllFilled (results ++ [r]) := by
  intro x hx
  rcases List.mem_append.mp hx with hx | hx
  · exact h x hx
  · rw [List.mem_singleton] at hx
    subst hx
    exact ⟨fun h0 => hr (Or.inl h0), fun h0 => hr (Or.inr h0)⟩

/-- The open loop keeps the recorded lots filled and the totals equal to their sums. -/
theorem openLoop_fill_integrity (env : OpenEnv) (L : ℚ) :
    ∀ (fuel : Nat) (st : OpenState),
      AllFilled st.results → st.totalFuturesQty = futuresFilled st.results →
      st.totalSpotQty = spotFilled st.results →
      AllFilled (openLoop env L fuel st).state.results ∧
      (openLoop env L fuel st).state.totalFuturesQty
        = futuresFilled (openLoop env L fuel st).state.results ∧
      (openLoop env L fuel st).state.totalSpotQty
        = spotFilled (openLoop env L fuel st).state.results := by
  intro fuel
  induction fuel with
  | zero => intro st h1 h2 h3; exact ⟨h1, h2, h3⟩
  | succ fuel ih =>
    intro st h1 h2 h3
    rw [openLoop]
    by_cases hrem : st.remainingSizeUSD > 1 / 100
    · rw [if_pos hrem]
      by_cases h5 : currentLotSizeUSD L st.remainingSizeUSD < 5
      · simp only [h5, if_true]
        exact ⟨h1, h2, h3⟩
      · simp only [h5, if_false]
        by_cases hb : insufficientBalance (env.balance (st.currentLot + 1))
            (currentLotSizeUSD L st.remainingSizeUSD) = true
        · simp only [hb, if_true]
          exact ⟨h1, h2, h3⟩
        · simp only [hb, if_false]
          cases hl : env.lot (st.currentLot + 1) (currentLotSizeUSD L st.remainingSizeUSD) with
          | error e => exact ⟨h1, h2, h3⟩
          | ok r =>
            by_cases hz : r.futures.executedQty = 0 ∨ r.spot.executedQty = 0
            · simp only [hz, if_true]
              exact ⟨h1, h2, h3⟩
            · simp only [hz, if_false]
              apply ih
              · exact allFilled_append st.results r h1 hz
              · simp [OpenState.accumulate, futuresFilled, h2]
              · simp [OpenState.accumulate, spotFilled, h3]
    · rw [if_neg hrem]
      exact ⟨h1, h2, h3⟩

/-- The close loop keeps the recorded lots filled, the spot total equal to their sum,
and the futures total equal to their sum plus what a reduce-only order executed. -/
theorem closeLoop_fill_integrity (env : CloseEnv) (P Lp iF iS : ℚ) :
    ∀ (n : Nat) (st : CloseState),
      AllFilled st.results → st.totalFuturesQty = futuresFilled st.results →
      st.totalSpotQty = spotFilled st.results →
      AllFilled (closeLoop env P Lp iF iS n st).state.results ∧
      (closeLoop env P Lp iF iS n st).state.totalSpotQty
        = spotFilled (closeLoop env P Lp iF iS n st).state.results ∧
      ((closeLoop env P Lp iF iS n st).state.totalFuturesQty
          = futuresFilled (closeLoop env P Lp iF iS n st).state.results ∨
        ∃ k q o, CloseAction.closeShortReduceOnly k q
            ∈ (closeLoop env P Lp iF iS n st).state.actions ∧
          env.reduceOnlyClose k q = .ok o ∧
          (closeLoop env P Lp iF iS n st).state.totalFuturesQty
            = futuresFilled (closeLoop env P Lp iF iS n st).state.results + o.executedQty) := by
  intro n
  induction n with
  | zero => intro st h1 h2 h3; exact ⟨h1, h3, Or.inl h2⟩
  | succ n ih =>
    intro st h1 h2 h3
    rw [closeLoop]
    cases hpos : env.positions (st.currentLot + 1) with
    | failed => exact ⟨h1, h3, Or.inl h2⟩
    | ok a b =>
      simp only
      split_ifs with hdust
      · exact ⟨h1, h3, Or.inl h2⟩
      · cases hprice : env.price (st.currentLot + 1) with
        | none => exact ⟨h1, h3, Or.inl h2⟩
        | some p =>
          simp only
          split_ifs with hfloor hfirst
          · exact ⟨h1, h3, Or.inl h2⟩
          · unfold CloseState.closeBelowMinimum
            split_ifs with hq
            · cases hro : env.reduceOnlyClose (st.currentLot + 1)
                  (ClosePositionStrategy.lotFuturesQty Lp (st.currentLot + 1)
                    (ClosePositionStrategy.futuresQtyOf a) (ClosePositionStrategy.spotQtyOf b) p) with
              | error e => exact ⟨h1, h3, Or.inl h2⟩
              | ok o =>
                refine ⟨h1, h3, Or.inr ⟨_, _, o, ?_, hro, ?_⟩⟩
                · simp
                · simp [h2]
            · exact ⟨h1, h3, Or.inl h2⟩
          · cases hl : env.lot (st.currentLot + 1)
                (ClosePositionStrategy.lotFuturesQty Lp (st.currentLot + 1)
                  (ClosePositionStrategy.futuresQtyOf a) (ClosePositionStrategy.spotQtyOf b) p)
                (ClosePositionStrategy.lotSpotQty Lp (st.currentLot + 1)
                  (ClosePositionStrategy.futuresQtyOf a) (ClosePositionStrategy.spotQtyOf b) p) with
            | error e => exact ⟨h1, h3, Or.inl h2⟩
            | ok r =>
              simp only
              split_ifs with hz
              · exact ⟨h1, h3, Or.inl h2⟩
              · apply ih
                · exact allFilled_append st.results r h1 hz
                · simp [CloseState.accumulate, futuresFilled, h2]
                · simp [CloseState.accumulate, spotFilled, h3]

open ClosePositionStrategy in
/-- C12. Fill integrity, open and close: (1), (3) a dual-leg lot whose result has
`executedQty = 0` on either leg makes the loop fail with `Order was not executed`
while `results` and the four cumulative totals are what they were before the lot;
(2), (4) in every returned summary each recorded lot has a non-zero executed quantity
on both legs, `totalLots` counts the recorded lots, `totalSpotQty` is the sum of
their spot quantities, and `totalFuturesQty` is the sum of their futures quantities,
in close plus the executed quantity of the reduce-only order when one was accepted
(nothing when that quantity is 0). -/
theorem fill_integrity (envO : OpenEnv) (envC : CloseEnv) (T L P Lp iF iS : ℚ)
    (fuel : Nat) :
    (∀ (st : OpenState) (r : LotResult), 1 / 100 < st.remainingSizeUSD →
      ¬ currentLotSizeUSD L st.remainingSizeUSD < 5 →
      insufficientBalance (envO.balance (st.currentLot + 1))
        (currentLotSizeUSD L st.remainingSizeUSD) = false →
      envO.lot (st.currentLot + 1) (currentLotSizeUSD L st.remainingSizeUSD) = .ok r →
      (r.futures.executedQty = 0 ∨ r.spot.executedQty = 0) →
      (openLoop envO L (fuel + 1) st).status = .failed .notExecuted ∧
      (openLoop envO L (fuel + 1) st).state.results = st.results ∧
      (openLoop envO L (fuel + 1) st).state.totalFuturesQty = st.totalFuturesQty ∧
      (openLoop envO L (fuel + 1) st).state.totalSpotQty = st.totalSpotQty ∧
      (openLoop envO L (fuel + 1) st).state.totalFuturesValue = st.totalFuturesValue ∧
      (openLoop envO L (fuel + 1) st).state.totalSpotValue = st.totalSpotValue) ∧
    (∀ results summary,
      (OpenPositionStrategy.execute envO T L fuel).returned = some (results, summary) →
      AllFilled results ∧ summary.totalLots = results.length ∧
      summary.totalFuturesQty = futuresFilled results ∧
      summary.totalSpotQty = spotFilled results) ∧
    (∀ (n : Nat) (st : CloseState) (a b : Option ℚ) (p : ℚ) (r : LotResult),
      envC.positions (st.currentLot + 1) = .ok a b →
      ¬ (futuresQtyOf a < 1 / 100000000 ∧ spotQtyOf b < 1 / 100000000) →
      envC.price (st.currentLot + 1) = some p →
      ¬ (lotFuturesQty Lp (st.currentLot + 1) (futuresQtyOf a) (spotQtyOf b) p * p < 5 ∨
          lotSpotQty Lp (st.currentLot + 1) (futuresQtyOf a) (spotQtyOf b) p * p < 5) →
      envC.lot (st.currentLot + 1)
        (lotFuturesQty Lp (st.currentLot + 1) (futuresQtyOf a) (spotQtyOf b) p)
        (lotSpotQty Lp (st.currentLot + 1) (futuresQtyOf a) (spotQtyOf b) p) = .ok r →
      (r.futures.executedQty = 0 ∨ r.spot.executedQty = 0) →
      (closeLoop envC P Lp iF iS (n + 1) st).status = .failed .notExecuted ∧
      (closeLoop envC P Lp iF iS (n + 1) st).state.results = st.results ∧
      (closeLoop envC P Lp iF iS (n + 1) st).state.totalFuturesQty = st.totalFuturesQty ∧
      (closeLoop envC P Lp iF iS (n + 1) st).state.totalSpotQty = st.totalSpotQty ∧
      (closeLoop envC P Lp iF iS (n + 1) st).state.totalFuturesValue = st.totalFuturesValue ∧
      (closeLoop envC P Lp iF iS (n + 1) st).state.totalSpotValue = st.totalSpotValue) ∧
    (∀ results summary, (execute envC P Lp).returned = some (results, summary) →
      AllFilled results ∧ summary.totalLots = results.length ∧
      summary.totalSpotQty = spotFilled results ∧
      (summary.totalFuturesQty = futuresFilled results ∨
        ∃ k q o, CloseAction.closeShortReduceOnly k q ∈ (execute envC P Lp).state.actions ∧
          envC.reduceOnlyClose k q = .ok o ∧
          summary.totalFuturesQty = futuresFilled results + o.executedQty)) := by
  have hnil : AllFilled ([] : List LotResult) := fun r hr => by simp at hr
  refine ⟨?_, ?_, ?_, ?_⟩
  · intro st r hrem h5 hb hl hz
    rw [openLoop, if_pos hrem]
    simp only [h5, if_false, hb, hl, hz, if_true, Bool.false_eq_true, and_self]
  · intro results summary hret
    obtain ⟨h1, h2, h3⟩ := openLoop_fill_integrity envO L fuel (OpenState.initial T) hnil
      (by simp [OpenState.initial, futuresFilled]) (by simp [OpenState.initial, spotFilled])
    unfold OpenRun.returned at hret
    unfold OpenPositionStrategy.execute at hret
    cases hs : (openLoop envO L fuel (OpenState.initial T)).status with
    | running => rw [hs] at hret; simp at hret
    | failed e => rw [hs] at hret; simp at hret
    | completed =>
      rw [hs] at hret
      simp only [Option.some.injEq, Prod.mk.injEq] at hret
      obtain ⟨rfl, rfl⟩ := hret
      exact ⟨h1, rfl, h2, h3⟩
  · intro n st a b p r hpos hdust hprice hfloor hl hz
    rw [closeLoop, hpos]
    simp only [hdust, if_false, hprice, hfloor, hl, hz, if_true, and_self]
  · intro results summary hret
    have hrun : (∃ e, execute envC P Lp = ⟨CloseState.initial, .failed e⟩) ∨
        ∃ f s, execute envC P Lp
          = closeLoop envC P Lp f s (totalLots P Lp).toNat CloseState.initial := by
      unfold execute
      cases envC.positions 0 with
      | failed => exact Or.inl ⟨_, rfl⟩
      | ok a b =>
        simp only
        split_ifs
        · exact Or.inl ⟨_, rfl⟩
        · cases envC.price 0 with
          | none => exact Or.inl ⟨_, rfl⟩
          | some p0 => exact Or.inr ⟨_, _, rfl⟩
    rcases hrun with ⟨e, he⟩ | ⟨f, s, hfs⟩
    · rw [he] at hret
      simp [CloseRun.returned] at hret
    · obtain ⟨h1, h3, h2⟩ := closeLoop_fill_integrity envC P Lp f s (totalLots P Lp).toNat
        CloseState.initial hnil (by simp [CloseState.initial, futuresFilled])
        (by simp [CloseState.initial, spotFilled])
      rw [hfs] at hret ⊢
      unfold CloseRun.returned at hret
      cases hs : (closeLoop envC P Lp f s (totalLots P Lp).toNat CloseState.initial).status with
      | running => rw [hs] at hret; simp at hret
      | failed e => rw [hs] at hret; simp at hret
      | completed =>
        rw [hs] at hret
        simp only [Option.some.injEq, Prod.mk.injEq] at hret
        obtain ⟨rfl, rfl⟩ := hret
        exact ⟨h1, rfl, h3, h2⟩

/-- Witness of C12: an open lot of 100 USD whose spot order comes back with nothing
executed: the run fails and `results` and the totals are untouched. -/
theorem fill_integrity_witness :
    (openLoop spotUnfilledEnv 100 1 (OpenState.initial 100)).status = .failed .notExecuted ∧
    (openLoop spotUnfilledEnv 100 1 (OpenState.initial 100)).state.results = [] ∧
    (openLoop spotUnfilledEnv 100 1 (OpenState.initial 100)).state.totalFuturesQty = 0 :=
  have h := (fill_integrity spotUnfilledEnv decayEnv 100 100 100 20 0 0 0).1
    (OpenState.initial 100) ⟨⟨1, 100⟩, ⟨1, 0⟩, ⟨1, 1, 0, true⟩⟩ (by decide!) (by decide!)
    (by decide!) (by decide!) (Or.inr rfl)
  ⟨h.1, h.2.1, h.2.2.1⟩

/-! ### The balance check -/

/-- The open loop only appends to the sizes it has passed to `executeLot`. -/
theorem openLoop_lotSizes_grow (env : OpenEnv) (L : ℚ) :
    ∀ (fuel : Nat) (st : OpenState),
      ∃ rest, (openLoop env L fuel st).state.lotSizes = st.lotSizes ++ rest := by
  intro fuel
  induction fuel with
  | zero => intro st; exact ⟨[], by simp [openLoop]⟩
  | succ fuel ih =>
    intro st
    rw [openLoop]
    by_cases hrem : st.remainingSizeUSD > 1 / 100
    · rw [if_pos hrem]
      by_cases h5 : currentLotSizeUSD L st.remainingSizeUSD < 5
      · simp only [h5, if_true]
        exact ⟨[], by simp⟩
      · simp only [h5, if_false]
        by_cases hb : insufficientBalance (env.balance (st.currentLot + 1))
            (currentLotSizeUSD L st.remainingSizeUSD) = true
        · simp only [hb, if_true]
          exact ⟨[], by simp⟩
        · have hb' : insufficientBalance (env.balance (st.currentLot + 1))
              (currentLotSizeUSD L st.remainingSizeUSD) = false := by simpa using hb
          simp only [hb', Bool.false_eq_true, if_false]
          cases hl : env.lot (st.currentLot + 1) (currentLotSizeUSD L st.remainingSizeUSD) with
          | error e => exact ⟨[currentLotSizeUSD L st.remainingSizeUSD], rfl⟩
          | ok r =>
            by_cases hz : r.futures.executedQty = 0 ∨ r.spot.executedQty = 0
            · simp only [hz, if_true]
              exact ⟨[currentLotSizeUSD L st.remainingSizeUSD], rfl⟩
            · simp only [hz, if_false]
              obtain ⟨rest, hrest⟩ :=
                ih (st.accumulate (currentLotSizeUSD L st.remainingSizeUSD) r)
              exact ⟨currentLotSizeUSD L st.remainingSizeUSD :: rest, by
                rw [hrest]; simp [OpenState.accumulate]⟩
    · rw [if_neg hrem]
      exact ⟨[], by simp⟩

/-- A lot that passes the floor and the balance check is passed to `executeLot`. -/
theorem openLoop_lot_proceeds (env : OpenEnv) (L : ℚ) (fuel : Nat) (st : OpenState)
    (hrem : 1 / 100 < st.remainingSizeUSD)
    (h5 : ¬ currentLotSizeUSD L st.remainingSizeUSD < 5)
    (hb : insufficientBalance (env.balance (st.currentLot + 1))
      (currentLotSizeUSD L st.remainingSizeUSD) = false) :
    ∃ rest, (openLoop env L (fuel + 1) st).state.lotSizes
      = st.lotSizes ++ currentLotSizeUSD L st.remainingSizeUSD :: rest := by
  rw [openLoop, if_pos hrem]
  simp only [h5, if_false, hb, Bool.false_eq_true]
  cases hl : env.lot (st.currentLot + 1) (currentLotSizeUSD L st.remainingSizeUSD) with
  | error e => exact ⟨[], rfl⟩
  | ok r =>
    by_cases hz : r.futures.executedQty = 0 ∨ r.spot.executedQty = 0
    · simp only [hz, if_true]
      exact ⟨[], rfl⟩
    · simp only [hz, if_false]
      obtain ⟨rest, hrest⟩ := openLoop_lotSizes_grow env L fuel
        (st.accumulate (currentLotSizeUSD L st.remainingSizeUSD) r)
      exact ⟨rest, by rw [hrest]; simp [OpenState.accumulate]⟩

/-- C13. Balance stop, open: for a lot of size `s` that passed the floor, the loop
stops at the balance check (no call of `executeLot` for the lot, the run completed
with the results and totals of the lots already executed) if and only if the balance
read succeeds and the spot or the futures free USDT balance, a missing balance
counting as 0, is below `s / 2`; otherwise, and in particular when the read fails,
the lot is passed to `executeLot`. -/
theorem open_balance_stop (env : OpenEnv) (L : ℚ) (fuel : Nat) (st : OpenState)
    (hrem : 1 / 100 < st.remainingSizeUSD)
    (h5 : ¬ currentLotSizeUSD L st.remainingSizeUSD < 5) :
    (openLoop env L (fuel + 1) st = ⟨{ st with currentLot := st.currentLot + 1 }, .completed⟩ ↔
      ∃ spotFree futuresFree, env.balance (st.currentLot + 1) = .ok spotFree futuresFree ∧
        (spotFree.getD 0 < currentLotSizeUSD L st.remainingSizeUSD / 2 ∨
          futuresFree.getD 0 < currentLotSizeUSD L st.remainingSizeUSD / 2)) ∧
    ((¬ ∃ spotFree futuresFree, env.balance (st.currentLot + 1) = .ok spotFree futuresFree ∧
        (spotFree.getD 0 < currentLotSizeUSD L st.remainingSizeUSD / 2 ∨
          futuresFree.getD 0 < currentLotSizeUSD L st.remainingSizeUSD / 2)) →
      ∃ rest, (openLoop env L (fuel + 1) st).state.lotSizes
        = st.lotSizes ++ currentLotSizeUSD L st.remainingSizeUSD :: rest) ∧
    (env.balance (st.currentLot + 1) = .failed →
      ∃ rest, (openLoop env L (fuel + 1) st).state.lotSizes
        = st.lotSizes ++ currentLotSizeUSD L st.remainingSizeUSD :: rest) := by
  have hiff : insufficientBalance (env.balance (st.currentLot + 1))
        (currentLotSizeUSD L st.remainingSizeUSD) = true ↔
      ∃ spotFree futuresFree, env.balance (st.currentLot + 1) = .ok spotFree futuresFree ∧
        (spotFree.getD 0 < currentLotSizeUSD L st.remainingSizeUSD / 2 ∨
          futuresFree.getD 0 < currentLotSizeUSD L st.remainingSizeUSD / 2) := by
    cases hbal : env.balance (st.currentLot + 1) with
    | failed => simp [insufficientBalance]
    | ok s f =>
      simp only [insufficientBalance, decide_eq_true_eq, BalanceRead.ok.injEq]
      constructor
      · intro h; exact ⟨s, f, ⟨rfl, rfl⟩, h⟩
      · rintro ⟨_, _, ⟨rfl, rfl⟩, h⟩; exact h
  have hproceeds : insufficientBalance (env.balance (st.currentLot + 1))
        (currentLotSizeUSD L st.remainingSizeUSD) = false →
      ∃ rest, (openLoop env L (fuel + 1) st).state.lotSizes
        = st.lotSizes ++ currentLotSizeUSD L st.remainingSizeUSD :: rest :=
    openLoop_lot_proceeds env L fuel st hrem h5
  refine ⟨?_, ?_, ?_⟩
  · rw [← hiff]
    constructor
    · intro hrun
      by_contra hb
      obtain ⟨rest, hrest⟩ := hproceeds (by simpa using hb)
      rw [hrun] at hrest
      have hlen := congrArg List.length hrest
      simp at hlen
    · intro hb
      rw [openLoop, if_pos hrem]
      simp only [h5, if_false, hb, if_true]
  · intro hno
    apply hproceeds
    rw [← hiff] at hno
    simpa using hno
  · intro hfail
    apply hproceeds
    rw [hfail]
    rfl

/-- Witness of C13: a lot of 100 USD with 1000 USDT free on spot and 40 on futures:
40 is below the 50 required per side, the loop stops without a call of
`executeLot`. -/
theorem open_balance_stop_witness :
    openLoop lowFuturesBalanceEnv 100 1 (OpenState.initial 100)
      = ⟨{ OpenState.initial 100 with currentLot := 1 }, .completed⟩ :=
  (open_balance_stop lowFuturesBalanceEnv 100 0 (OpenState.initial 100) (by decide!)
    (by decide!)).1.mpr ⟨some 1000, some 40, rfl, Or.inr (by decide!)⟩

/-! ### The retry policy -/

/-- Failed attempts before attempt `k ≤ maxRetries` are each followed by a wait of
`retryDelayMs * j` and the next attempt. -/
theorem retryLoop_skip {ε α : Type} (d : ℚ) (reads : Nat → Except ε α) (n k : Nat)
    (hk : k ≤ n) :
    ∀ (m left a : Nat) (w : List ℚ), a + m = k →
      (∀ j, a ≤ j → j < k → ∃ e, reads j = .error e) →
      retryLoop d reads n (left + m) a w
        = retryLoop d reads n left k (w ++ (List.range' a m).map (fun j => d * (j : ℚ))) := by
  intro m
  induction m with
  | zero =>
    intro left a w ha _
    have : a = k := by omega
    subst this
    simp
  | succ m ih =>
    intro left a w ha hfail
    obtain ⟨e, he⟩ := hfail a le_rfl (by omega)
    have hlt : a < n := by omega
    have hstep : retryLoop d reads n (left + (m + 1)) a w
        = retryLoop d reads n (left + m) (a + 1) (w ++ [d * (a : ℚ)]) := by
      rw [show left + (m + 1) = (left + m) + 1 from rfl, retryLoop, he]
      simp only [hlt, if_true]
    rw [hstep, ih left (a + 1) (w ++ [d * (a : ℚ)]) (by omega)
      (fun j hj hjk => hfail j (by omega) hjk)]
    simp [List.range'_succ]

/-- C14. Retry policy: for an attempt cap `n ≥ 1`, (1) when attempt `k ≤ n` is the
first to succeed, `getPositionsWithRetry` returns its result after exactly `k`
attempts, having waited `retryDelayMs * j` after each failed attempt `j < k`; (2)
when the first `n` attempts all fail, it makes exactly `n` attempts, has waited
`retryDelayMs * j` after each attempt `j < n` and nothing after the last, and throws
the error of attempt `n`. -/
theorem getPositionsWithRetry_policy {ε α : Type} (retryDelayMs : ℚ)
    (reads : Nat → Except ε α) (n : Nat) (hn : 1 ≤ n) :
    (∀ k v, 1 ≤ k → k ≤ n → reads k = .ok v →
      (∀ j, 1 ≤ j → j < k → ∃ e, reads j = .error e) →
      (ClosePositionStrategy.getPositionsWithRetry retryDelayMs reads n).attempts = k ∧
      (ClosePositionStrategy.getPositionsWithRetry retryDelayMs reads n).waits
        = linearWaits retryDelayMs k ∧
      (ClosePositionStrategy.getPositionsWithRetry retryDelayMs reads n).result
        = some (.ok v)) ∧
    (∀ e, reads n = .error e → (∀ j, 1 ≤ j → j < n → ∃ e', reads j = .error e') →
      (ClosePositionStrategy.getPositionsWithRetry retryDelayMs reads n).attempts = n ∧
      (ClosePositionStrategy.getPositionsWithRetry retryDelayMs reads n).waits
        = linearWaits retryDelayMs n ∧
      (ClosePositionStrategy.getPositionsWithRetry retryDelayMs reads n).result
        = some (.error e)) := by
  constructor
  · intro k v hk1 hkn hok hfail
    have hrun : ClosePositionStrategy.getPositionsWithRetry retryDelayMs reads n
        = ⟨k, linearWaits retryDelayMs k, some (.ok v)⟩ := by
      unfold ClosePositionStrategy.getPositionsWithRetry
      have h1 : n = (n - k + 1) + (k - 1) := by omega
      have h2 := retryLoop_skip retryDelayMs reads n k hkn (k - 1) (n - k + 1) 1 [] (by omega)
        hfail
      rw [← h1] at h2
      rw [h2, retryLoop, hok]
      simp [linearWaits]
    rw [hrun]
    exact ⟨rfl, rfl, rfl⟩
  · intro e herr hfail
    have hrun : ClosePositionStrategy.getPositionsWithRetry retryDelayMs reads n
        = ⟨n, linearWaits retryDelayMs n, some (.error e)⟩ := by
      unfold ClosePositionStrategy.getPositionsWithRetry
      have h1 : n = (0 + 1) + (n - 1) := by omega
      have h2 := retryLoop_skip retryDelayMs reads n n le_rfl (n - 1) (0 + 1) 1 []
        (by omega) hfail
      rw [← h1] at h2
      rw [h2, retryLoop, herr]
      simp [linearWaits]
    rw [hrun]
    exact ⟨rfl, rfl, rfl⟩

/-- Witness of C14: two rejected reads, then a successful one, with a delay of 5000 ms
and a cap of 10 attempts: three attempts, waits of 5000 and 10000 ms. -/
theorem getPositionsWithRetry_policy_witness :
    (ClosePositionStrategy.getPositionsWithRetry 5000 thirdTimeReads 10).attempts = 3 ∧
    (ClosePositionStrategy.getPositionsWithRetry 5000 thirdTimeReads 10).waits
      = linearWaits 5000 3 ∧
    linearWaits 5000 3 = [5000, 10000] ∧
    (ClosePositionStrategy.getPositionsWithRetry 5000 thirdTimeReads 10).result
      = some (.ok (some (-10), some 10)) := by
  have h := (getPositionsWithRetry_policy 5000 thirdTimeReads 10 (by decide)).1 3
    (some (-10), some 10) (by decide) (by decide) rfl (by
      intro j h1 h2
      interval_cases j
      · exact ⟨_, rfl⟩
      · exact ⟨_, rfl⟩)
  exact ⟨h.1, h.2.1, by decide!, h.2.2⟩

/-! ### The position quantity heuristic -/

theorem positionQuantity_eq_spec (a p n : ℚ) (hp : 0 < p) :
    FuturesAPI.positionQuantity a p n = FuturesAPI.positionMagnitudeSpec a p n := by
  unfold FuturesAPI.positionQuantity FuturesAPI.positionMagnitudeSpec
  rw [abs_div, abs_div, abs_of_pos hp, mul_comm |a| 10]

theorem positionMagnitudeSpec_nonneg (a p n : ℚ) (hp : 0 < p) :
    0 ≤ FuturesAPI.positionMagnitudeSpec a p n := by
  unfold FuturesAPI.positionMagnitudeSpec
  split_ifs
  · exact div_nonneg (abs_nonneg n) hp.le
  · exact div_nonneg (abs_nonneg a) hp.le
  · exact abs_nonneg a

/-- C15. Quantity disambiguation: for the position entry `getPosition` selects, with
raw amount `a`, mark price `p > 0` and notional `n` (0 when the field is absent),
the returned `positionAmt` has the magnitude given by the three-rule heuristic
(`|n| / p` if `n ≠ 0` and `|n| ≠ |a|`; otherwise `|a| / p` if `|a * p| > 10 * |a|`;
otherwise `|a|`), negated when `a` is negative and not otherwise. -/
theorem getPosition_quantity (data : List RawPosition) (symbol : String)
    (position : RawPosition) (hfound : FuturesAPI.findPosition data symbol = some position)
    (hp : 0 < position.markPrice) :
    ∃ result, FuturesAPI.getPosition data symbol = some result ∧
      |result.positionAmt| = FuturesAPI.positionMagnitudeSpec position.positionAmt
        position.markPrice (position.notional.getD 0) ∧
      (position.positionAmt < 0 → result.positionAmt
        = -FuturesAPI.positionMagnitudeSpec position.positionAmt position.markPrice
            (position.notional.getD 0)) ∧
      (0 ≤ position.positionAmt → result.positionAmt
        = FuturesAPI.positionMagnitudeSpec position.positionAmt position.markPrice
            (position.notional.getD 0)) ∧
      (result.positionAmt < 0 → position.positionAmt < 0) := by
  have hne : data.length > 0 := by
    cases data with
    | nil => simp [FuturesAPI.findPosition] at hfound
    | cons x xs => simp
  have hq := positionQuantity_eq_spec position.positionAmt position.markPrice
    (position.notional.getD 0) hp
  have hnn := positionMagnitudeSpec_nonneg position.positionAmt position.markPrice
    (position.notional.getD 0) hp
  refine ⟨_, by unfold FuturesAPI.getPosition; rw [if_pos hne, hfound], ?_, ?_, ?_, ?_⟩
  · simp only [hq]
    split_ifs
    · rw [abs_neg, abs_of_nonneg hnn]
    · rw [abs_of_nonneg hnn]
  · intro hneg
    simp only [hq, hneg, if_true]
  · intro hpos
    simp only [hq, not_lt.mpr hpos, if_false]
  · intro hres
    simp only [hq] at hres
    by_contra hc
    rw [if_neg hc] at hres
    exact absurd hres (not_lt.mpr hnn)

/-- Witness of C15: a short of half a unit at mark price 100 reported with notional
-50: the notional differs in magnitude from the raw amount, the quantity is
`50 / 100`, returned negative. -/
theorem getPosition_quantity_witness :
    (∃ result, FuturesAPI.getPosition samplePositionRisk "BTCUSDT" = some result ∧
      result.positionAmt = -FuturesAPI.positionMagnitudeSpec (-1 / 2) 100 (-50)) ∧
    FuturesAPI.getPosition samplePositionRisk "BTCUSDT"
      = some { symbol := "BTCUSDT", positionAmt := -1 / 2, entryPrice := 98,
               markPrice := 100, unRealizedProfit := -1 } ∧
    FuturesAPI.positionMagnitudeSpec (-1 / 2) 100 (-50) = 1 / 2 := by
  obtain ⟨result, hres, -, hneg, -, -⟩ := getPosition_quantity samplePositionRisk "BTCUSDT"
    { symbol := "BTCUSDT", positionAmt := -1 / 2, entryPrice := 98, markPrice := 100,
      notional := some (-50), unRealizedProfit := -1 } (by decide!) (by decide!)
  exact ⟨⟨result, hres, hneg (by decide!)⟩, by decide!, by decide!⟩

/-! ### The base asset -/

/-- C16, evaluation at the failing input. The symbol `BUSDUSDT` is the base `BUSD`
followed by the quote `USDT`; the first replacement leaves `BUSD` and the second one
removes it, so the derived base asset is the empty string. The symbols `BTCUSDT` and
`ETHBUSD` give `BTC` and `ETH`. -/
theorem baseAsset_busd_pair :
    "BUSDUSDT" = "BUSD" ++ "USDT" ∧
    baseAsset "BUSDUSDT" = "" ∧
    baseAsset "BUSDUSDT" ≠ "BUSD" ∧
    baseAsset "BTCUSDT" = "BTC" ∧
    baseAsset "ETHBUSD" = "ETH" :=
  ⟨by decide, by decide, by decide, by decide, by decide⟩

/-! ### The suggested lot percentage -/

/-- C17, evaluation at the failing input. Close 50 % in lots of 20 % of 1 unit on each
leg at price 15 (15 USD on each leg): the first lot is worth 3 USD, the run fails
suggesting 67 %, while 34 % is the smallest integer percentage whose first lot is
worth at least 5 USD on both legs, and a run with 34 % does execute its first lot. -/
theorem suggested_lot_percent_not_minimal :
    closeArgsValid 50 20 = true ∧
    ClosePositionStrategy.execute smallEnv 50 20
      = ⟨{ CloseState.initial with currentLot := 1 }, .failed (.lotSizeTooSmall (some 67))⟩ ∧
    min (ClosePositionStrategy.futuresQtyOf (some (-1)) * 15)
      (ClosePositionStrategy.spotQtyOf (some 1) * 15) = 15 ∧
    (∀ s : ℤ, 5 ≤ (15 : ℚ) * s / 100 ↔ 34 ≤ s) ∧
    (ClosePositionStrategy.execute smallEnv 50 34).state.actions.head?
      = some (.executeLot 1 (34 / 100) (34 / 100)) := by
  refine ⟨by decide!, by decide!, by decide!, ?_, by decide!⟩
  intro s
  constructor
  · intro h
    have h1 : (500 : ℚ) ≤ 15 * s := by linarith
    have h2 : (500 : ℤ) ≤ 15 * s := by exact_mod_cast h1
    omega
  · intro h
    have h1 : (34 : ℚ) ≤ s := by exact_mod_cast h
    linarith

/-- C19, evaluation at the failing input. The same run, close 50 % in lots of 20 % of
15 USD on each leg, fails suggesting 67 %, and `close <symbol> 50 67` does not pass
the close-mode validation, while a lot percentage of 34 would. With a leg worth
nothing (no futures position, 1 USD of spot) the suggestion is not a finite
number. -/
theorem suggested_command_rejected :
    closeArgsValid 50 20 = true ∧
    (ClosePositionStrategy.execute smallEnv 50 20).status
      = .failed (.lotSizeTooSmall (some 67)) ∧
    closeArgsValid 50 67 = false ∧
    closeArgsValid 50 34 = true ∧
    (ClosePositionStrategy.execute spotDustEnv 100 20).status
      = .failed (.lotSizeTooSmall none) :=
  ⟨by decide!, by decide!, by decide!, by decide!, by decide!⟩

open ClosePositionStrategy in
/-- C20. The decaying lot fraction is well defined: for validated close arguments
(`0 < Lp ≤ P ≤ 100`) and every lot number `k` with `1 ≤ k ≤ ceil(P / Lp)`, the
denominator `100 - (k - 1) * Lp` is strictly positive, and `lotPercentOfRemaining`
is a genuine quotient and is positive. -/
theorem lotPercentOfRemaining_well_defined (P Lp : ℚ) (k : Nat)
    (hvalid : closeArgsValid P Lp = true) (hk1 : 1 ≤ k) (hk : (k : ℤ) ≤ totalLots P Lp) :
    0 < 100 - ((k : ℚ) - 1) * Lp ∧
    0 < lotPercentOfRemaining Lp k ∧
    lotPercentOfRemaining Lp k * (100 - ((k : ℚ) - 1) * Lp) = Lp := by
  obtain ⟨hP, hP100, hLp, hLpP⟩ := (closeArgsValid_iff P Lp).mp hvalid
  have hlt : ((k - 1 : ℕ) : ℚ) * Lp < P :=
    close_lot_lt_totalLots P Lp hLp (k - 1) (by omega)
  have hcast : ((k - 1 : ℕ) : ℚ) = (k : ℚ) - 1 := by
    rw [Nat.cast_sub hk1]; simp
  rw [hcast] at hlt
  have hd : 0 < 100 - ((k : ℚ) - 1) * Lp := by linarith
  refine ⟨hd, ?_, ?_⟩
  · exact div_pos hLp hd
  · unfold lotPercentOfRemaining
    exact div_mul_cancel₀ Lp hd.ne'

open ClosePositionStrategy in
/-- Witness of C20: closing 100 % in lots of 20 %, the fifth and last lot has the
denominator `100 - 4 * 20 = 20`. -/
theorem lotPercentOfRemaining_well_defined_witness :
    (0 : ℚ) < 100 - (((5 : ℕ) : ℚ) - 1) * 20 ∧
    0 < lotPercentOfRemaining 20 5 ∧
    lotPercentOfRemaining 20 5 * (100 - (((5 : ℕ) : ℚ) - 1) * 20) = 20 :=
  lotPercentOfRemaining_well_defined 100 20 5 (by decide!) (by decide) (by decide!)

/-! ### The order result -/

/-- C18, counterexample. An order answer without `executedQty` (status `NEW`,
`origQty` "2"): no status poll is made, and both clients return `executedQty = 2`,
the requested quantity. -/
theorem placeMarketOrder_counterexample :
    unreportedFill.executedQty = .absent ∧
    finalOrderData unreportedFill zeroFill = unreportedFill ∧
    (FuturesAPI.placeMarketOrder unreportedFill zeroFill).executedQty = some 2 ∧
    (SpotAPI.placeMarketOrder unreportedFill zeroFill).executedQty = some 2 ∧
    (FuturesAPI.placeMarketOrder unreportedFill zeroFill).executedQty ≠ some 0 :=
  ⟨rfl, by decide!, by decide!, by decide!, by decide!⟩

/-- C18, amended. For the final order data (after the single status poll): when
`executedQty` is a non-empty string that reads as zero, both clients return
`executedQty = 0`; when `executedQty` is absent or an empty string, both clients
return `origQty` as `executedQty` if `origQty` is truthy, and 0 otherwise. -/
theorem placeMarketOrder_executedQty (response checkResponse : RawOrder) :
    ((finalOrderData response checkResponse).executedQty = .text (some 0) →
      (FuturesAPI.placeMarketOrder response checkResponse).executedQty = some 0 ∧
      (SpotAPI.placeMarketOrder response checkResponse).executedQty = some 0) ∧
    (((finalOrderData response checkResponse).executedQty = .absent ∨
        (finalOrderData response checkResponse).executedQty = .emptyText) →
      (FuturesAPI.placeMarketOrder response checkResponse).executedQty
        = (if (finalOrderData response checkResponse).origQty.truthy then
            (finalOrderData response checkResponse).origQty.parseFloat else some 0) ∧
      (SpotAPI.placeMarketOrder response checkResponse).executedQty
        = (if (finalOrderData response checkResponse).origQty.truthy then
            (finalOrderData response checkResponse).origQty.parseFloat else some 0)) := by
  constructor
  · intro h
    simp [FuturesAPI.placeMarketOrder, SpotAPI.placeMarketOrder, parseFirstTruthy, h,
      JsField.truthy, JsField.parseFloat]
  · rintro (h | h) <;>
      simp [FuturesAPI.placeMarketOrder, SpotAPI.placeMarketOrder, parseFirstTruthy, h,
        JsField.truthy]

/-- Witness of C18 amended: an order that still reports `executedQty` "0" after the
status poll is returned with `executedQty = 0` by both clients. -/
theorem placeMarketOrder_executedQty_witness :
    (FuturesAPI.placeMarketOrder zeroFill zeroFill).executedQty = some 0 ∧
    (SpotAPI.placeMarketOrder zeroFill zeroFill).executedQty = some 0 :=
  (placeMarketOrder_executedQty zeroFill zeroFill).1 (by decide!)

/-! ### The hedge mismatch of an open lot -/

/-- What a successful `checkSpread` says about the sample it returns. -/
theorem checkSpread_ok_fields (m : ℚ) (futures spot : PriceFetch) (info : SpreadInfo)
    (h : checkSpread m futures spot = .ok info) :
    0 < info.futuresPrice ∧ 0 < info.spotPrice ∧
    info.diffPercent
      = |(info.futuresPrice - info.spotPrice) / info.spotPrice * 100| ∧
    (info.isWithinThreshold = true ↔ info.diffPercent ≤ m) := by
  unfold checkSpread at h
  cases hg : getPrices futures spot with
  | error e => rw [hg] at h; simp at h
  | ok fs =>
    obtain ⟨f, s⟩ := fs
    obtain ⟨-, -, hf, hs⟩ := (getPrices_ok_iff futures spot f s).mp hg
    rw [hg] at h
    have hs' : ¬ (s = 0 ∨ s ≤ 0) := by
      simp only [not_or, not_le]
      exact ⟨hs.ne', hs⟩
    simp only [calculateDiffPercent, hs', if_false, Except.ok.injEq] at h
    subst h
    exact ⟨hf, hs, rfl, by simp⟩

/-- The arithmetic of the two quantities of an open lot. -/
theorem hedge_mismatch_arith (L f s : ℚ) (hL : 0 < L) (hf : 0 < f) (hs : 0 < s) :
    L / f * f = L ∧ L / s * s = L ∧
    |L / s - L / f| = L / f * |(f - s) / s * 100| / 100 := by
  refine ⟨div_mul_cancel₀ L hf.ne', div_mul_cancel₀ L hs.ne', ?_⟩
  have h1 : L / s - L / f = L / f * ((f - s) / s) := by
    field_simp
    ring
  have h2 : 0 < L / f := div_pos hL hf
  rw [h1, abs_mul, abs_of_pos h2, abs_mul, abs_of_pos (by norm_num : (0 : ℚ) < 100)]
  ring

theorem pollEvents_not_order (m : ℚ) (polls : Nat → PriceFetch × PriceFetch) (n : Nat) :
    ∀ e ∈ pollEvents m polls n, e.isOrder = false := by
  intro e he
  unfold pollEvents at he
  obtain ⟨i, -, rfl⟩ := List.mem_map.mp he
  unfold pollEvent
  cases checkSpread m (polls i).1 (polls i).2 <;> rfl

/-- C21. Hedge mismatch bound, open: whenever `executeLot` submits orders for a lot of
`lotSizeUSD`, it has polled up to a sample within the threshold, the orders are a
futures sell of `lotSizeUSD / futuresPrice` and a spot buy of `lotSizeUSD /
spotPrice` at the sampled prices, the two quantities have the same USD notional at
those prices, and their difference in base asset is `futuresQty * diffPercent / 100`,
which is at most `futuresQty * maxDiffPercent / 100`. -/
theorem open_hedge_mismatch (maxDiffPercent : ℚ) (polls : Nat → PriceFetch × PriceFetch)
    (futuresOrder spotOrder : ℚ → Except ExecError OrderResult) (lotSizeUSD : ℚ)
    (fuel : Nat) (run : LotRun)
    (hrun : OpenPositionStrategy.executeLot maxDiffPercent polls futuresOrder spotOrder
      lotSizeUSD fuel = some run)
    (hord : ∃ e ∈ run.trace, e.isOrder = true) :
    ∃ k info, GoodAt maxDiffPercent polls k info ∧
      run.trace = pollEvents maxDiffPercent polls (k + 1) ++
        [.order .futures .sell (lotSizeUSD / info.futuresPrice) false,
         .order .spot .buy (lotSizeUSD / info.spotPrice) false] ∧
      lotSizeUSD / info.futuresPrice * info.futuresPrice
        = lotSizeUSD / info.spotPrice * info.spotPrice ∧
      |lotSizeUSD / info.spotPrice - lotSizeUSD / info.futuresPrice|
        = lotSizeUSD / info.futuresPrice * info.diffPercent / 100 ∧
      lotSizeUSD / info.futuresPrice * info.diffPercent / 100
        ≤ lotSizeUSD / info.futuresPrice * maxDiffPercent / 100 := by
  unfold OpenPositionStrategy.executeLot at hrun
  cases hw : waitForGoodSpread maxDiffPercent polls fuel 0 with
  | none => rw [hw] at hrun; simp at hrun
  | some r =>
    obtain ⟨info, n⟩ := r
    rw [hw] at hrun
    obtain ⟨k, rfl, -, hgood, -⟩ := waitForGoodSpread_sound maxDiffPercent polls fuel 0 info _ hw
    obtain ⟨hf, hs, hdiff, hwithin⟩ := checkSpread_ok_fields maxDiffPercent _ _ info hgood.1
    have hle : info.diffPercent ≤ maxDiffPercent := hwithin.mp hgood.2
    obtain ⟨e, he, heo⟩ := hord
    simp only at hrun
    split_ifs at hrun with h1 h2
    · simp only [Option.some.injEq] at hrun
      subst hrun
      rw [pollEvents_not_order _ _ _ e he] at heo
      exact absurd heo (by simp)
    · simp only [Option.some.injEq] at hrun
      subst hrun
      rw [pollEvents_not_order _ _ _ e he] at heo
      exact absurd heo (by simp)
    · simp only [not_or, not_le] at h2
      have hL : 0 < lotSizeUSD := by
        have := h2.1
        rw [div_pos_iff] at this
        rcases this with ⟨hl, -⟩ | ⟨-, hneg⟩
        · exact hl
        · exact absurd hf (not_lt.mpr hneg.le)
      obtain ⟨a1, a2, a3⟩ := hedge_mismatch_arith lotSizeUSD info.futuresPrice info.spotPrice
        hL hf hs
      have htrace : run.trace = pollEvents maxDiffPercent polls (k + 1) ++
          [.order .futures .sell (lotSizeUSD / info.futuresPrice) false,
           .order .spot .buy (lotSizeUSD / info.spotPrice) false] := by
        cases hfo : futuresOrder (lotSizeUSD / info.futuresPrice) <;>
          cases hso : spotOrder (lotSizeUSD / info.spotPrice) <;>
          (rw [hfo, hso] at hrun
           simp only [Option.some.injEq] at hrun
           subst hrun
           rfl)
      refine ⟨k, info, hgood, htrace, by rw [a1, a2], by rw [a3, hdiff], ?_⟩
      have hq : 0 ≤ lotSizeUSD / info.futuresPrice := (div_pos hL hf).le
      have := mul_le_mul_of_nonneg_left hle hq
      linarith

/-- Witness of C21: a lot of 100 USD with the third poll at 100.05 and 100 within a
threshold of 0.1: the orders are a futures sell of `100 / 100.05` and a spot buy of
1, both worth 100 USD, differing by 0.05 % of the futures quantity. -/
theorem open_hedge_mismatch_witness :
    ∃ k info, GoodAt (1 / 10) samplePolls k info ∧
      (⟨pollEvents (1 / 10) samplePolls 3 ++
          [.order .futures .sell (100 / (10005 / 100)) false, .order .spot .buy 1 false],
        .ok ⟨⟨100, 100 / (10005 / 100)⟩, ⟨100, 1⟩, ⟨10005 / 100, 100, 1 / 20, true⟩⟩⟩
          : LotRun).trace
        = pollEvents (1 / 10) samplePolls (k + 1) ++
          [.order .futures .sell (100 / info.futuresPrice) false,
           .order .spot .buy (100 / info.spotPrice) false] ∧
      100 / info.futuresPrice * info.futuresPrice = 100 / info.spotPrice * info.spotPrice ∧
      |100 / info.spotPrice - 100 / info.futuresPrice|
        = 100 / info.futuresPrice * info.diffPercent / 100 ∧
      100 / info.futuresPrice * info.diffPercent / 100
        ≤ 100 / info.futuresPrice * (1 / 10) / 100 :=
  open_hedge_mismatch (1 / 10) samplePolls fillAt100 fillAt100 100 3 _ (by decide!)
    ⟨.order .spot .buy 1 false, by decide!, rfl⟩

/-! ### The heuristic without a distinct notional -/

/-- Without a distinct notional the quantity depends on the mark price alone. -/
theorem positionQuantity_mark_price (a p n : ℚ) (ha : a ≠ 0) (hp : 0 < p)
    (hn : n = 0 ∨ |n| = |a|) :
    FuturesAPI.positionQuantity a p n = if 10 < p then |a| / p else |a| := by
  have hfirst : ¬ (n ≠ 0 ∧ |n| ≠ |a|) := by
    rintro ⟨h1, h2⟩
    rcases hn with h | h
    · exact h1 h
    · exact h2 h
  have hapos : 0 < |a| := abs_pos.mpr ha
  unfold FuturesAPI.positionQuantity
  rw [if_neg hfirst, abs_mul, abs_of_pos hp, abs_div, abs_of_pos hp]
  by_cases h10 : 10 < p
  · rw [if_pos h10, if_pos (by nlinarith)]
  · rw [if_neg h10, if_neg (by nlinarith)]

/-- C22. The heuristic depends on the mark price alone when no distinct notional is
given: for the position entry `getPosition` selects, with non-zero raw amount `a`,
mark price `p > 0` and a notional that is absent, zero or equal in magnitude to `a`,
the returned magnitude is `|a| / p` when `p > 10` and `|a|` when `p ≤ 10`, whatever
the size of `a`. -/
theorem getPosition_mark_price_alone (data : List RawPosition) (symbol : String)
    (position : RawPosition) (hfound : FuturesAPI.findPosition data symbol = some position)
    (ha : position.positionAmt ≠ 0) (hp : 0 < position.markPrice)
    (hn : position.notional = none ∨ position.notional = some 0 ∨
      ∃ n, position.notional = some n ∧ |n| = |position.positionAmt|) :
    ∃ result, FuturesAPI.getPosition data symbol = some result ∧
      (10 < position.markPrice →
        |result.positionAmt| = |position.positionAmt| / position.markPrice) ∧
      (position.markPrice ≤ 10 → |result.positionAmt| = |position.positionAmt|) := by
  have hne : data.length > 0 := by
    cases data with
    | nil => simp [FuturesAPI.findPosition] at hfound
    | cons x xs => simp
  have hn' : position.notional.getD 0 = 0 ∨
      |position.notional.getD 0| = |position.positionAmt| := by
    rcases hn with h | h | ⟨n, h, hmag⟩
    · left; rw [h]; rfl
    · left; rw [h]; rfl
    · right; rw [h]; exact hmag
  have hq := positionQuantity_mark_price position.positionAmt position.markPrice
    (position.notional.getD 0) ha hp hn'
  have habs : ∀ q : ℚ, 0 ≤ q →
      |if position.positionAmt < 0 then -q else q| = q := by
    intro q hq0
    split_ifs
    · rw [abs_neg, abs_of_nonneg hq0]
    · exact abs_of_nonneg hq0
  refine ⟨_, by unfold FuturesAPI.getPosition; rw [if_pos hne, hfound], ?_, ?_⟩
  · intro h10
    simp only [hq, if_pos h10]
    exact habs _ (div_nonneg (abs_nonneg _) hp.le)
  · intro h10
    simp only [hq, if_neg (not_lt.mpr h10)]
    exact habs _ (abs_nonneg _)

/-- Witness of C22: a raw amount of -1000 at mark price 50000 without a notional:
the mark price is above 10, the quantity is `1000 / 50000`, returned negative. -/
theorem getPosition_mark_price_alone_witness :
    (∃ result, FuturesAPI.getPosition unlabelledPositionRisk "BTCUSDT" = some result ∧
      |result.positionAmt| = |(-1000 : ℚ)| / 50000) ∧
    FuturesAPI.getPosition unlabelledPositionRisk "BTCUSDT"
      = some { symbol := "BTCUSDT", positionAmt := -1 / 50, entryPrice := 49000,
               markPrice := 50000, unRealizedProfit := 0 } := by
  obtain ⟨result, hres, hbig, -⟩ := getPosition_mark_price_alone unlabelledPositionRisk
    "BTCUSDT"
    { symbol := "BTCUSDT", positionAmt := -1000, entryPrice := 49000, markPrice := 50000,
      notional := none, unRealizedProfit := 0 } (by decide!) (by decide!) (by decide!)
    (Or.inl rfl)
  exact ⟨⟨result, hres, hbig (by decide!)⟩, by decide!⟩

/-! ### Termination of the open loop -/

theorem min_le_currentLotSizeUSD (L rem : ℚ) : min L rem ≤ currentLotSizeUSD L rem := by
  unfold currentLotSizeUSD
  split_ifs with h
  · linarith [h.1]
  · exact le_refl _

/-- From a remaining size of at most `n` lot caps the open loop ends within `n + 1`
tests of its condition and passes at most `n` further lots to `executeLot`. -/
theorem openLoop_bounded (env : OpenEnv) (L : ℚ) (hL : 0 < L)
    (hred : ReducesByRequested env) :
    ∀ (n fuel : Nat) (st : OpenState), st.remainingSizeUSD ≤ (n : ℚ) * L → n + 1 ≤ fuel →
      (openLoop env L fuel st).status ≠ .running ∧
      (openLoop env L fuel st).state.lotSizes.length ≤ st.lotSizes.length + n ∧
      (openLoop env L fuel st).state.results.length ≤ st.results.length + n := by
  intro n
  induction n with
  | zero =>
    intro fuel st hrem hfuel
    obtain ⟨f, rfl⟩ : ∃ f, fuel = f + 1 := ⟨fuel - 1, by omega⟩
    rw [openLoop_done env L f st (by simp at hrem; linarith)]
    exact ⟨by simp, le_refl _, le_refl _⟩
  | succ n ih =>
    intro fuel st hrem hfuel
    obtain ⟨f, rfl⟩ : ∃ f, fuel = f + 1 := ⟨fuel - 1, by omega⟩
    by_cases hgt : st.remainingSizeUSD > 1 / 100
    · rw [openLoop, if_pos hgt]
      by_cases h5 : currentLotSizeUSD L st.remainingSizeUSD < 5
      · simp only [h5, if_true]
        exact ⟨by simp, by omega, by omega⟩
      · simp only [h5, if_false]
        by_cases hb : insufficientBalance (env.balance (st.currentLot + 1))
            (currentLotSizeUSD L st.remainingSizeUSD) = true
        · simp only [hb, if_true]
          exact ⟨by simp, by omega, by omega⟩
        · have hb' : insufficientBalance (env.balance (st.currentLot + 1))
              (currentLotSizeUSD L st.remainingSizeUSD) = false := by simpa using hb
          simp only [hb', Bool.false_eq_true, if_false]
          cases hl : env.lot (st.currentLot + 1) (currentLotSizeUSD L st.remainingSizeUSD) with
          | error e =>
            refine ⟨by simp, ?_, ?_⟩
            · simp only [List.length_append, List.length_singleton]; omega
            · simp only; omega
          | ok r =>
            by_cases hz : r.futures.executedQty = 0 ∨ r.spot.executedQty = 0
            · simp only [hz, if_true]
              refine ⟨by simp, ?_, ?_⟩
              · simp only [List.length_append, List.length_singleton]; omega
              · omega
            · simp only [hz, if_false]
              have havg := hred _ _ r hl
              have hmin := min_le_currentLotSizeUSD L st.remainingSizeUSD
              have hrem' : (st.accumulate (currentLotSizeUSD L st.remainingSizeUSD)
                  r).remainingSizeUSD ≤ (n : ℚ) * L := by
                simp only [OpenState.accumulate, havg]
                push_cast at hrem
                have hn : (0 : ℚ) ≤ (n : ℚ) * L :=
                  mul_nonneg (Nat.cast_nonneg n) hL.le
                rcases le_total L st.remainingSizeUSD with hle | hle
                · rw [min_eq_left hle] at hmin
                  linarith
                · rw [min_eq_right hle] at hmin
                  linarith
              obtain ⟨h1, h2, h3⟩ := ih f
                (st.accumulate (currentLotSizeUSD L st.remainingSizeUSD) r) hrem' (by omega)
              have hlen2 : (st.accumulate (currentLotSizeUSD L st.remainingSizeUSD)
                  r).lotSizes.length = st.lotSizes.length + 1 := by
                simp [OpenState.accumulate]
              have hlen3 : (st.accumulate (currentLotSizeUSD L st.remainingSizeUSD)
                  r).results.length = st.results.length + 1 := by
                simp [OpenState.accumulate]
              rw [hlen2] at h2
              rw [hlen3] at h3
              exact ⟨h1, by omega, by omega⟩
    · rw [openLoop_done env L f st (not_lt.mp hgt)]
      exact ⟨by simp, Nat.le_add_right _ _, Nat.le_add_right _ _⟩

theorem unitFillEnv_reduces : ReducesByRequested unitFillEnv := by
  intro n size r h
  simp only [unitFillEnv, Except.ok.injEq] at h
  subst h
  simp

/-- The open loop over answers of `executeLot` that are all given: for `T > 0` and
`L > 0`, when every lot that `executeLot` returns reduces the remaining size by
exactly its requested USD notional, the loop ends (completed or failed) within
`ceil(T / L) + 1` tests of its condition, having passed at most `ceil(T / L)` lots
to `executeLot` and recorded at most as many. -/
theorem open_terminates_within_totalLots (env : OpenEnv) (T L : ℚ) (hT : 0 < T) (hL : 0 < L)
    (hred : ReducesByRequested env) (fuel : Nat)
    (hfuel : (OpenPositionStrategy.totalLots T L).toNat + 1 ≤ fuel) :
    (OpenPositionStrategy.execute env T L fuel).status ≠ .running ∧
    ((OpenPositionStrategy.execute env T L fuel).state.lotSizes.length : ℤ)
      ≤ OpenPositionStrategy.totalLots T L ∧
    ((OpenPositionStrategy.execute env T L fuel).state.results.length : ℤ)
      ≤ OpenPositionStrategy.totalLots T L := by
  have hpos : 0 < OpenPositionStrategy.totalLots T L := by
    unfold OpenPositionStrategy.totalLots
    rw [Int.ceil_pos]
    exact div_pos hT hL
  have hcast : (((OpenPositionStrategy.totalLots T L).toNat : ℤ))
      = OpenPositionStrategy.totalLots T L := Int.toNat_of_nonneg hpos.le
  have hle : T ≤ ((OpenPositionStrategy.totalLots T L).toNat : ℚ) * L := by
    have h1 : T / L ≤ ((OpenPositionStrategy.totalLots T L : ℤ) : ℚ) := Int.le_ceil (T / L)
    have h2 : (((OpenPositionStrategy.totalLots T L).toNat : ℤ) : ℚ)
        = ((OpenPositionStrategy.totalLots T L : ℤ) : ℚ) := by rw [hcast]
    have h3 : (((OpenPositionStrategy.totalLots T L).toNat : ℕ) : ℚ)
        = ((OpenPositionStrategy.totalLots T L : ℤ) : ℚ) := by
      rw [← h2]; norm_cast
    rw [h3]
    exact (div_le_iff₀ hL).mp h1
  obtain ⟨h1, h2, h3⟩ := openLoop_bounded env L hL hred
    (OpenPositionStrategy.totalLots T L).toNat fuel (OpenState.initial T) hle hfuel
  unfold OpenPositionStrategy.execute
  refine ⟨h1, ?_, ?_⟩
  · have : (openLoop env L fuel (OpenState.initial T)).state.lotSizes.length
        ≤ (OpenPositionStrategy.totalLots T L).toNat := by
      simpa [OpenState.initial] using h2
    omega
  · have : (openLoop env L fuel (OpenState.initial T)).state.results.length
        ≤ (OpenPositionStrategy.totalLots T L).toNat := by
      simpa [OpenState.initial] using h3
    omega

/-- An instance of the bound: target 103 in lots of 100 with exact fills, where
`ceil(103 / 100) = 2`: the loop has ended after three tests of its condition with one
lot. -/
theorem open_terminates_within_totalLots_witness :
    (OpenPositionStrategy.execute unitFillEnv 103 100 3).status ≠ .running ∧
    ((OpenPositionStrategy.execute unitFillEnv 103 100 3).state.lotSizes.length : ℤ)
      ≤ OpenPositionStrategy.totalLots 103 100 ∧
    ((OpenPositionStrategy.execute unitFillEnv 103 100 3).state.results.length : ℤ)
      ≤ OpenPositionStrategy.totalLots 103 100 :=
  open_terminates_within_totalLots unitFillEnv 103 100 (by norm_num) (by norm_num)
    unitFillEnv_reduces 3 (by decide!)

/-! ### Termination of the open loop with its spread gate -/

/-- Polls that never give a sample within the threshold keep `waitForGoodSpread`
polling. -/
theorem waitForGoodSpread_never (m : ℚ) (polls : Nat → PriceFetch × PriceFetch)
    (hnever : ∀ j info, ¬ GoodAt m polls j info) (fuel a : Nat) :
    waitForGoodSpread m polls fuel a = none := by
  cases h : waitForGoodSpread m polls fuel a with
  | none => rfl
  | some r =>
    obtain ⟨info, n⟩ := r
    obtain ⟨k, -, -, hgood, -⟩ := waitForGoodSpread_sound m polls fuel a info n h
    exact absurd hgood (hnever k info)

/-- With every call of `executeLot` returning, the gated loop is the loop over the
answers of `executeLot`. -/
theorem openLoopGated_eq_openLoop (venue : OpenVenue) (m L : ℚ) (waitFuel : Nat)
    (hret : EveryLotReturns venue m waitFuel) :
    ∀ (fuel : Nat) (st : OpenState),
      openLoopGated venue m L waitFuel fuel st
        = openLoop (venue.toEnv m waitFuel) L fuel st := by
  intro fuel
  induction fuel with
  | zero => intro st; rfl
  | succ fuel ih =>
    intro st
    rw [openLoopGated, openLoop]
    by_cases hrem : st.remainingSizeUSD > 1 / 100
    · rw [if_pos hrem, if_pos hrem]
      by_cases h5 : currentLotSizeUSD L st.remainingSizeUSD < 5
      · simp only [h5, if_true]
      · simp only [h5, if_false]
        have hbal : (venue.toEnv m waitFuel).balance = venue.balance := rfl
        rw [hbal]
        by_cases hb : insufficientBalance (venue.balance (st.currentLot + 1))
            (currentLotSizeUSD L st.remainingSizeUSD) = true
        · simp only [hb, if_true]
        · have hb' : insufficientBalance (venue.balance (st.currentLot + 1))
              (currentLotSizeUSD L st.remainingSizeUSD) = false := by simpa using hb
          simp only [hb', Bool.false_eq_true, if_false]
          have hsome := hret (st.currentLot + 1) (currentLotSizeUSD L st.remainingSizeUSD)
          cases hex : venue.executeLot m waitFuel (st.currentLot + 1)
              (currentLotSizeUSD L st.remainingSizeUSD) with
          | none => rw [hex] at hsome; simp at hsome
          | some lotRun =>
            have hlot : (venue.toEnv m waitFuel).lot (st.currentLot + 1)
                (currentLotSizeUSD L st.remainingSizeUSD) = lotRun.result := by
              simp only [OpenVenue.toEnv, hex]
            rw [hlot]
            simp only
            cases hres : lotRun.result with
            | error e => rfl
            | ok r =>
              simp only
              by_cases hz : r.futures.executedQty = 0 ∨ r.spot.executedQty = 0
              · simp only [hz, if_true]
              · simp only [hz, if_false]
                exact ih _
    · rw [if_neg hrem, if_neg hrem]

theorem neverInThresholdVenue_waits (waitFuel lot : Nat) (size : ℚ) :
    neverInThresholdVenue.executeLot (1 / 10) waitFuel lot size = none := by
  have hcheck : checkSpread (1 / 10) (.value 101) (.value 100)
      = .ok ⟨101, 100, 1, false⟩ := by decide!
  have hwait : waitForGoodSpread (1 / 10) (neverInThresholdVenue.polls lot) waitFuel 0
      = none := by
    apply waitForGoodSpread_never
    intro j info hg
    have h1 : checkSpread (1 / 10) (neverInThresholdVenue.polls lot j).1
        (neverInThresholdVenue.polls lot j).2 = .ok ⟨101, 100, 1, false⟩ := hcheck
    rw [GoodAt, h1] at hg
    have h2 : (⟨101, 100, 1, false⟩ : SpreadInfo) = info := by simpa using hg.1
    rw [← h2] at hg
    exact absurd hg.2 (by simp)
  unfold OpenVenue.executeLot OpenPositionStrategy.executeLot
  rw [hwait]

/-- C23, counterexample. Target 100 in lots of 100 on a venue whose two legs stay 1 %
apart, threshold 0.1: no call of `executeLot` ever returns, so no lot is executed and
the hypothesis on executed lots holds, and however long the run and its polls are
followed the loop has not ended: it is still inside the first call of `executeLot`,
with nothing recorded. -/
theorem open_loop_never_ends_counterexample :
    (0 : ℚ) < 100 ∧
    (∀ waitFuel, ReducesWhenExecuted neverInThresholdVenue (1 / 10) waitFuel) ∧
    (∀ waitFuel fuel,
      (OpenPositionStrategy.executeGated neverInThresholdVenue (1 / 10) 100 100 waitFuel
        fuel).status = .running ∧
      (OpenPositionStrategy.executeGated neverInThresholdVenue (1 / 10) 100 100 waitFuel
        fuel).state.results = []) := by
  refine ⟨by norm_num, ?_, ?_⟩
  · intro waitFuel lot size lotRun r h
    rw [neverInThresholdVenue_waits] at h
    cases h
  · intro waitFuel fuel
    cases fuel with
    | zero => exact ⟨rfl, rfl⟩
    | succ fuel =>
      have hrun : OpenPositionStrategy.executeGated neverInThresholdVenue (1 / 10) 100 100
          waitFuel (fuel + 1)
          = ⟨{ OpenState.initial 100 with currentLot := 1, lotSizes := [100] }, .running⟩ := by
        unfold OpenPositionStrategy.executeGated
        rw [openLoopGated]
        have hrem : (OpenState.initial 100).remainingSizeUSD > 1 / 100 := by decide!
        have hsize : currentLotSizeUSD 100 (OpenState.initial 100).remainingSizeUSD = 100 := by
          decide!
        have hb : insufficientBalance
            (neverInThresholdVenue.balance ((OpenState.initial 100).currentLot + 1)) 100
            = false := by decide!
        rw [if_pos hrem]
        simp only [hsize, hb, neverInThresholdVenue_waits, Bool.false_eq_true, if_false]
        rw [if_neg (by norm_num)]
        rfl
      rw [hrun]
      exact ⟨rfl, rfl⟩

/-- C23, amended. Open terminates within the planned lot count when its lots return:
for `T > 0` and `L > 0`, when every call of `executeLot` returns or throws (the
spread gate lets each lot through within `waitFuel` polls) and every lot that
`executeLot` returns reduces the remaining size by exactly its requested USD
notional, the open loop ends (completed or failed) within `ceil(T / L) + 1` tests of
its condition, having passed at most `ceil(T / L)` lots to `executeLot` and recorded
at most as many. -/
theorem open_terminates_when_lots_return (venue : OpenVenue) (maxDiffPercent T L : ℚ)
    (hT : 0 < T) (hL : 0 < L) (waitFuel : Nat)
    (hret : EveryLotReturns venue maxDiffPercent waitFuel)
    (hred : ReducesWhenExecuted venue maxDiffPercent waitFuel)
    (fuel : Nat) (hfuel : (OpenPositionStrategy.totalLots T L).toNat + 1 ≤ fuel) :
    (OpenPositionStrategy.executeGated venue maxDiffPercent T L waitFuel fuel).status
      ≠ .running ∧
    ((OpenPositionStrategy.executeGated venue maxDiffPercent T L waitFuel
        fuel).state.lotSizes.length : ℤ) ≤ OpenPositionStrategy.totalLots T L ∧
    ((OpenPositionStrategy.executeGated venue maxDiffPercent T L waitFuel
        fuel).state.results.length : ℤ) ≤ OpenPositionStrategy.totalLots T L := by
  have hred' : ReducesByRequested (venue.toEnv maxDiffPercent waitFuel) := by
    intro lot size r hlot
    have hsome := hret lot size
    cases hex : venue.executeLot maxDiffPercent waitFuel lot size with
    | none => rw [hex] at hsome; simp at hsome
    | some lotRun =>
      have hres : lotRun.result = .ok r := by
        simpa only [OpenVenue.toEnv, hex] using hlot
      exact hred lot size lotRun r hex hres
  have heq : OpenPositionStrategy.executeGated venue maxDiffPercent T L waitFuel fuel
      = OpenPositionStrategy.execute (venue.toEnv maxDiffPercent waitFuel) T L fuel :=
    openLoopGated_eq_openLoop venue maxDiffPercent L waitFuel hret fuel (OpenState.initial T)
  rw [heq]
  exact open_terminates_within_totalLots (venue.toEnv maxDiffPercent waitFuel) T L hT hL
    hred' fuel hfuel

theorem steadyVenue_executeLot (lot : Nat) (size : ℚ) :
    steadyVenue.executeLot (1 / 10) 1 lot size
      = if size / 100 ≤ 0 then
          some ⟨[.sample ⟨100, 100, 0, true⟩], .error .invalidQuantity⟩
        else
          some ⟨[.sample ⟨100, 100, 0, true⟩, .order .futures .sell (size / 100) false,
              .order .spot .buy (size / 100) false],
            .ok ⟨⟨100, size / 100⟩, ⟨100, size / 100⟩, ⟨100, 100, 0, true⟩⟩⟩ := by
  have hcheck : checkSpread (1 / 10) (.value 100) (.value 100)
      = .ok ⟨100, 100, 0, true⟩ := by decide!
  have hwait : waitForGoodSpread (1 / 10) (steadyVenue.polls lot) 1 0
      = some (⟨100, 100, 0, true⟩, 1) := by
    have h1 : checkSpread (1 / 10) (steadyVenue.polls lot 0).1 (steadyVenue.polls lot 0).2
        = .ok ⟨100, 100, 0, true⟩ := hcheck
    rw [waitForGoodSpread, h1]
    rfl
  have hpoll : pollEvents (1 / 10) (steadyVenue.polls lot) 1 = [.sample ⟨100, 100, 0, true⟩] := by
    have h1 : checkSpread (1 / 10) (steadyVenue.polls lot 0).1 (steadyVenue.polls lot 0).2
        = .ok ⟨100, 100, 0, true⟩ := hcheck
    rw [show (1 : Nat) = 0 + 1 from rfl, pollEvents_succ]
    simp only [pollEvents, List.range_zero, List.map_nil, List.nil_append, pollEvent, h1]
  unfold OpenVenue.executeLot OpenPositionStrategy.executeLot
  rw [hwait]
  simp only [hpoll]
  have hvalid : ¬ ((100 : ℚ) = 0 ∨ (100 : ℚ) = 0 ∨ (100 : ℚ) ≤ 0 ∨ (100 : ℚ) ≤ 0) := by
    norm_num
  rw [if_neg hvalid]
  by_cases hq : size / 100 ≤ 0
  · simp only [hq, or_self, if_true]
  · simp only [hq, or_self, if_false]
    rfl

/-- Witness of C23 amended: target 103 in lots of 100 on a venue whose legs both
quote 100 and whose orders fill exactly: every call of `executeLot` returns at its
first poll, and the loop has ended after three tests of its condition with at most
`ceil(103 / 100) = 2` lots. -/
theorem open_terminates_when_lots_return_witness :
    (OpenPositionStrategy.executeGated steadyVenue (1 / 10) 103 100 1 3).status ≠ .running ∧
    ((OpenPositionStrategy.executeGated steadyVenue (1 / 10) 103 100 1
        3).state.lotSizes.length : ℤ) ≤ OpenPositionStrategy.totalLots 103 100 ∧
    ((OpenPositionStrategy.executeGated steadyVenue (1 / 10) 103 100 1
        3).state.results.length : ℤ) ≤ OpenPositionStrategy.totalLots 103 100 :=
  open_terminates_when_lots_return steadyVenue (1 / 10) 103 100 (by norm_num) (by norm_num) 1
    (by
      intro lot size
      rw [steadyVenue_executeLot]
      split_ifs <;> rfl)
    (by
      intro lot size lotRun r hex hres
      rw [steadyVenue_executeLot] at hex
      split_ifs at hex with hq
      · simp only [Option.some.injEq] at hex
        subst hex
        cases hres
      · simp only [Option.some.injEq] at hex
        subst hex
        simp only [Except.ok.injEq] at hres
        subst hres
        simp only
        ring)
    3 (by decide!)

end AsterArb
